import Mathlib

/-!
Verification development for the `idast` package: a depth-first AST walker
that assigns a slash-joined structural identifier (`NodeId`) to every node
of a Go abstract syntax tree.

The embedding models:
- `nodeid.go`: the `NodeId` type (a string slice) and its operations
  `String`, `dup`, `push`, `pop`, `pushed`, plus `Map`;
- `walk.go`: the traversal (`Walk`/`walk`, `idComponent`, the list helpers
  `walkIdentList`, `walkExprList`/`walkStmtList`/`walkDeclList`, and the
  `Inspect` convenience entry point);
- `unnamed/part_000`: an older variant of the same traversal (`walkOld`
  here), which differs in the `CommentGroup` branch (a stray `id.pop()`),
  in the `Package` branch, and in using `pushed` copies instead of
  balanced push/pop pairs.

Modelling conventions:
- Go interface values (`ast.Node`, `ast.Expr`, ...) collapse into the single
  inductive `Node`; the walker type-switches on the dynamic type anyway.
  A `Node.unknownNode` constructor models a value whose dynamic type is
  outside the closed set handled by the walker (the `default:` branch).
- A Go panic is modelled as `Except.error`: the traversal aborts with no
  partial result.
- The `NodeId` value is a Go slice passed by value into `walk`; every
  `push` is paired with a `pop` in the same frame (or uses a `pushed`
  copy), so each recursive call simply receives the extended path and the
  caller continues with its own unchanged value. The translation therefore
  passes the extended path to the recursive call directly. The one place
  where a `pop` is not paired with a `push` (the `CommentGroup` branch of
  `unnamed/part_000`) is modelled explicitly, including the possible
  slice-bounds panic of the deferred `pop`.
- A visitor (Go interface `Visitor`, one method `Visit(node, id) Visitor`,
  where returning `nil` prunes) is modelled by an arbitrary state type `S`
  with a step function `S → Option Node → NodeId → Option S`; `none`
  models the `nil` visitor.
- The walker returns the ordered list of observations: one entry
  `(some n, id)` per call `Visit(n, id)` with a non-nil node, and one
  entry `(none, id)` per "subtree finished" call `Visit(nil, id)`.
-/

/-- `NodeId` from `nodeid.go`: `type NodeId []string`. -/
abbrev NodeId := List String

/-- Models `NodeId.String()`: `strings.Join(*nid, "/")`. -/
def NodeId.render (nid : NodeId) : String :=
  String.intercalate "/" nid

/-- Models `NodeId.dup()`: a deep copy of the slice. Strings are immutable
values, so in the pure embedding a deep copy is the value itself. -/
def NodeId.dup (nid : NodeId) : NodeId := nid

/-- Models `NodeId.push(c)`: `*nid = append(*nid, c)`. -/
def NodeId.push (nid : NodeId) (c : String) : NodeId := nid ++ [c]

/-- Models `NodeId.pop()`: `*nid = (*nid)[:len(*nid)-1]`. On an empty slice
`len(*nid)-1` underflows and the slice expression panics
(`slice bounds out of range`); this is modelled by `none`. -/
def NodeId.popE (nid : NodeId) : Option NodeId :=
  if nid.length = 0 then none else some (nid.take (nid.length - 1))

/-- Models `NodeId.pushed(cs...)`: `append(nid.dup(), cs...)` — a fresh copy
of the receiver with `cs` appended; the receiver is not written to. -/
def NodeId.pushed (nid : NodeId) (cs : List String) : NodeId :=
  nid.dup ++ cs

/-- The closed set of node variants from `go/ast` handled by `walk.go`,
collapsed into one inductive (the Go walker dispatches on the dynamic type).
Fields that the walker reads are kept; fields it ignores (positions, token
kinds, objects) are dropped. Statically `*ast.Ident`-typed children
(`File.Name`, `SelectorExpr.Sel`, ...) are stored as plain `Node` values;
the accessor `Node.identName` models reading `.Name` from them.
`unknownNode` stands for a value of a dynamic type outside this set. -/
inductive Node where
  | comment (text : String)
  | commentGroup (list : List Node)
  | field (doc : Option Node) (names : List Node) (ty : Node)
      (tag : Option Node) (comm : Option Node)
  | fieldList (list : List Node)
  | badExpr
  | ident (name : String)
  | basicLit (value : String)
  | ellipsis (elt : Option Node)
  | funcLit (ty : Node) (body : Node)
  | compositeLit (ty : Option Node) (elts : List Node)
  | parenExpr (x : Node)
  | selectorExpr (x : Node) (sel : Node)
  | indexExpr (x : Node) (index : Node)
  | sliceExpr (x : Node) (low : Option Node) (high : Option Node)
  | typeAssertExpr (x : Node) (ty : Option Node)
  | callExpr (fn : Node) (args : List Node)
  | starExpr (x : Node)
  | unaryExpr (op : String) (x : Node)
  | binaryExpr (x : Node) (op : String) (y : Node)
  | keyValueExpr (key : Node) (value : Node)
  | arrayType (len : Option Node) (elt : Node)
  | structType (fields : Node)
  | funcType (params : Option Node) (results : Option Node)
  | interfaceType (methods : Node)
  | mapType (key : Node) (value : Node)
  | chanType (value : Node)
  | badStmt
  | declStmt (decl : Node)
  | emptyStmt
  | labeledStmt (label : Node) (stmt : Node)
  | exprStmt (x : Node)
  | sendStmt (ch : Node) (value : Node)
  | incDecStmt (x : Node)
  | assignStmt (lhs : List Node) (rhs : List Node)
  | goStmt (call : Node)
  | deferStmt (call : Node)
  | returnStmt (results : List Node)
  | branchStmt (label : Option Node)
  | blockStmt (list : List Node)
  | ifStmt (ini : Option Node) (cond : Node) (body : Node) (els : Option Node)
  | caseClause (list : List Node) (body : List Node)
  | switchStmt (ini : Option Node) (tag : Option Node) (body : Node)
  | typeSwitchStmt (ini : Option Node) (assign : Node) (body : Node)
  | commClause (comm : Option Node) (body : List Node)
  | selectStmt (body : Node)
  | forStmt (ini : Option Node) (cond : Option Node) (post : Option Node) (body : Node)
  | rangeStmt (key : Node) (value : Option Node) (x : Node) (body : Node)
  | importSpec (doc : Option Node) (name : Option Node) (path : Node) (comm : Option Node)
  | valueSpec (doc : Option Node) (names : List Node) (ty : Option Node)
      (values : List Node) (comm : Option Node)
  | typeSpec (doc : Option Node) (name : Node) (ty : Node) (comm : Option Node)
  | badDecl
  | genDecl (doc : Option Node) (specs : List Node)
  | funcDecl (doc : Option Node) (recv : Option Node) (name : Node) (ty : Node)
      (body : Option Node)
  | file (doc : Option Node) (name : Node) (decls : List Node)
  | package (files : List Node)
  | unknownNode (tag : String)

/-- Models reading `.Name` from a statically `*ast.Ident`-typed field
(total on `Node`; Go static typing guarantees the `ident` case). -/
def Node.identName : Node → String
  | .ident name => name
  | _ => ""

/-- Models `reflect.TypeOf(node).Elem().Name()`: the name of the node's
dynamic (struct) type. For `unknownNode` the reflected name of the foreign
type is its tag. -/
def Node.typeName : Node → String
  | .comment _ => "Comment"
  | .commentGroup _ => "CommentGroup"
  | .field _ _ _ _ _ => "Field"
  | .fieldList _ => "FieldList"
  | .badExpr => "BadExpr"
  | .ident _ => "Ident"
  | .basicLit _ => "BasicLit"
  | .ellipsis _ => "Ellipsis"
  | .funcLit _ _ => "FuncLit"
  | .compositeLit _ _ => "CompositeLit"
  | .parenExpr _ => "ParenExpr"
  | .selectorExpr _ _ => "SelectorExpr"
  | .indexExpr _ _ => "IndexExpr"
  | .sliceExpr _ _ _ => "SliceExpr"
  | .typeAssertExpr _ _ => "TypeAssertExpr"
  | .callExpr _ _ => "CallExpr"
  | .starExpr _ => "StarExpr"
  | .unaryExpr _ _ => "UnaryExpr"
  | .binaryExpr _ _ _ => "BinaryExpr"
  | .keyValueExpr _ _ => "KeyValueExpr"
  | .arrayType _ _ => "ArrayType"
  | .structType _ => "StructType"
  | .funcType _ _ => "FuncType"
  | .interfaceType _ => "InterfaceType"
  | .mapType _ _ => "MapType"
  | .chanType _ => "ChanType"
  | .badStmt => "BadStmt"
  | .declStmt _ => "DeclStmt"
  | .emptyStmt => "EmptyStmt"
  | .labeledStmt _ _ => "LabeledStmt"
  | .exprStmt _ => "ExprStmt"
  | .sendStmt _ _ => "SendStmt"
  | .incDecStmt _ => "IncDecStmt"
  | .assignStmt _ _ => "AssignStmt"
  | .goStmt _ => "GoStmt"
  | .deferStmt _ => "DeferStmt"
  | .returnStmt _ => "ReturnStmt"
  | .branchStmt _ => "BranchStmt"
  | .blockStmt _ => "BlockStmt"
  | .ifStmt _ _ _ _ => "IfStmt"
  | .caseClause _ _ => "CaseClause"
  | .switchStmt _ _ _ => "SwitchStmt"
  | .typeSwitchStmt _ _ _ => "TypeSwitchStmt"
  | .commClause _ _ => "CommClause"
  | .selectStmt _ => "SelectStmt"
  | .forStmt _ _ _ _ => "ForStmt"
  | .rangeStmt _ _ _ _ => "RangeStmt"
  | .importSpec _ _ _ _ => "ImportSpec"
  | .valueSpec _ _ _ _ _ => "ValueSpec"
  | .typeSpec _ _ _ _ => "TypeSpec"
  | .badDecl => "BadDecl"
  | .genDecl _ _ => "GenDecl"
  | .funcDecl _ _ _ _ _ => "FuncDecl"
  | .file _ _ _ => "File"
  | .package _ => "Package"
  | .unknownNode tag => tag

/-- Models `idComponent` from `walk.go` (identical in `unnamed/part_000`).
The Go type switch lists every known variant with an empty body and then
executes `return reflect.TypeOf(node).Elem().Name()`, so every known
variant except `*ast.File` yields its type name; `*ast.File` returns
`n.Name.Name + ".go"`; the `default:` branch prints a message and panics
(`panic("ast.walk")`). -/
def idComponentE (node : Node) : Except String String :=
  match node with
  | .file _ name _ => .ok (name.identName ++ ".go")
  | .unknownNode _ => .error "ast.walk"
  | _ => .ok node.typeName

example : idComponentE (.binaryExpr (.basicLit "1") "+" (.basicLit "2")) =
    .ok "BinaryExpr" := by rfl

example : idComponentE (.file none (.ident "foo") []) = .ok "foo.go" := by rfl

example : idComponentE (.unknownNode "mypkg.Custom") = .error "ast.walk" := by rfl

/-- One observation of the traversal: the arguments of one `Visit` call.
`(some n, id)` is a per-node call; `(none, id)` is a "subtree finished"
sentinel call. -/
abbrev Obs := Option Node × NodeId

/-- The visitor dispatch of `walk` (`walk.go` lines 198-200 and 593):
`v = v.Visit(node, id)`; when the result is nil, `walk` returns having
observed only the visit of the node; otherwise the children are walked
with the returned visitor and `v.Visit(nil, id)` is observed last. -/
def visitStep {S : Type} (r : Option S) (node : Node) (idc : NodeId)
    (kids : S → Except String (List Obs)) : Except String (List Obs) :=
  match r with
  | none => .ok [(some node, idc)]
  | some w => kids w >>= fun ks => .ok ((some node, idc) :: ks ++ [(none, idc)])

set_option maxHeartbeats 2000000 in
mutual

/-- Models `walk` from `walk.go`. `V` is the visitor protocol: `S` is the
dynamic type of the visitor value and `V s (some n) id` models
`s.Visit(n, id)`, returning `none` for the `nil` visitor. The function
returns the ordered list of `Visit` observations, or `Except.error` when
the traversal panics. The Go code computes `c := idComponent(node)`,
pushes it when non-empty (popping again on return via `defer`), calls
`v.Visit(node, id)`, returns at once when that yields `nil`, otherwise
walks the children with the returned visitor (the inline type switch
follows the case order of the source; bodies using
`id.push(l); walk(v, x, id); id.pop()` and bodies using
`walk(v, x, id.pushed(l))` both walk the child at the extended path and
leave the frame's own path unchanged) and finally calls
`v.Visit(nil, id)`. The `NodeId` is a slice passed by value whose
push/pop pairs are frame-local, so the translation hands each child the
extended path and continues with the unchanged one. -/
def walkE {S : Type} (V : S → Option Node → NodeId → Option S) (s : S)
    (node : Node) (nid : NodeId) : Except String (List Obs) :=
  match idComponentE node with
  | .error e => .error e
  | .ok c =>
    let idc := if c ≠ "" then nid.push c else nid
    visitStep (V s (some node) idc) node idc (fun w =>
      match node with
        | .comment _ => .ok []
        | .commentGroup list => walkNodeListE V w list 0 (idc.push "List")
        | .field doc names ty tag comm => do
            let o1 ← walkOptE V w doc (idc.pushed ["Doc"])
            let o2 ← walkIdentListE V w names (idc.push "Names")
            let o3 ← walkE V w ty (idc.push "Type")
            let o4 ← walkOptE V w tag (idc.pushed ["Tag"])
            let o5 ← walkOptE V w comm (idc.pushed ["Comment"])
            .ok (o1 ++ o2 ++ o3 ++ o4 ++ o5)
        | .fieldList list => walkNodeListE V w list 0 (idc.push "List")
        | .badExpr => .ok []
        | .ident _ => .ok []
        | .basicLit _ => .ok []
        | .ellipsis elt => walkOptE V w elt (idc.pushed ["Elt"])
        | .funcLit ty body => do
            let o1 ← walkE V w ty (idc.pushed ["Type"])
            let o2 ← walkE V w body (idc.pushed ["Body"])
            .ok (o1 ++ o2)
        | .compositeLit ty elts => do
            let o1 ← walkOptE V w ty (idc.pushed ["Type"])
            let o2 ← walkNodeListE V w elts 0 (idc.pushed ["Elts"])
            .ok (o1 ++ o2)
        | .parenExpr x => walkE V w x (idc.push "X")
        | .selectorExpr x sel => do
            let o1 ← walkE V w x (idc.push "X")
            let o2 ← walkE V w sel (idc.push "Sel")
            .ok (o1 ++ o2)
        | .indexExpr x index => do
            let o1 ← walkE V w x (idc.push "X")
            let o2 ← walkE V w index (idc.push "Index")
            .ok (o1 ++ o2)
        | .sliceExpr x low high => do
            let o1 ← walkE V w x (idc.push "X")
            let o2 ← walkOptE V w low (idc.push "Low")
            let o3 ← walkOptE V w high (idc.push "High")
            .ok (o1 ++ o2 ++ o3)
        | .typeAssertExpr x ty => do
            let o1 ← walkE V w x (idc.pushed ["X"])
            let o2 ← walkOptE V w ty (idc.pushed ["Type"])
            .ok (o1 ++ o2)
        | .callExpr fn args => do
            let o1 ← walkE V w fn (idc.push "Fun")
            let o2 ← walkNodeListE V w args 0 (idc.push "Args")
            .ok (o1 ++ o2)
        | .starExpr x => walkE V w x (idc.push "X")
        | .unaryExpr _ x => walkE V w x (idc.push "X")
        | .binaryExpr x _ y => do
            let o1 ← walkE V w x (idc.push "X")
            let o2 ← walkE V w y (idc.push "Y")
            .ok (o1 ++ o2)
        | .keyValueExpr key value => do
            let o1 ← walkE V w key (idc.push "Key")
            let o2 ← walkE V w value (idc.push "Value")
            .ok (o1 ++ o2)
        | .arrayType len elt => do
            let o1 ← walkOptE V w len (idc.pushed ["Len"])
            let o2 ← walkE V w elt (idc.pushed ["Elt"])
            .ok (o1 ++ o2)
        | .structType fields => walkE V w fields (idc.pushed ["Fields"])
        | .funcType params results => do
            let o1 ← walkOptE V w params (idc.pushed ["Params"])
            let o2 ← walkOptE V w results (idc.pushed ["Results"])
            .ok (o1 ++ o2)
        | .interfaceType methods => walkE V w methods (idc.pushed ["Methods"])
        | .mapType key value => do
            let o1 ← walkE V w key (idc.pushed ["Key"])
            let o2 ← walkE V w value (idc.pushed ["Value"])
            .ok (o1 ++ o2)
        | .chanType value => walkE V w value (idc.pushed ["Value"])
        | .badStmt => .ok []
        | .declStmt decl => walkE V w decl (idc.push "Decl")
        | .emptyStmt => .ok []
        | .labeledStmt label stmt => do
            let o1 ← walkE V w label (idc.pushed ["Label"])
            let o2 ← walkE V w stmt (idc.pushed ["Stmt"])
            .ok (o1 ++ o2)
        | .exprStmt x => walkE V w x (idc.push "X")
        | .sendStmt ch value => do
            let o1 ← walkE V w ch (idc.pushed ["Chan"])
            let o2 ← walkE V w value (idc.pushed ["Value"])
            .ok (o1 ++ o2)
        | .incDecStmt x => walkE V w x (idc.pushed ["X"])
        | .assignStmt lhs rhs => do
            let o1 ← walkNodeListE V w lhs 0 (idc.push "Lhs")
            let o2 ← walkNodeListE V w rhs 0 (idc.push "Rhs")
            .ok (o1 ++ o2)
        | .goStmt call => walkE V w call (idc.pushed ["Call"])
        | .deferStmt call => walkE V w call (idc.pushed ["Call"])
        | .returnStmt results => walkNodeListE V w results 0 (idc.push "Results")
        | .branchStmt label => walkOptE V w label (idc.pushed ["Label"])
        | .blockStmt list => walkNodeListE V w list 0 (idc.push "List")
        | .ifStmt ini cond body els => do
            let o1 ← walkOptE V w ini (idc.push "Init")
            let o2 ← walkE V w cond (idc.push "Cond")
            let o3 ← walkE V w body (idc.push "Body")
            let o4 ← walkOptE V w els (idc.pushed ["Else"])
            .ok (o1 ++ o2 ++ o3 ++ o4)
        | .caseClause list body => do
            let o1 ← walkNodeListE V w list 0 (idc.pushed ["List"])
            let o2 ← walkNodeListE V w body 0 (idc.pushed ["Body"])
            .ok (o1 ++ o2)
        | .switchStmt ini tag body => do
            let o1 ← walkOptE V w ini (idc.pushed ["Init"])
            let o2 ← walkOptE V w tag (idc.pushed ["Tag"])
            let o3 ← walkE V w body (idc.pushed ["Body"])
            .ok (o1 ++ o2 ++ o3)
        | .typeSwitchStmt ini assign body => do
            let o1 ← walkOptE V w ini (idc.pushed ["Init"])
            let o2 ← walkE V w assign (idc.pushed ["Assign"])
            let o3 ← walkE V w body (idc.pushed ["Body"])
            .ok (o1 ++ o2 ++ o3)
        | .commClause comm body => do
            let o1 ← walkOptE V w comm (idc.pushed ["Comm"])
            let o2 ← walkNodeListE V w body 0 (idc.pushed ["Body"])
            .ok (o1 ++ o2)
        | .selectStmt body => walkE V w body (idc.pushed ["Body"])
        | .forStmt ini cond post body => do
            let o1 ← walkOptE V w ini (idc.pushed ["Init"])
            let o2 ← walkOptE V w cond (idc.pushed ["Cond"])
            let o3 ← walkOptE V w post (idc.pushed ["Post"])
            let o4 ← walkE V w body (idc.pushed ["Body"])
            .ok (o1 ++ o2 ++ o3 ++ o4)
        | .rangeStmt key value x body => do
            let o1 ← walkE V w key (idc.pushed ["Key"])
            let o2 ← walkOptE V w value (idc.pushed ["Value"])
            let o3 ← walkE V w x (idc.pushed ["X"])
            let o4 ← walkE V w body (idc.pushed ["Body"])
            .ok (o1 ++ o2 ++ o3 ++ o4)
        | .importSpec doc name path comm => do
            let o1 ← walkOptE V w doc (idc.pushed ["Doc"])
            let o2 ← walkOptE V w name (idc.pushed ["Name"])
            let o3 ← walkE V w path (idc.pushed ["Path"])
            let o4 ← walkOptE V w comm (idc.pushed ["Comment"])
            .ok (o1 ++ o2 ++ o3 ++ o4)
        | .valueSpec doc names ty values comm => do
            let o1 ← walkOptE V w doc (idc.push "Doc")
            let o2 ← walkIdentListE V w names (idc.push "Names")
            let o3 ← walkOptE V w ty (idc.push "Type")
            let o4 ← walkNodeListE V w values 0 (idc.push "Values")
            let o5 ← walkOptE V w comm (idc.pushed ["Comment"])
            .ok (o1 ++ o2 ++ o3 ++ o4 ++ o5)
        | .typeSpec doc name ty comm => do
            let o1 ← walkOptE V w doc (idc.pushed ["Doc"])
            let o2 ← walkE V w name (idc.pushed ["Name"])
            let o3 ← walkE V w ty (idc.pushed ["Type"])
            let o4 ← walkOptE V w comm (idc.pushed ["Comment"])
            .ok (o1 ++ o2 ++ o3 ++ o4)
        | .badDecl => .ok []
        | .genDecl doc specs => do
            let o1 ← walkOptE V w doc (idc.push "Doc")
            let o2 ← walkNodeListE V w specs 0 (idc.push "Specs")
            .ok (o1 ++ o2)
        | .funcDecl doc recv name ty body => do
            let o1 ← walkOptE V w doc (idc.pushed ["Doc"])
            let o2 ← walkOptE V w recv (idc.pushed ["Recv"])
            let o3 ← walkE V w name (idc.pushed ["Name"])
            let o4 ← walkE V w ty (idc.pushed ["Type"])
            let o5 ← walkOptE V w body (idc.pushed ["Body"])
            .ok (o1 ++ o2 ++ o3 ++ o4 ++ o5)
        | .file doc name decls => do
            let o1 ← walkOptE V w doc (idc.pushed ["Doc"])
            let o2 ← walkE V w name (idc.pushed ["Name"])
            let o3 ← walkNodeListE V w decls 0 (idc.pushed ["Decls"])
            .ok (o1 ++ o2 ++ o3)
        | .package files => walkFilesE V w files (idc.push "Files")
        | .unknownNode _ => .error "ast.walk"
      )

/-- Models the `if x != nil { walk(v, x, ...) }` pattern of `walk.go`. -/
def walkOptE {S : Type} (V : S → Option Node → NodeId → Option S) (s : S)
    (o : Option Node) (nid : NodeId) : Except String (List Obs) :=
  match o with
  | none => .ok []
  | some x => walkE V s x nid

/-- Models `walkIdentList` from `walk.go`: every element is walked at the
path extended with the element's `Name` (not its index). -/
def walkIdentListE {S : Type} (V : S → Option Node → NodeId → Option S) (s : S)
    (list : List Node) (nid : NodeId) : Except String (List Obs) :=
  match list with
  | [] => .ok []
  | x :: xs => do
      let o1 ← walkE V s x (nid.push x.identName)
      let o2 ← walkIdentListE V s xs nid
      .ok (o1 ++ o2)

/-- Models `walkExprList`, `walkStmtList` and `walkDeclList` from `walk.go`
(and the inline indexed loops of the `CommentGroup`, `FieldList` and
`GenDecl` branches): once the element interface types are erased, all of
them are the same loop walking element `i` at the path extended with
`strconv.Itoa(i)`. -/
def walkNodeListE {S : Type} (V : S → Option Node → NodeId → Option S) (s : S)
    (list : List Node) (i : Nat) (nid : NodeId) : Except String (List Obs) :=
  match list with
  | [] => .ok []
  | x :: xs => do
      let o1 ← walkE V s x (nid.push (Nat.repr i))
      let o2 ← walkNodeListE V s xs (i + 1) nid
      .ok (o1 ++ o2)

/-- Models the `Package` loop of `walk.go`: `for _, f := range n.Files`
walks every file at the current path, with no per-file label. -/
def walkFilesE {S : Type} (V : S → Option Node → NodeId → Option S) (s : S)
    (files : List Node) (nid : NodeId) : Except String (List Obs) :=
  match files with
  | [] => .ok []
  | f :: fs => do
      let o1 ← walkE V s f nid
      let o2 ← walkFilesE V s fs nid
      .ok (o1 ++ o2)

end

/-- Models `Walk` from `walk.go`: starts `walk` with a fresh empty `NodeId`. -/
def WalkE {S : Type} (V : S → Option Node → NodeId → Option S) (s : S)
    (n : Node) : Except String (List Obs) :=
  walkE V s n []

/-- Models `Inspect` from `walk.go`: wraps a boolean predicate as the
`inspector` visitor, which returns itself when the predicate yields true
and the `nil` visitor otherwise. -/
def InspectE (n : Node) (f : Option Node → NodeId → Bool) :
    Except String (List Obs) :=
  WalkE (fun _ node nid => if f node nid then some () else none) () n

/-- Models `collect` from `idast_test.go`: `Inspect` with a recorder that
appends `NodeWithId{node, id.dup()}` for every non-nil node and always
returns true. -/
def collectE (n : Node) : Except String (List (Node × NodeId)) :=
  (InspectE n (fun _ _ => true)).map
    (fun l => l.filterMap (fun p => p.1.map (fun m => (m, p.2.dup))))

/-- Models `Map` from `nodeid.go`: `Inspect` recording `m[node] = id.dup()`
for every non-nil node. Go keys the map by pointer identity, under which
every visited node occurrence is a distinct key, so the map's contents are
exactly this ordered association list. -/
def MapE (n : Node) : Except String (List (Node × NodeId)) :=
  (InspectE n (fun _ _ => true)).map
    (fun l => l.filterMap (fun p => p.1.map (fun m => (m, p.2.dup))))

example : collectE (.binaryExpr (.basicLit "1") "+" (.basicLit "2")) =
    .ok [(.binaryExpr (.basicLit "1") "+" (.basicLit "2"), ["BinaryExpr"]),
         (.basicLit "1", ["BinaryExpr", "X", "BasicLit"]),
         (.basicLit "2", ["BinaryExpr", "Y", "BasicLit"])] := by rfl

/-- The visitor dispatch of `walk` in `unnamed/part_000`, including the
frame-local path `r.2` left behind by the children switch: the sentinel
`v.Visit(nil, id)` observes it, and the deferred `id.pop()` of the own
label is applied to it afterwards, panicking when it is empty. -/
def visitStepOld {S : Type} (r : Option S) (node : Node) (idc : NodeId) (c : String)
    (kids : S → Except String (List Obs × NodeId)) : Except String (List Obs) :=
  match r with
  | none => .ok [(some node, idc)]
  | some w => kids w >>= fun rr =>
      match (if c ≠ "" then rr.2.popE else some rr.2) with
      | none => .error "slice bounds out of range"
      | some _ => .ok ((some node, idc) :: rr.1 ++ [(none, rr.2)])

/-- Models `f.Name.Name` for a statically `*ast.File`-typed value, as read
by the `Package` branch of `unnamed/part_000`. -/
def Node.filePkgName : Node → String
  | .file _ name _ => name.identName
  | _ => ""

set_option maxHeartbeats 2000000 in
mutual

/-- Models `walk` from `unnamed/part_000`, the older traversal variant.
It shares `idComponent` and the overall shape with `walk.go` but walks
most children on `pushed` copies, pushes `"Files"` plus the file's package
name per file in the `Package` branch, and its `CommentGroup` branch
executes a stray `id.pop()` on the frame-local path after the loop over
the (copied) children paths. Because of that stray pop the frame-local
path at the `v.Visit(nil, id)` sentinel is no longer the pushed path, and
the deferred `id.pop()` of the own label can underflow (a Go slice-bounds
panic). The children switch therefore also yields the frame-local path it
leaves behind; the sentinel observes it, and the deferred pop is applied
to it.  -/
def walkOldE {S : Type} (V : S → Option Node → NodeId → Option S) (s : S)
    (node : Node) (nid : NodeId) : Except String (List Obs) :=
  match idComponentE node with
  | .error e => .error e
  | .ok c =>
    let idc := if c ≠ "" then nid.push c else nid
    visitStepOld (V s (some node) idc) node idc c (fun w =>
      match node with
      | .comment _ => .ok ([], idc)
      | .commentGroup list => do
          let o1 ← walkIdxListOldE V w "List" list 0 idc
          match idc.popE with
          | none => .error "slice bounds out of range"
          | some idp => .ok (o1, idp)
      | .field doc names ty tag comm => do
          let o1 ← walkOptOldE V w doc (idc.pushed ["Doc"])
          let o2 ← walkIdentListOldE V w names (idc.pushed ["Names"])
          let o3 ← walkOldE V w ty (idc.pushed ["Type"])
          let o4 ← walkOptOldE V w tag (idc.pushed ["Tag"])
          let o5 ← walkOptOldE V w comm (idc.pushed ["Comment"])
          .ok (o1 ++ o2 ++ o3 ++ o4 ++ o5, idc)
      | .fieldList list => do
          let o1 ← walkIdxListOldE V w "List" list 0 idc
          .ok (o1, idc)
      | .badExpr => .ok ([], idc)
      | .ident _ => .ok ([], idc)
      | .basicLit _ => .ok ([], idc)
      | .ellipsis elt => do
          let o1 ← walkOptOldE V w elt (idc.pushed ["Elt"])
          .ok (o1, idc)
      | .funcLit ty body => do
          let o1 ← walkOldE V w ty (idc.pushed ["Type"])
          let o2 ← walkOldE V w body (idc.pushed ["Body"])
          .ok (o1 ++ o2, idc)
      | .compositeLit ty elts => do
          let o1 ← walkOptOldE V w ty (idc.pushed ["Type"])
          let o2 ← walkNodeListOldE V w elts 0 (idc.pushed ["Elts"])
          .ok (o1 ++ o2, idc)
      | .parenExpr x => do
          let o1 ← walkOldE V w x (idc.pushed ["X"])
          .ok (o1, idc)
      | .selectorExpr x sel => do
          let o1 ← walkOldE V w x (idc.pushed ["X"])
          let o2 ← walkOldE V w sel (idc.pushed ["Sel"])
          .ok (o1 ++ o2, idc)
      | .indexExpr x index => do
          let o1 ← walkOldE V w x (idc.pushed ["X"])
          let o2 ← walkOldE V w index (idc.pushed ["Index"])
          .ok (o1 ++ o2, idc)
      | .sliceExpr x low high => do
          let o1 ← walkOldE V w x (idc.pushed ["X"])
          let o2 ← walkOptOldE V w low (idc.pushed ["Low"])
          let o3 ← walkOptOldE V w high (idc.pushed ["High"])
          .ok (o1 ++ o2 ++ o3, idc)
      | .typeAssertExpr x ty => do
          let o1 ← walkOldE V w x (idc.pushed ["X"])
          let o2 ← walkOptOldE V w ty (idc.pushed ["Type"])
          .ok (o1 ++ o2, idc)
      | .callExpr fn args => do
          let o1 ← walkOldE V w fn (idc.pushed ["Fun"])
          let o2 ← walkNodeListOldE V w args 0 (idc.pushed ["Args"])
          .ok (o1 ++ o2, idc)
      | .starExpr x => do
          let o1 ← walkOldE V w x (idc.pushed ["X"])
          .ok (o1, idc)
      | .unaryExpr _ x => do
          let o1 ← walkOldE V w x (idc.pushed ["X"])
          .ok (o1, idc)
      | .binaryExpr x _ y => do
          let o1 ← walkOldE V w x (idc.pushed ["X"])
          let o2 ← walkOldE V w y (idc.pushed ["Y"])
          .ok (o1 ++ o2, idc)
      | .keyValueExpr key value => do
          let o1 ← walkOldE V w key (idc.pushed ["Key"])
          let o2 ← walkOldE V w value (idc.pushed ["Value"])
          .ok (o1 ++ o2, idc)
      | .arrayType len elt => do
          let o1 ← walkOptOldE V w len (idc.pushed ["Len"])
          let o2 ← walkOldE V w elt (idc.pushed ["Elt"])
          .ok (o1 ++ o2, idc)
      | .structType fields => do
          let o1 ← walkOldE V w fields (idc.pushed ["Fields"])
          .ok (o1, idc)
      | .funcType params results => do
          let o1 ← walkOptOldE V w params (idc.pushed ["Params"])
          let o2 ← walkOptOldE V w results (idc.pushed ["Results"])
          .ok (o1 ++ o2, idc)
      | .interfaceType methods => do
          let o1 ← walkOldE V w methods (idc.pushed ["Methods"])
          .ok (o1, idc)
      | .mapType key value => do
          let o1 ← walkOldE V w key (idc.pushed ["Key"])
          let o2 ← walkOldE V w value (idc.pushed ["Value"])
          .ok (o1 ++ o2, idc)
      | .chanType value => do
          let o1 ← walkOldE V w value (idc.pushed ["Value"])
          .ok (o1, idc)
      | .badStmt => .ok ([], idc)
      | .declStmt decl => do
          let o1 ← walkOldE V w decl (idc.pushed ["Decl"])
          .ok (o1, idc)
      | .emptyStmt => .ok ([], idc)
      | .labeledStmt label stmt => do
          let o1 ← walkOldE V w label (idc.pushed ["Label"])
          let o2 ← walkOldE V w stmt (idc.pushed ["Stmt"])
          .ok (o1 ++ o2, idc)
      | .exprStmt x => do
          let o1 ← walkOldE V w x (idc.pushed ["X"])
          .ok (o1, idc)
      | .sendStmt ch value => do
          let o1 ← walkOldE V w ch (idc.pushed ["Chan"])
          let o2 ← walkOldE V w value (idc.pushed ["Value"])
          .ok (o1 ++ o2, idc)
      | .incDecStmt x => do
          let o1 ← walkOldE V w x (idc.pushed ["X"])
          .ok (o1, idc)
      | .assignStmt lhs rhs => do
          let o1 ← walkNodeListOldE V w lhs 0 (idc.pushed ["Lhs"])
          let o2 ← walkNodeListOldE V w rhs 0 (idc.pushed ["Rhs"])
          .ok (o1 ++ o2, idc)
      | .goStmt call => do
          let o1 ← walkOldE V w call (idc.pushed ["Call"])
          .ok (o1, idc)
      | .deferStmt call => do
          let o1 ← walkOldE V w call (idc.pushed ["Call"])
          .ok (o1, idc)
      | .returnStmt results => do
          let o1 ← walkNodeListOldE V w results 0 (idc.pushed ["Results"])
          .ok (o1, idc)
      | .branchStmt label => do
          let o1 ← walkOptOldE V w label (idc.pushed ["Label"])
          .ok (o1, idc)
      | .blockStmt list => do
          let o1 ← walkNodeListOldE V w list 0 (idc.pushed ["List"])
          .ok (o1, idc)
      | .ifStmt ini cond body els => do
          let o1 ← walkOptOldE V w ini (idc.pushed ["Init"])
          let o2 ← walkOldE V w cond (idc.pushed ["Cond"])
          let o3 ← walkOldE V w body (idc.pushed ["Body"])
          let o4 ← walkOptOldE V w els (idc.pushed ["Else"])
          .ok (o1 ++ o2 ++ o3 ++ o4, idc)
      | .caseClause list body => do
          let o1 ← walkNodeListOldE V w list 0 (idc.pushed ["List"])
          let o2 ← walkNodeListOldE V w body 0 (idc.pushed ["Body"])
          .ok (o1 ++ o2, idc)
      | .switchStmt ini tag body => do
          let o1 ← walkOptOldE V w ini (idc.pushed ["Init"])
          let o2 ← walkOptOldE V w tag (idc.pushed ["Tag"])
          let o3 ← walkOldE V w body (idc.pushed ["Body"])
          .ok (o1 ++ o2 ++ o3, idc)
      | .typeSwitchStmt ini assign body => do
          let o1 ← walkOptOldE V w ini (idc.pushed ["Init"])
          let o2 ← walkOldE V w assign (idc.pushed ["Assign"])
          let o3 ← walkOldE V w body (idc.pushed ["Body"])
          .ok (o1 ++ o2 ++ o3, idc)
      | .commClause comm body => do
          let o1 ← walkOptOldE V w comm (idc.pushed ["Comm"])
          let o2 ← walkNodeListOldE V w body 0 (idc.pushed ["Body"])
          .ok (o1 ++ o2, idc)
      | .selectStmt body => do
          let o1 ← walkOldE V w body (idc.pushed ["Body"])
          .ok (o1, idc)
      | .forStmt ini cond post body => do
          let o1 ← walkOptOldE V w ini (idc.pushed ["Init"])
          let o2 ← walkOptOldE V w cond (idc.pushed ["Cond"])
          let o3 ← walkOptOldE V w post (idc.pushed ["Post"])
          let o4 ← walkOldE V w body (idc.pushed ["Body"])
          .ok (o1 ++ o2 ++ o3 ++ o4, idc)
      | .rangeStmt key value x body => do
          let o1 ← walkOldE V w key (idc.pushed ["Key"])
          let o2 ← walkOptOldE V w value (idc.pushed ["Value"])
          let o3 ← walkOldE V w x (idc.pushed ["X"])
          let o4 ← walkOldE V w body (idc.pushed ["Body"])
          .ok (o1 ++ o2 ++ o3 ++ o4, idc)
      | .importSpec doc name path comm => do
          let o1 ← walkOptOldE V w doc (idc.pushed ["Doc"])
          let o2 ← walkOptOldE V w name (idc.pushed ["Name"])
          let o3 ← walkOldE V w path (idc.pushed ["Path"])
          let o4 ← walkOptOldE V w comm (idc.pushed ["Comment"])
          .ok (o1 ++ o2 ++ o3 ++ o4, idc)
      | .valueSpec doc names ty values comm => do
          let o1 ← walkOptOldE V w doc (idc.pushed ["Doc"])
          let o2 ← walkIdentListOldE V w names (idc.pushed ["Names"])
          let o3 ← walkOptOldE V w ty (idc.pushed ["Type"])
          let o4 ← walkNodeListOldE V w values 0 (idc.pushed ["Values"])
          let o5 ← walkOptOldE V w comm (idc.pushed ["Comment"])
          .ok (o1 ++ o2 ++ o3 ++ o4 ++ o5, idc)
      | .typeSpec doc name ty comm => do
          let o1 ← walkOptOldE V w doc (idc.pushed ["Doc"])
          let o2 ← walkOldE V w name (idc.pushed ["Name"])
          let o3 ← walkOldE V w ty (idc.pushed ["Type"])
          let o4 ← walkOptOldE V w comm (idc.pushed ["Comment"])
          .ok (o1 ++ o2 ++ o3 ++ o4, idc)
      | .badDecl => .ok ([], idc)
      | .genDecl doc specs => do
          let o1 ← walkOptOldE V w doc (idc.pushed ["Doc"])
          let o2 ← walkIdxListOldE V w "Specs" specs 0 idc
          .ok (o1 ++ o2, idc)
      | .funcDecl doc recv name ty body => do
          let o1 ← walkOptOldE V w doc (idc.pushed ["Doc"])
          let o2 ← walkOptOldE V w recv (idc.pushed ["Recv"])
          let o3 ← walkOldE V w name (idc.pushed ["Name"])
          let o4 ← walkOldE V w ty (idc.pushed ["Type"])
          let o5 ← walkOptOldE V w body (idc.pushed ["Body"])
          .ok (o1 ++ o2 ++ o3 ++ o4 ++ o5, idc)
      | .file doc name decls => do
          let o1 ← walkOptOldE V w doc (idc.pushed ["Doc"])
          let o2 ← walkOldE V w name (idc.pushed ["Name"])
          let o3 ← walkNodeListOldE V w decls 0 (idc.pushed ["Decls"])
          .ok (o1 ++ o2 ++ o3, idc)
      | .package files => do
          let o1 ← walkFilesOldE V w files idc
          .ok (o1, idc)
      | .unknownNode _ => .error "ast.walk"
      )

/-- Models `if x != nil { walk(v, x, ...) }` in `unnamed/part_000`. -/
def walkOptOldE {S : Type} (V : S → Option Node → NodeId → Option S) (s : S)
    (o : Option Node) (nid : NodeId) : Except String (List Obs) :=
  match o with
  | none => .ok []
  | some x => walkOldE V s x nid

/-- Models `walkIdentList` from `unnamed/part_000` (textually the same as
in `walk.go`). -/
def walkIdentListOldE {S : Type} (V : S → Option Node → NodeId → Option S) (s : S)
    (list : List Node) (nid : NodeId) : Except String (List Obs) :=
  match list with
  | [] => .ok []
  | x :: xs => do
      let o1 ← walkOldE V s x (nid.push x.identName)
      let o2 ← walkIdentListOldE V s xs nid
      .ok (o1 ++ o2)

/-- Models `walkExprList`, `walkStmtList` and `walkDeclList` from
`unnamed/part_000` (textually the same as in `walk.go`). -/
def walkNodeListOldE {S : Type} (V : S → Option Node → NodeId → Option S) (s : S)
    (list : List Node) (i : Nat) (nid : NodeId) : Except String (List Obs) :=
  match list with
  | [] => .ok []
  | x :: xs => do
      let o1 ← walkOldE V s x (nid.push (Nat.repr i))
      let o2 ← walkNodeListOldE V s xs (i + 1) nid
      .ok (o1 ++ o2)

/-- Models the inline loops `walk(v, x, id.pushed(lab, strconv.Itoa(i)))` of
the `CommentGroup`, `FieldList` and `GenDecl` branches of
`unnamed/part_000`: each element is walked on a fresh copy of the path
extended with the slot label and the element index. -/
def walkIdxListOldE {S : Type} (V : S → Option Node → NodeId → Option S) (s : S)
    (lab : String) (list : List Node) (i : Nat) (idc : NodeId) :
    Except String (List Obs) :=
  match list with
  | [] => .ok []
  | x :: xs => do
      let o1 ← walkOldE V s x (idc.pushed [lab, Nat.repr i])
      let o2 ← walkIdxListOldE V s lab xs (i + 1) idc
      .ok (o1 ++ o2)

/-- Models the `Package` loop of `unnamed/part_000`:
`walk(v, f, id.pushed("Files", f.Name.Name))`. -/
def walkFilesOldE {S : Type} (V : S → Option Node → NodeId → Option S) (s : S)
    (files : List Node) (idc : NodeId) : Except String (List Obs) :=
  match files with
  | [] => .ok []
  | f :: fs => do
      let o1 ← walkOldE V s f (idc.pushed ["Files", f.filePkgName])
      let o2 ← walkFilesOldE V s fs idc
      .ok (o1 ++ o2)

end

example : walkOldE (fun _ _ _ => some ()) ()
    (.field (some (.commentGroup [.comment "c"])) [] (.ident "T") none none) [] =
    .ok [(some (.field (some (.commentGroup [.comment "c"])) [] (.ident "T") none none), ["Field"]),
         (some (.commentGroup [.comment "c"]), ["Field", "Doc", "CommentGroup"]),
         (some (.comment "c"), ["Field", "Doc", "CommentGroup", "List", "0", "Comment"]),
         (none, ["Field", "Doc", "CommentGroup", "List", "0", "Comment"]),
         (none, ["Field", "Doc"]),
         (some (.ident "T"), ["Field", "Type", "Ident"]),
         (none, ["Field", "Type", "Ident"]),
         (none, ["Field"])] := by rfl


/-- The children type switch of `walk` (`walk.go`), factored out of `walkE`
for reasoning: `walkChildrenE V w node idc` is exactly the parenthesised
match inside `walkE`. -/
def walkChildrenE {S : Type} (V : S → Option Node → NodeId → Option S) (s : S)
    (node : Node) (idc : NodeId) : Except String (List Obs) :=
  match node with
    | .comment _ => .ok []
    | .commentGroup list => walkNodeListE V s list 0 (idc.push "List")
    | .field doc names ty tag comm => do
        let o1 ← walkOptE V s doc (idc.pushed ["Doc"])
        let o2 ← walkIdentListE V s names (idc.push "Names")
        let o3 ← walkE V s ty (idc.push "Type")
        let o4 ← walkOptE V s tag (idc.pushed ["Tag"])
        let o5 ← walkOptE V s comm (idc.pushed ["Comment"])
        .ok (o1 ++ o2 ++ o3 ++ o4 ++ o5)
    | .fieldList list => walkNodeListE V s list 0 (idc.push "List")
    | .badExpr => .ok []
    | .ident _ => .ok []
    | .basicLit _ => .ok []
    | .ellipsis elt => walkOptE V s elt (idc.pushed ["Elt"])
    | .funcLit ty body => do
        let o1 ← walkE V s ty (idc.pushed ["Type"])
        let o2 ← walkE V s body (idc.pushed ["Body"])
        .ok (o1 ++ o2)
    | .compositeLit ty elts => do
        let o1 ← walkOptE V s ty (idc.pushed ["Type"])
        let o2 ← walkNodeListE V s elts 0 (idc.pushed ["Elts"])
        .ok (o1 ++ o2)
    | .parenExpr x => walkE V s x (idc.push "X")
    | .selectorExpr x sel => do
        let o1 ← walkE V s x (idc.push "X")
        let o2 ← walkE V s sel (idc.push "Sel")
        .ok (o1 ++ o2)
    | .indexExpr x index => do
        let o1 ← walkE V s x (idc.push "X")
        let o2 ← walkE V s index (idc.push "Index")
        .ok (o1 ++ o2)
    | .sliceExpr x low high => do
        let o1 ← walkE V s x (idc.push "X")
        let o2 ← walkOptE V s low (idc.push "Low")
        let o3 ← walkOptE V s high (idc.push "High")
        .ok (o1 ++ o2 ++ o3)
    | .typeAssertExpr x ty => do
        let o1 ← walkE V s x (idc.pushed ["X"])
        let o2 ← walkOptE V s ty (idc.pushed ["Type"])
        .ok (o1 ++ o2)
    | .callExpr fn args => do
        let o1 ← walkE V s fn (idc.push "Fun")
        let o2 ← walkNodeListE V s args 0 (idc.push "Args")
        .ok (o1 ++ o2)
    | .starExpr x => walkE V s x (idc.push "X")
    | .unaryExpr _ x => walkE V s x (idc.push "X")
    | .binaryExpr x _ y => do
        let o1 ← walkE V s x (idc.push "X")
        let o2 ← walkE V s y (idc.push "Y")
        .ok (o1 ++ o2)
    | .keyValueExpr key value => do
        let o1 ← walkE V s key (idc.push "Key")
        let o2 ← walkE V s value (idc.push "Value")
        .ok (o1 ++ o2)
    | .arrayType len elt => do
        let o1 ← walkOptE V s len (idc.pushed ["Len"])
        let o2 ← walkE V s elt (idc.pushed ["Elt"])
        .ok (o1 ++ o2)
    | .structType fields => walkE V s fields (idc.pushed ["Fields"])
    | .funcType params results => do
        let o1 ← walkOptE V s params (idc.pushed ["Params"])
        let o2 ← walkOptE V s results (idc.pushed ["Results"])
        .ok (o1 ++ o2)
    | .interfaceType methods => walkE V s methods (idc.pushed ["Methods"])
    | .mapType key value => do
        let o1 ← walkE V s key (idc.pushed ["Key"])
        let o2 ← walkE V s value (idc.pushed ["Value"])
        .ok (o1 ++ o2)
    | .chanType value => walkE V s value (idc.pushed ["Value"])
    | .badStmt => .ok []
    | .declStmt decl => walkE V s decl (idc.push "Decl")
    | .emptyStmt => .ok []
    | .labeledStmt label stmt => do
        let o1 ← walkE V s label (idc.pushed ["Label"])
        let o2 ← walkE V s stmt (idc.pushed ["Stmt"])
        .ok (o1 ++ o2)
    | .exprStmt x => walkE V s x (idc.push "X")
    | .sendStmt ch value => do
        let o1 ← walkE V s ch (idc.pushed ["Chan"])
        let o2 ← walkE V s value (idc.pushed ["Value"])
        .ok (o1 ++ o2)
    | .incDecStmt x => walkE V s x (idc.pushed ["X"])
    | .assignStmt lhs rhs => do
        let o1 ← walkNodeListE V s lhs 0 (idc.push "Lhs")
        let o2 ← walkNodeListE V s rhs 0 (idc.push "Rhs")
        .ok (o1 ++ o2)
    | .goStmt call => walkE V s call (idc.pushed ["Call"])
    | .deferStmt call => walkE V s call (idc.pushed ["Call"])
    | .returnStmt results => walkNodeListE V s results 0 (idc.push "Results")
    | .branchStmt label => walkOptE V s label (idc.pushed ["Label"])
    | .blockStmt list => walkNodeListE V s list 0 (idc.push "List")
    | .ifStmt ini cond body els => do
        let o1 ← walkOptE V s ini (idc.push "Init")
        let o2 ← walkE V s cond (idc.push "Cond")
        let o3 ← walkE V s body (idc.push "Body")
        let o4 ← walkOptE V s els (idc.pushed ["Else"])
        .ok (o1 ++ o2 ++ o3 ++ o4)
    | .caseClause list body => do
        let o1 ← walkNodeListE V s list 0 (idc.pushed ["List"])
        let o2 ← walkNodeListE V s body 0 (idc.pushed ["Body"])
        .ok (o1 ++ o2)
    | .switchStmt ini tag body => do
        let o1 ← walkOptE V s ini (idc.pushed ["Init"])
        let o2 ← walkOptE V s tag (idc.pushed ["Tag"])
        let o3 ← walkE V s body (idc.pushed ["Body"])
        .ok (o1 ++ o2 ++ o3)
    | .typeSwitchStmt ini assign body => do
        let o1 ← walkOptE V s ini (idc.pushed ["Init"])
        let o2 ← walkE V s assign (idc.pushed ["Assign"])
        let o3 ← walkE V s body (idc.pushed ["Body"])
        .ok (o1 ++ o2 ++ o3)
    | .commClause comm body => do
        let o1 ← walkOptE V s comm (idc.pushed ["Comm"])
        let o2 ← walkNodeListE V s body 0 (idc.pushed ["Body"])
        .ok (o1 ++ o2)
    | .selectStmt body => walkE V s body (idc.pushed ["Body"])
    | .forStmt ini cond post body => do
        let o1 ← walkOptE V s ini (idc.pushed ["Init"])
        let o2 ← walkOptE V s cond (idc.pushed ["Cond"])
        let o3 ← walkOptE V s post (idc.pushed ["Post"])
        let o4 ← walkE V s body (idc.pushed ["Body"])
        .ok (o1 ++ o2 ++ o3 ++ o4)
    | .rangeStmt key value x body => do
        let o1 ← walkE V s key (idc.pushed ["Key"])
        let o2 ← walkOptE V s value (idc.pushed ["Value"])
        let o3 ← walkE V s x (idc.pushed ["X"])
        let o4 ← walkE V s body (idc.pushed ["Body"])
        .ok (o1 ++ o2 ++ o3 ++ o4)
    | .importSpec doc name path comm => do
        let o1 ← walkOptE V s doc (idc.pushed ["Doc"])
        let o2 ← walkOptE V s name (idc.pushed ["Name"])
        let o3 ← walkE V s path (idc.pushed ["Path"])
        let o4 ← walkOptE V s comm (idc.pushed ["Comment"])
        .ok (o1 ++ o2 ++ o3 ++ o4)
    | .valueSpec doc names ty values comm => do
        let o1 ← walkOptE V s doc (idc.push "Doc")
        let o2 ← walkIdentListE V s names (idc.push "Names")
        let o3 ← walkOptE V s ty (idc.push "Type")
        let o4 ← walkNodeListE V s values 0 (idc.push "Values")
        let o5 ← walkOptE V s comm (idc.pushed ["Comment"])
        .ok (o1 ++ o2 ++ o3 ++ o4 ++ o5)
    | .typeSpec doc name ty comm => do
        let o1 ← walkOptE V s doc (idc.pushed ["Doc"])
        let o2 ← walkE V s name (idc.pushed ["Name"])
        let o3 ← walkE V s ty (idc.pushed ["Type"])
        let o4 ← walkOptE V s comm (idc.pushed ["Comment"])
        .ok (o1 ++ o2 ++ o3 ++ o4)
    | .badDecl => .ok []
    | .genDecl doc specs => do
        let o1 ← walkOptE V s doc (idc.push "Doc")
        let o2 ← walkNodeListE V s specs 0 (idc.push "Specs")
        .ok (o1 ++ o2)
    | .funcDecl doc recv name ty body => do
        let o1 ← walkOptE V s doc (idc.pushed ["Doc"])
        let o2 ← walkOptE V s recv (idc.pushed ["Recv"])
        let o3 ← walkE V s name (idc.pushed ["Name"])
        let o4 ← walkE V s ty (idc.pushed ["Type"])
        let o5 ← walkOptE V s body (idc.pushed ["Body"])
        .ok (o1 ++ o2 ++ o3 ++ o4 ++ o5)
    | .file doc name decls => do
        let o1 ← walkOptE V s doc (idc.pushed ["Doc"])
        let o2 ← walkE V s name (idc.pushed ["Name"])
        let o3 ← walkNodeListE V s decls 0 (idc.pushed ["Decls"])
        .ok (o1 ++ o2 ++ o3)
    | .package files => walkFilesE V s files (idc.push "Files")
    | .unknownNode _ => .error "ast.walk"

/-- Unfolding equation for `walkE` in terms of `walkChildrenE`. -/
theorem walkE_unfold {S : Type} (V : S → Option Node → NodeId → Option S) (s : S)
    (node : Node) (nid : NodeId) :
    walkE V s node nid =
      match idComponentE node with
      | .error e => .error e
      | .ok c =>
        let idc := if c ≠ "" then nid.push c else nid
        visitStep (V s (some node) idc) node idc
          (fun w => walkChildrenE V w node idc) := by
  cases node <;> rfl

/-- The always-true inspector visitor: models the `inspector` wrapping of a
predicate that always returns true, as used by `collect` and `Map`. -/
def inspTrue : Unit → Option Node → NodeId → Option Unit :=
  fun _ node nid => if (fun (_ : Option Node) (_ : NodeId) => true) node nid then some () else none

example : InspectE (.basicLit "1") (fun _ _ => true) = walkE inspTrue () (.basicLit "1") [] := by rfl

/-- C8: `pop()` on a non-empty path removes exactly the last element (every
non-empty path is uniquely of the form `l ++ [a]`, and `pop` yields `l`);
on the empty path the slice expression `(*nid)[:len(*nid)-1]` panics with a
slice-bounds error (modelled by `none`) — never a silent no-op. -/
theorem C8_pop_spec :
    (∀ (l : List String) (a : String), NodeId.popE (l ++ [a]) = some l) ∧
    NodeId.popE [] = none := by
  constructor
  · intro l a
    simp [NodeId.popE]
  · rfl

/-- C9: `pushed(cs...)` returns a new path whose contents are a deep copy of
the receiver followed by `cs` in order: the first `p.length` elements are
exactly `p` and the rest are exactly `cs`. The receiver is passed by value
and only a fresh copy (`dup`, which on immutable strings is the identity)
is appended to, so the receiver's observable contents are unchanged. -/
theorem C9_pushed_spec :
    ∀ (p : NodeId) (cs : List String),
      NodeId.pushed p cs = p ++ cs ∧
      (NodeId.pushed p cs).take p.length = p ∧
      (NodeId.pushed p cs).drop p.length = cs ∧
      NodeId.dup p = p := by
  intro p cs
  refine ⟨rfl, ?_, ?_, rfl⟩
  · simp [NodeId.pushed, NodeId.dup]
  · simp [NodeId.pushed, NodeId.dup]

/-- Modelled from the spec: the external parser's left-associative parse of
the one-line expression `1 + 2 + 3` (`parser.ParseExpr` in
`idast_test.go`), a binary operation whose left operand is the binary
operation over `1` and `2` and whose right operand is the literal `3`. -/
def expr123 : Node :=
  .binaryExpr (.binaryExpr (.basicLit "1") "+" (.basicLit "2")) "+" (.basicLit "3")

/-- C2 counterexample: running `Map` over the parse of `1 + 2 + 3` assigns
the root `"BinaryExpr"` as claimed, but the left operand gets
`"BinaryExpr/X/BinaryExpr"` and the literal `3` gets
`"BinaryExpr/Y/BasicLit"`: the claimed identifiers `"BinaryExpr/X"` and
`"BinaryExpr/Y"` are assigned to no node at all, because `idComponent`
returns the node's type name for every variant, which `walk` pushes for
the operands as well. -/
theorem C2_counterexample :
    (MapE expr123).map (fun l => l.map (fun q => NodeId.render q.2)) =
      .ok ["BinaryExpr", "BinaryExpr/X/BinaryExpr", "BinaryExpr/X/BinaryExpr/X/BasicLit",
           "BinaryExpr/X/BinaryExpr/Y/BasicLit", "BinaryExpr/Y/BasicLit"] ∧
    "BinaryExpr/X" ∉ ["BinaryExpr", "BinaryExpr/X/BinaryExpr", "BinaryExpr/X/BinaryExpr/X/BasicLit",
           "BinaryExpr/X/BinaryExpr/Y/BasicLit", "BinaryExpr/Y/BasicLit"] ∧
    "BinaryExpr/Y" ∉ ["BinaryExpr", "BinaryExpr/X/BinaryExpr", "BinaryExpr/X/BinaryExpr/X/BasicLit",
           "BinaryExpr/X/BinaryExpr/Y/BasicLit", "BinaryExpr/Y/BasicLit"] := by
  refine ⟨by rfl, by decide, by decide⟩

/-- C2 amended: for the parse of `1 + 2 + 3`, `Map` assigns the root
binary-operation node the identifier `"BinaryExpr"`, the left operand
(the binary operation over `1` and `2`) the identifier
`"BinaryExpr/X/BinaryExpr"`, and the literal `3` the identifier
`"BinaryExpr/Y/BasicLit"`: each node's own variant label follows the slot
label of the position it occupies. -/
theorem C2_amended :
    MapE expr123 =
      .ok [(expr123, ["BinaryExpr"]),
           (.binaryExpr (.basicLit "1") "+" (.basicLit "2"), ["BinaryExpr", "X", "BinaryExpr"]),
           (.basicLit "1", ["BinaryExpr", "X", "BinaryExpr", "X", "BasicLit"]),
           (.basicLit "2", ["BinaryExpr", "X", "BinaryExpr", "Y", "BasicLit"]),
           (.basicLit "3", ["BinaryExpr", "Y", "BasicLit"])] ∧
    NodeId.render ["BinaryExpr"] = "BinaryExpr" ∧
    NodeId.render ["BinaryExpr", "X", "BinaryExpr"] = "BinaryExpr/X/BinaryExpr" ∧
    NodeId.render ["BinaryExpr", "Y", "BasicLit"] = "BinaryExpr/Y/BasicLit" := by
  exact ⟨by rfl, by rfl, by rfl, by rfl⟩

/-- C3 counterexample: a `*ast.BasicLit` node — a variant other than
`*ast.File` — does contribute an own label: `idComponent` yields the
non-empty type name `"BasicLit"`, and the collecting traversal over the
single node records the one-component path `["BasicLit"]` rather than the
empty path that "no own label" would produce. -/
theorem C3_counterexample :
    idComponentE (.basicLit "1") = .ok "BasicLit" ∧
    collectE (.basicLit "1") = .ok [(.basicLit "1", ["BasicLit"])] ∧
    ("BasicLit" : String) ≠ "" ∧ (["BasicLit"] : NodeId) ≠ [] := by
  exact ⟨by rfl, by rfl, by decide, by decide⟩

/-- C3 amended: every known variant contributes an own label, namely its
reflected type name, except `*ast.File`, whose own label is its declared
(package) name plus the fixed suffix `".go"`; the label is never empty.
Hence a file named `"foo"` walked as one of several entries of a package's
file collection gets an identifier ending in `"foo.go"` rather than a
numeric index, as the final conjunct shows on a two-file package. -/
theorem C3_amended :
    (∀ (doc : Option Node) (name : Node) (decls : List Node),
        idComponentE (.file doc name decls) = .ok (name.identName ++ ".go")) ∧
    (∀ n : Node, (∀ d nm ds, n ≠ .file d nm ds) → (∀ t, n ≠ .unknownNode t) →
        idComponentE n = .ok n.typeName) ∧
    (∀ (n : Node) (c : String), idComponentE n = .ok c → c ≠ "") ∧
    (collectE (.package [.file none (.ident "foo") [], .file none (.ident "bar") []])).map
        (fun l => l.map (fun q => NodeId.render q.2)) =
      .ok ["Package", "Package/Files/foo.go", "Package/Files/foo.go/Name/Ident",
           "Package/Files/bar.go", "Package/Files/bar.go/Name/Ident"] := by
  refine ⟨fun doc name decls => rfl, ?_, ?_, by rfl⟩
  · intro n hf hu
    cases n <;> first
      | rfl
      | (exact absurd rfl (hf _ _ _))
      | (exact absurd rfl (hu _))
  · intro n c h
    cases n <;>
      first
        | (injection h with h2; subst h2; simp only [Node.typeName]; decide)
        | (injection h with h2; subst h2;
           intro he;
           have hlen := congrArg String.length he;
           rw [String.length_append] at hlen;
           have h3 : (".go").length = 3 := rfl;
           have h0 : ("" : String).length = 0 := rfl;
           omega)
        | injection h

/-- C3 amended witness: the second and third conjuncts instantiated at the
concrete non-file node `BasicLit "7"`. -/
theorem C3_amended_witness :
    idComponentE (.basicLit "7") = .ok (Node.typeName (.basicLit "7")) ∧
    ("BasicLit" : String) ≠ "" :=
  ⟨C3_amended.2.1 (.basicLit "7") (fun _ _ _ h => Node.noConfusion h)
      (fun _ h => Node.noConfusion h),
   C3_amended.2.2.1 (.basicLit "7") "BasicLit" (by rfl)⟩

/-- C4 counterexample: a visitor that returns the nil continuation at the
root of `(1)` produces exactly one observation — the visit of the root
itself. No descendant is visited (as the claim states), but the
"subtree complete" sentinel call `visit(nil, path)` for the pruned node
does not occur either: the result contains no nil-node observation,
contradicting the claim that the sentinel call still occurs. -/
theorem C4_counterexample :
    walkE (fun (_ : Unit) _ _ => none) () (.parenExpr (.basicLit "1")) [] =
      .ok [(some (.parenExpr (.basicLit "1")), ["ParenExpr"])] ∧
    ([(some (.parenExpr (.basicLit "1")), ["ParenExpr"])] : List Obs).filter
        (fun p => p.1.isNone) = [] := by
  exact ⟨by rfl, by rfl⟩

/-- Decomposes the successful run of a subtree: the observations are the
visit of the node, then the children's observations, then the sentinel. -/
theorem bind_ok_shape (E : Except String (List Obs)) (hd sent : Obs) (l : List Obs)
    (h : (E >>= fun kids => .ok (hd :: kids ++ [sent])) = .ok l) :
    ∃ kids, E = .ok kids ∧ l = hd :: kids ++ [sent] := by
  cases E with
  | error e => simp only [bind, Except.bind] at h; exact Except.noConfusion h
  | ok kids =>
      simp only [bind, Except.bind] at h
      exact ⟨kids, rfl, (Except.ok.injEq _ _).mp h.symm⟩

set_option maxHeartbeats 1000000 in
/-- C4 amended: if the visitor returns the nil continuation at a node `n`,
`walk` returns at once: no descendant of `n` is visited and no sentinel
call for `n` occurs — the whole observation list of the subtree is the
single visit of `n`. When the visitor returns a non-nil continuation, the
subtree's observations start with the visit of `n` and end with the
sentinel `visit(nil, path)` carrying the same path as the visit of `n`. -/
theorem C4_amended :
    ∀ {S : Type} (V : S → Option Node → NodeId → Option S) (s : S) (n : Node)
      (nid : NodeId) (l : List Obs) (c : String),
      walkE V s n nid = .ok l →
      idComponentE n = .ok c →
      ((V s (some n) (if c ≠ "" then nid.push c else nid) = none →
          l = [(some n, if c ≠ "" then nid.push c else nid)]) ∧
       (∀ s2, V s (some n) (if c ≠ "" then nid.push c else nid) = some s2 →
          l.head? = some (some n, if c ≠ "" then nid.push c else nid) ∧
          l.getLast? = some (none, if c ≠ "" then nid.push c else nid))) := by
  intro S V s n nid l c h hc
  rw [walkE_unfold, hc] at h
  dsimp only at h
  constructor
  · intro hv
    rw [hv] at h
    simp only [visitStep] at h
    cases h
    rfl
  · intro s2 hv
    rw [hv] at h
    simp only [visitStep] at h
    obtain ⟨kids, hE, rfl⟩ := bind_ok_shape _ _ _ _ h
    refine ⟨rfl, ?_⟩
    exact List.getLast?_concat (_ :: kids)

/-- C4 amended witness: the pruning branch of the amended statement at the
concrete always-nil visitor on the tree `(1)`. -/
theorem C4_amended_witness :
    [(some (Node.parenExpr (.basicLit "1")), (["ParenExpr"] : NodeId))] =
      [(some (Node.parenExpr (.basicLit "1")),
        if ("ParenExpr" : String) ≠ "" then NodeId.push [] "ParenExpr" else [])] :=
  (C4_amended (fun (_ : Unit) _ _ => none) () (.parenExpr (.basicLit "1")) []
      [(some (.parenExpr (.basicLit "1")), ["ParenExpr"])] "ParenExpr"
      (by rfl) (by rfl)).1 (by rfl)

/-- C5: the claim is the intent (and `walk.go` satisfies it), but the
`CommentGroup` branch of the `unnamed/part_000` traversal variant executes
a stray `id.pop()` after walking the children, so the path passed to the
post-order sentinel `Visit(nil, path)` of a `CommentGroup` node lacks the
node's own label and differs from the path passed to `Visit(node, path)`:
on `Field{Doc: CommentGroup[Comment]}` the sentinel observes
`["Field", "Doc"]` instead of `["Field", "Doc", "CommentGroup"]` (which
`walk.go` produces), and on a root-level `CommentGroup` the deferred pop
underflows the already-emptied path and the traversal panics. -/
theorem C5_part000_unbalanced :
    walkOldE inspTrue ()
        (.field (some (.commentGroup [.comment "c"])) [] (.ident "T") none none) [] =
      .ok [(some (.field (some (.commentGroup [.comment "c"])) [] (.ident "T") none none), ["Field"]),
           (some (.commentGroup [.comment "c"]), ["Field", "Doc", "CommentGroup"]),
           (some (.comment "c"), ["Field", "Doc", "CommentGroup", "List", "0", "Comment"]),
           (none, ["Field", "Doc", "CommentGroup", "List", "0", "Comment"]),
           (none, ["Field", "Doc"]),
           (some (.ident "T"), ["Field", "Type", "Ident"]),
           (none, ["Field", "Type", "Ident"]),
           (none, ["Field"])] ∧
    walkE inspTrue ()
        (.field (some (.commentGroup [.comment "c"])) [] (.ident "T") none none) [] =
      .ok [(some (.field (some (.commentGroup [.comment "c"])) [] (.ident "T") none none), ["Field"]),
           (some (.commentGroup [.comment "c"]), ["Field", "Doc", "CommentGroup"]),
           (some (.comment "c"), ["Field", "Doc", "CommentGroup", "List", "0", "Comment"]),
           (none, ["Field", "Doc", "CommentGroup", "List", "0", "Comment"]),
           (none, ["Field", "Doc", "CommentGroup"]),
           (some (.ident "T"), ["Field", "Type", "Ident"]),
           (none, ["Field", "Type", "Ident"]),
           (none, ["Field"])] ∧
    (["Field", "Doc"] : NodeId) ≠ ["Field", "Doc", "CommentGroup"] ∧
    walkOldE inspTrue () (.commentGroup [.comment "c"]) [] =
      .error "slice bounds out of range" := by
  exact ⟨by rfl, by rfl, by decide, by rfl⟩

mutual

/-- Whether every node variant occurring in the tree belongs to the closed
set known to the walker (no `unknownNode` anywhere). -/
def Node.knownB : Node → Bool
  | .comment _ => true
  | .commentGroup list => knownListB list
  | .field doc names ty tag comm =>
      knownOptB doc && knownListB names && ty.knownB && knownOptB tag && knownOptB comm
  | .fieldList list => knownListB list
  | .badExpr => true
  | .ident _ => true
  | .basicLit _ => true
  | .ellipsis elt => knownOptB elt
  | .funcLit ty body => ty.knownB && body.knownB
  | .compositeLit ty elts => knownOptB ty && knownListB elts
  | .parenExpr x => x.knownB
  | .selectorExpr x sel => x.knownB && sel.knownB
  | .indexExpr x index => x.knownB && index.knownB
  | .sliceExpr x low high => x.knownB && knownOptB low && knownOptB high
  | .typeAssertExpr x ty => x.knownB && knownOptB ty
  | .callExpr fn args => fn.knownB && knownListB args
  | .starExpr x => x.knownB
  | .unaryExpr _ x => x.knownB
  | .binaryExpr x _ y => x.knownB && y.knownB
  | .keyValueExpr key value => key.knownB && value.knownB
  | .arrayType len elt => knownOptB len && elt.knownB
  | .structType fields => fields.knownB
  | .funcType params results => knownOptB params && knownOptB results
  | .interfaceType methods => methods.knownB
  | .mapType key value => key.knownB && value.knownB
  | .chanType value => value.knownB
  | .badStmt => true
  | .declStmt decl => decl.knownB
  | .emptyStmt => true
  | .labeledStmt label stmt => label.knownB && stmt.knownB
  | .exprStmt x => x.knownB
  | .sendStmt ch value => ch.knownB && value.knownB
  | .incDecStmt x => x.knownB
  | .assignStmt lhs rhs => knownListB lhs && knownListB rhs
  | .goStmt call => call.knownB
  | .deferStmt call => call.knownB
  | .returnStmt results => knownListB results
  | .branchStmt label => knownOptB label
  | .blockStmt list => knownListB list
  | .ifStmt ini cond body els =>
      knownOptB ini && cond.knownB && body.knownB && knownOptB els
  | .caseClause list body => knownListB list && knownListB body
  | .switchStmt ini tag body => knownOptB ini && knownOptB tag && body.knownB
  | .typeSwitchStmt ini assign body => knownOptB ini && assign.knownB && body.knownB
  | .commClause comm body => knownOptB comm && knownListB body
  | .selectStmt body => body.knownB
  | .forStmt ini cond post body =>
      knownOptB ini && knownOptB cond && knownOptB post && body.knownB
  | .rangeStmt key value x body =>
      key.knownB && knownOptB value && x.knownB && body.knownB
  | .importSpec doc name path comm =>
      knownOptB doc && knownOptB name && path.knownB && knownOptB comm
  | .valueSpec doc names ty values comm =>
      knownOptB doc && knownListB names && knownOptB ty && knownListB values && knownOptB comm
  | .typeSpec doc name ty comm =>
      knownOptB doc && name.knownB && ty.knownB && knownOptB comm
  | .badDecl => true
  | .genDecl doc specs => knownOptB doc && knownListB specs
  | .funcDecl doc recv name ty body =>
      knownOptB doc && knownOptB recv && name.knownB && ty.knownB && knownOptB body
  | .file doc name decls => knownOptB doc && name.knownB && knownListB decls
  | .package files => knownListB files
  | .unknownNode _ => false

/-- `knownB` over a child list. -/
def knownListB : List Node → Bool
  | [] => true
  | x :: xs => x.knownB && knownListB xs

/-- `knownB` over an optional child. -/
def knownOptB : Option Node → Bool
  | none => true
  | some x => x.knownB

end

/-- Strong induction on the size of a node. -/
theorem node_strong_ind {P : Node → Prop}
    (ih : ∀ n : Node, (∀ m : Node, sizeOf m < sizeOf n → P m) → P n) :
    ∀ n, P n := by
  have key : ∀ (k : Nat) (n : Node), sizeOf n < k → P n := by
    intro k
    induction k with
    | zero => intro n hn; exact absurd hn (Nat.not_lt_zero _)
    | succ k ihk =>
        intro n hn
        exact ih n (fun m hm => ihk m (Nat.lt_of_lt_of_le hm (Nat.le_of_lt_succ hn)))
  exact fun n => key (sizeOf n + 1) n (Nat.lt_succ_self _)

/-- `walk` of a known node (its `idComponent` succeeds with a non-empty
label) pushes the label and dispatches on the visitor's answer. -/
theorem walkE_step {S : Type} (V : S → Option Node → NodeId → Option S) (s : S)
    (n : Node) (nid : NodeId) (c : String)
    (hc : idComponentE n = .ok c) (hcne : c ≠ "") :
    walkE V s n nid =
      visitStep (V s (some n) (nid.push c)) n (nid.push c)
        (fun w => walkChildrenE V w n (nid.push c)) := by
  rw [walkE_unfold, hc]
  dsimp only
  rw [if_pos hcne]

/-- Totality of the visitor dispatch, given totality of the children walk. -/
theorem visitStep_total {S : Type} (r : Option S) (n : Node) (idc : NodeId)
    (k : S → Except String (List Obs)) (hk : ∀ w, ∃ l, k w = .ok l) :
    ∃ l, visitStep r n idc k = .ok l := by
  cases r with
  | none => exact ⟨_, rfl⟩
  | some w =>
      obtain ⟨l, hl⟩ := hk w
      exact ⟨_, by simp only [visitStep]; rw [hl]; rfl⟩

/-- `walk` succeeds on a node for every visitor, state and path. -/
def WalkTotal (n : Node) : Prop :=
  ∀ {S : Type} (V : S → Option Node → NodeId → Option S) (s : S) (nid : NodeId),
    ∃ l, walkE V s n nid = .ok l

/-- Membership form of `knownListB`. -/
theorem knownListB_mem {ls : List Node} (h : knownListB ls = true) {x : Node}
    (hx : x ∈ ls) : x.knownB = true := by
  induction ls with
  | nil => cases hx
  | cons y ys ihy =>
      simp only [knownListB, Bool.and_eq_true] at h
      cases hx with
      | head => exact h.1
      | tail _ hmem => exact ihy h.2 hmem

/-- `some` form of `knownOptB`. -/
theorem knownOptB_some {o : Option Node} (h : knownOptB o = true) {x : Node}
    (hx : o = some x) : x.knownB = true := by
  subst hx
  exact h

/-- Size bound for an optional child. -/
theorem sizeOf_opt_lt {x : Node} {o : Option Node} (h : o = some x) :
    sizeOf x < sizeOf o := by
  subst h
  simp

/-- The optional-child walk succeeds when the child's walk does. -/
theorem wt_opt {o : Option Node} (h : ∀ x, o = some x → WalkTotal x) :
    ∀ {S : Type} (V : S → Option Node → NodeId → Option S) (s : S) (nid : NodeId),
      ∃ l, walkOptE V s o nid = .ok l := by
  intro S V s nid
  cases o with
  | none => exact ⟨[], rfl⟩
  | some x => exact h x rfl V s nid

/-- The indexed-list walk succeeds when every element's walk does. -/
theorem wt_list {ls : List Node} (h : ∀ x ∈ ls, WalkTotal x) :
    ∀ {S : Type} (V : S → Option Node → NodeId → Option S) (s : S) (i : Nat) (nid : NodeId),
      ∃ l, walkNodeListE V s ls i nid = .ok l := by
  induction ls with
  | nil => intro S V s i nid; exact ⟨[], rfl⟩
  | cons x xs ihx =>
      intro S V s i nid
      obtain ⟨a, ha⟩ := h x (List.mem_cons_self x xs) V s (nid.push (Nat.repr i))
      obtain ⟨b, hb⟩ := ihx (fun y hy => h y (List.mem_cons_of_mem x hy)) V s (i + 1) nid
      exact ⟨a ++ b, by
        show (walkE V s x (nid.push (Nat.repr i)) >>= fun o1 =>
          walkNodeListE V s xs (i + 1) nid >>= fun o2 => .ok (o1 ++ o2)) = _
        rw [ha, hb]
        rfl⟩

/-- The ident-list walk succeeds when every element's walk does. -/
theorem wt_idents {ls : List Node} (h : ∀ x ∈ ls, WalkTotal x) :
    ∀ {S : Type} (V : S → Option Node → NodeId → Option S) (s : S) (nid : NodeId),
      ∃ l, walkIdentListE V s ls nid = .ok l := by
  induction ls with
  | nil => intro S V s nid; exact ⟨[], rfl⟩
  | cons x xs ihx =>
      intro S V s nid
      obtain ⟨a, ha⟩ := h x (List.mem_cons_self x xs) V s (nid.push x.identName)
      obtain ⟨b, hb⟩ := ihx (fun y hy => h y (List.mem_cons_of_mem x hy)) V s nid
      exact ⟨a ++ b, by
        show (walkE V s x (nid.push x.identName) >>= fun o1 =>
          walkIdentListE V s xs nid >>= fun o2 => .ok (o1 ++ o2)) = _
        rw [ha, hb]
        rfl⟩

/-- The package-files walk succeeds when every file's walk does. -/
theorem wt_files {ls : List Node} (h : ∀ x ∈ ls, WalkTotal x) :
    ∀ {S : Type} (V : S → Option Node → NodeId → Option S) (s : S) (nid : NodeId),
      ∃ l, walkFilesE V s ls nid = .ok l := by
  induction ls with
  | nil => intro S V s nid; exact ⟨[], rfl⟩
  | cons x xs ihx =>
      intro S V s nid
      obtain ⟨a, ha⟩ := h x (List.mem_cons_self x xs) V s nid
      obtain ⟨b, hb⟩ := ihx (fun y hy => h y (List.mem_cons_of_mem x hy)) V s nid
      exact ⟨a ++ b, by
        show (walkE V s x nid >>= fun o1 =>
          walkFilesE V s xs nid >>= fun o2 => .ok (o1 ++ o2)) = _
        rw [ha, hb]
        rfl⟩

/-- Every visitor's walk of a tree whose variants are all known succeeds. -/
theorem walkE_total_of_known : ∀ n : Node, n.knownB = true → WalkTotal n := by
  intro n0
  induction n0 using node_strong_ind with
  | ih n IH =>
    intro hk
    cases n with
    | comment text =>
        intro S V s nid
        rw [walkE_step V s _ nid "Comment" (by rfl) (by decide)]
        apply visitStep_total
        intro w
        dsimp only [walkChildrenE]
        exact ⟨[], rfl⟩
    | commentGroup list =>
        intro S V s nid
        rw [walkE_step V s _ nid "CommentGroup" (by rfl) (by decide)]
        apply visitStep_total
        intro w
        dsimp only [walkChildrenE]
        simp only [Node.knownB, Bool.and_eq_true] at hk
        obtain ⟨o1, h1⟩ := wt_list (fun m hm => IH m (by have h0 := List.sizeOf_lt_of_mem hm; simp <;> omega) (knownListB_mem hk hm)) V w _ _
        exact ⟨_, by rw [h1]⟩
    | field doc names ty tag comm =>
        intro S V s nid
        rw [walkE_step V s _ nid "Field" (by rfl) (by decide)]
        apply visitStep_total
        intro w
        dsimp only [walkChildrenE]
        simp only [Node.knownB, Bool.and_eq_true] at hk
        obtain ⟨⟨⟨⟨hk1, hk2⟩, hk3⟩, hk4⟩, hk5⟩ := hk
        obtain ⟨o1, h1⟩ := wt_opt (fun m hm => IH m (by have h0 := sizeOf_opt_lt hm; simp <;> omega) (knownOptB_some hk1 hm)) V w _
        obtain ⟨o2, h2⟩ := wt_idents (fun m hm => IH m (by have h0 := List.sizeOf_lt_of_mem hm; simp <;> omega) (knownListB_mem hk2 hm)) V w _
        obtain ⟨o3, h3⟩ := IH ty (by simp <;> omega) hk3 V w _
        obtain ⟨o4, h4⟩ := wt_opt (fun m hm => IH m (by have h0 := sizeOf_opt_lt hm; simp <;> omega) (knownOptB_some hk4 hm)) V w _
        obtain ⟨o5, h5⟩ := wt_opt (fun m hm => IH m (by have h0 := sizeOf_opt_lt hm; simp <;> omega) (knownOptB_some hk5 hm)) V w _
        exact ⟨_, by rw [h1, h2, h3, h4, h5]; rfl⟩
    | fieldList list =>
        intro S V s nid
        rw [walkE_step V s _ nid "FieldList" (by rfl) (by decide)]
        apply visitStep_total
        intro w
        dsimp only [walkChildrenE]
        simp only [Node.knownB, Bool.and_eq_true] at hk
        obtain ⟨o1, h1⟩ := wt_list (fun m hm => IH m (by have h0 := List.sizeOf_lt_of_mem hm; simp <;> omega) (knownListB_mem hk hm)) V w _ _
        exact ⟨_, by rw [h1]⟩
    | badExpr =>
        intro S V s nid
        rw [walkE_step V s _ nid "BadExpr" (by rfl) (by decide)]
        apply visitStep_total
        intro w
        dsimp only [walkChildrenE]
        exact ⟨[], rfl⟩
    | ident name =>
        intro S V s nid
        rw [walkE_step V s _ nid "Ident" (by rfl) (by decide)]
        apply visitStep_total
        intro w
        dsimp only [walkChildrenE]
        exact ⟨[], rfl⟩
    | basicLit value =>
        intro S V s nid
        rw [walkE_step V s _ nid "BasicLit" (by rfl) (by decide)]
        apply visitStep_total
        intro w
        dsimp only [walkChildrenE]
        exact ⟨[], rfl⟩
    | ellipsis elt =>
        intro S V s nid
        rw [walkE_step V s _ nid "Ellipsis" (by rfl) (by decide)]
        apply visitStep_total
        intro w
        dsimp only [walkChildrenE]
        simp only [Node.knownB, Bool.and_eq_true] at hk
        obtain ⟨o1, h1⟩ := wt_opt (fun m hm => IH m (by have h0 := sizeOf_opt_lt hm; simp <;> omega) (knownOptB_some hk hm)) V w _
        exact ⟨_, by rw [h1]⟩
    | funcLit ty body =>
        intro S V s nid
        rw [walkE_step V s _ nid "FuncLit" (by rfl) (by decide)]
        apply visitStep_total
        intro w
        dsimp only [walkChildrenE]
        simp only [Node.knownB, Bool.and_eq_true] at hk
        obtain ⟨hk1, hk2⟩ := hk
        obtain ⟨o1, h1⟩ := IH ty (by simp <;> omega) hk1 V w _
        obtain ⟨o2, h2⟩ := IH body (by simp <;> omega) hk2 V w _
        exact ⟨_, by rw [h1, h2]; rfl⟩
    | compositeLit ty elts =>
        intro S V s nid
        rw [walkE_step V s _ nid "CompositeLit" (by rfl) (by decide)]
        apply visitStep_total
        intro w
        dsimp only [walkChildrenE]
        simp only [Node.knownB, Bool.and_eq_true] at hk
        obtain ⟨hk1, hk2⟩ := hk
        obtain ⟨o1, h1⟩ := wt_opt (fun m hm => IH m (by have h0 := sizeOf_opt_lt hm; simp <;> omega) (knownOptB_some hk1 hm)) V w _
        obtain ⟨o2, h2⟩ := wt_list (fun m hm => IH m (by have h0 := List.sizeOf_lt_of_mem hm; simp <;> omega) (knownListB_mem hk2 hm)) V w _ _
        exact ⟨_, by rw [h1, h2]; rfl⟩
    | parenExpr x =>
        intro S V s nid
        rw [walkE_step V s _ nid "ParenExpr" (by rfl) (by decide)]
        apply visitStep_total
        intro w
        dsimp only [walkChildrenE]
        simp only [Node.knownB, Bool.and_eq_true] at hk
        obtain ⟨o1, h1⟩ := IH x (by simp <;> omega) hk V w _
        exact ⟨_, by rw [h1]⟩
    | selectorExpr x sel =>
        intro S V s nid
        rw [walkE_step V s _ nid "SelectorExpr" (by rfl) (by decide)]
        apply visitStep_total
        intro w
        dsimp only [walkChildrenE]
        simp only [Node.knownB, Bool.and_eq_true] at hk
        obtain ⟨hk1, hk2⟩ := hk
        obtain ⟨o1, h1⟩ := IH x (by simp <;> omega) hk1 V w _
        obtain ⟨o2, h2⟩ := IH sel (by simp <;> omega) hk2 V w _
        exact ⟨_, by rw [h1, h2]; rfl⟩
    | indexExpr x index =>
        intro S V s nid
        rw [walkE_step V s _ nid "IndexExpr" (by rfl) (by decide)]
        apply visitStep_total
        intro w
        dsimp only [walkChildrenE]
        simp only [Node.knownB, Bool.and_eq_true] at hk
        obtain ⟨hk1, hk2⟩ := hk
        obtain ⟨o1, h1⟩ := IH x (by simp <;> omega) hk1 V w _
        obtain ⟨o2, h2⟩ := IH index (by simp <;> omega) hk2 V w _
        exact ⟨_, by rw [h1, h2]; rfl⟩
    | sliceExpr x low high =>
        intro S V s nid
        rw [walkE_step V s _ nid "SliceExpr" (by rfl) (by decide)]
        apply visitStep_total
        intro w
        dsimp only [walkChildrenE]
        simp only [Node.knownB, Bool.and_eq_true] at hk
        obtain ⟨⟨hk1, hk2⟩, hk3⟩ := hk
        obtain ⟨o1, h1⟩ := IH x (by simp <;> omega) hk1 V w _
        obtain ⟨o2, h2⟩ := wt_opt (fun m hm => IH m (by have h0 := sizeOf_opt_lt hm; simp <;> omega) (knownOptB_some hk2 hm)) V w _
        obtain ⟨o3, h3⟩ := wt_opt (fun m hm => IH m (by have h0 := sizeOf_opt_lt hm; simp <;> omega) (knownOptB_some hk3 hm)) V w _
        exact ⟨_, by rw [h1, h2, h3]; rfl⟩
    | typeAssertExpr x ty =>
        intro S V s nid
        rw [walkE_step V s _ nid "TypeAssertExpr" (by rfl) (by decide)]
        apply visitStep_total
        intro w
        dsimp only [walkChildrenE]
        simp only [Node.knownB, Bool.and_eq_true] at hk
        obtain ⟨hk1, hk2⟩ := hk
        obtain ⟨o1, h1⟩ := IH x (by simp <;> omega) hk1 V w _
        obtain ⟨o2, h2⟩ := wt_opt (fun m hm => IH m (by have h0 := sizeOf_opt_lt hm; simp <;> omega) (knownOptB_some hk2 hm)) V w _
        exact ⟨_, by rw [h1, h2]; rfl⟩
    | callExpr fn args =>
        intro S V s nid
        rw [walkE_step V s _ nid "CallExpr" (by rfl) (by decide)]
        apply visitStep_total
        intro w
        dsimp only [walkChildrenE]
        simp only [Node.knownB, Bool.and_eq_true] at hk
        obtain ⟨hk1, hk2⟩ := hk
        obtain ⟨o1, h1⟩ := IH fn (by simp <;> omega) hk1 V w _
        obtain ⟨o2, h2⟩ := wt_list (fun m hm => IH m (by have h0 := List.sizeOf_lt_of_mem hm; simp <;> omega) (knownListB_mem hk2 hm)) V w _ _
        exact ⟨_, by rw [h1, h2]; rfl⟩
    | starExpr x =>
        intro S V s nid
        rw [walkE_step V s _ nid "StarExpr" (by rfl) (by decide)]
        apply visitStep_total
        intro w
        dsimp only [walkChildrenE]
        simp only [Node.knownB, Bool.and_eq_true] at hk
        obtain ⟨o1, h1⟩ := IH x (by simp <;> omega) hk V w _
        exact ⟨_, by rw [h1]⟩
    | unaryExpr op x =>
        intro S V s nid
        rw [walkE_step V s _ nid "UnaryExpr" (by rfl) (by decide)]
        apply visitStep_total
        intro w
        dsimp only [walkChildrenE]
        simp only [Node.knownB, Bool.and_eq_true] at hk
        obtain ⟨o1, h1⟩ := IH x (by simp <;> omega) hk V w _
        exact ⟨_, by rw [h1]⟩
    | binaryExpr x op y =>
        intro S V s nid
        rw [walkE_step V s _ nid "BinaryExpr" (by rfl) (by decide)]
        apply visitStep_total
        intro w
        dsimp only [walkChildrenE]
        simp only [Node.knownB, Bool.and_eq_true] at hk
        obtain ⟨hk1, hk2⟩ := hk
        obtain ⟨o1, h1⟩ := IH x (by simp <;> omega) hk1 V w _
        obtain ⟨o2, h2⟩ := IH y (by simp <;> omega) hk2 V w _
        exact ⟨_, by rw [h1, h2]; rfl⟩
    | keyValueExpr key value =>
        intro S V s nid
        rw [walkE_step V s _ nid "KeyValueExpr" (by rfl) (by decide)]
        apply visitStep_total
        intro w
        dsimp only [walkChildrenE]
        simp only [Node.knownB, Bool.and_eq_true] at hk
        obtain ⟨hk1, hk2⟩ := hk
        obtain ⟨o1, h1⟩ := IH key (by simp <;> omega) hk1 V w _
        obtain ⟨o2, h2⟩ := IH value (by simp <;> omega) hk2 V w _
        exact ⟨_, by rw [h1, h2]; rfl⟩
    | arrayType len elt =>
        intro S V s nid
        rw [walkE_step V s _ nid "ArrayType" (by rfl) (by decide)]
        apply visitStep_total
        intro w
        dsimp only [walkChildrenE]
        simp only [Node.knownB, Bool.and_eq_true] at hk
        obtain ⟨hk1, hk2⟩ := hk
        obtain ⟨o1, h1⟩ := wt_opt (fun m hm => IH m (by have h0 := sizeOf_opt_lt hm; simp <;> omega) (knownOptB_some hk1 hm)) V w _
        obtain ⟨o2, h2⟩ := IH elt (by simp <;> omega) hk2 V w _
        exact ⟨_, by rw [h1, h2]; rfl⟩
    | structType fields =>
        intro S V s nid
        rw [walkE_step V s _ nid "StructType" (by rfl) (by decide)]
        apply visitStep_total
        intro w
        dsimp only [walkChildrenE]
        simp only [Node.knownB, Bool.and_eq_true] at hk
        obtain ⟨o1, h1⟩ := IH fields (by simp <;> omega) hk V w _
        exact ⟨_, by rw [h1]⟩
    | funcType params results =>
        intro S V s nid
        rw [walkE_step V s _ nid "FuncType" (by rfl) (by decide)]
        apply visitStep_total
        intro w
        dsimp only [walkChildrenE]
        simp only [Node.knownB, Bool.and_eq_true] at hk
        obtain ⟨hk1, hk2⟩ := hk
        obtain ⟨o1, h1⟩ := wt_opt (fun m hm => IH m (by have h0 := sizeOf_opt_lt hm; simp <;> omega) (knownOptB_some hk1 hm)) V w _
        obtain ⟨o2, h2⟩ := wt_opt (fun m hm => IH m (by have h0 := sizeOf_opt_lt hm; simp <;> omega) (knownOptB_some hk2 hm)) V w _
        exact ⟨_, by rw [h1, h2]; rfl⟩
    | interfaceType methods =>
        intro S V s nid
        rw [walkE_step V s _ nid "InterfaceType" (by rfl) (by decide)]
        apply visitStep_total
        intro w
        dsimp only [walkChildrenE]
        simp only [Node.knownB, Bool.and_eq_true] at hk
        obtain ⟨o1, h1⟩ := IH methods (by simp <;> omega) hk V w _
        exact ⟨_, by rw [h1]⟩
    | mapType key value =>
        intro S V s nid
        rw [walkE_step V s _ nid "MapType" (by rfl) (by decide)]
        apply visitStep_total
        intro w
        dsimp only [walkChildrenE]
        simp only [Node.knownB, Bool.and_eq_true] at hk
        obtain ⟨hk1, hk2⟩ := hk
        obtain ⟨o1, h1⟩ := IH key (by simp <;> omega) hk1 V w _
        obtain ⟨o2, h2⟩ := IH value (by simp <;> omega) hk2 V w _
        exact ⟨_, by rw [h1, h2]; rfl⟩
    | chanType value =>
        intro S V s nid
        rw [walkE_step V s _ nid "ChanType" (by rfl) (by decide)]
        apply visitStep_total
        intro w
        dsimp only [walkChildrenE]
        simp only [Node.knownB, Bool.and_eq_true] at hk
        obtain ⟨o1, h1⟩ := IH value (by simp <;> omega) hk V w _
        exact ⟨_, by rw [h1]⟩
    | badStmt =>
        intro S V s nid
        rw [walkE_step V s _ nid "BadStmt" (by rfl) (by decide)]
        apply visitStep_total
        intro w
        dsimp only [walkChildrenE]
        exact ⟨[], rfl⟩
    | declStmt decl =>
        intro S V s nid
        rw [walkE_step V s _ nid "DeclStmt" (by rfl) (by decide)]
        apply visitStep_total
        intro w
        dsimp only [walkChildrenE]
        simp only [Node.knownB, Bool.and_eq_true] at hk
        obtain ⟨o1, h1⟩ := IH decl (by simp <;> omega) hk V w _
        exact ⟨_, by rw [h1]⟩
    | emptyStmt =>
        intro S V s nid
        rw [walkE_step V s _ nid "EmptyStmt" (by rfl) (by decide)]
        apply visitStep_total
        intro w
        dsimp only [walkChildrenE]
        exact ⟨[], rfl⟩
    | labeledStmt label stmt =>
        intro S V s nid
        rw [walkE_step V s _ nid "LabeledStmt" (by rfl) (by decide)]
        apply visitStep_total
        intro w
        dsimp only [walkChildrenE]
        simp only [Node.knownB, Bool.and_eq_true] at hk
        obtain ⟨hk1, hk2⟩ := hk
        obtain ⟨o1, h1⟩ := IH label (by simp <;> omega) hk1 V w _
        obtain ⟨o2, h2⟩ := IH stmt (by simp <;> omega) hk2 V w _
        exact ⟨_, by rw [h1, h2]; rfl⟩
    | exprStmt x =>
        intro S V s nid
        rw [walkE_step V s _ nid "ExprStmt" (by rfl) (by decide)]
        apply visitStep_total
        intro w
        dsimp only [walkChildrenE]
        simp only [Node.knownB, Bool.and_eq_true] at hk
        obtain ⟨o1, h1⟩ := IH x (by simp <;> omega) hk V w _
        exact ⟨_, by rw [h1]⟩
    | sendStmt ch value =>
        intro S V s nid
        rw [walkE_step V s _ nid "SendStmt" (by rfl) (by decide)]
        apply visitStep_total
        intro w
        dsimp only [walkChildrenE]
        simp only [Node.knownB, Bool.and_eq_true] at hk
        obtain ⟨hk1, hk2⟩ := hk
        obtain ⟨o1, h1⟩ := IH ch (by simp <;> omega) hk1 V w _
        obtain ⟨o2, h2⟩ := IH value (by simp <;> omega) hk2 V w _
        exact ⟨_, by rw [h1, h2]; rfl⟩
    | incDecStmt x =>
        intro S V s nid
        rw [walkE_step V s _ nid "IncDecStmt" (by rfl) (by decide)]
        apply visitStep_total
        intro w
        dsimp only [walkChildrenE]
        simp only [Node.knownB, Bool.and_eq_true] at hk
        obtain ⟨o1, h1⟩ := IH x (by simp <;> omega) hk V w _
        exact ⟨_, by rw [h1]⟩
    | assignStmt lhs rhs =>
        intro S V s nid
        rw [walkE_step V s _ nid "AssignStmt" (by rfl) (by decide)]
        apply visitStep_total
        intro w
        dsimp only [walkChildrenE]
        simp only [Node.knownB, Bool.and_eq_true] at hk
        obtain ⟨hk1, hk2⟩ := hk
        obtain ⟨o1, h1⟩ := wt_list (fun m hm => IH m (by have h0 := List.sizeOf_lt_of_mem hm; simp <;> omega) (knownListB_mem hk1 hm)) V w _ _
        obtain ⟨o2, h2⟩ := wt_list (fun m hm => IH m (by have h0 := List.sizeOf_lt_of_mem hm; simp <;> omega) (knownListB_mem hk2 hm)) V w _ _
        exact ⟨_, by rw [h1, h2]; rfl⟩
    | goStmt call =>
        intro S V s nid
        rw [walkE_step V s _ nid "GoStmt" (by rfl) (by decide)]
        apply visitStep_total
        intro w
        dsimp only [walkChildrenE]
        simp only [Node.knownB, Bool.and_eq_true] at hk
        obtain ⟨o1, h1⟩ := IH call (by simp <;> omega) hk V w _
        exact ⟨_, by rw [h1]⟩
    | deferStmt call =>
        intro S V s nid
        rw [walkE_step V s _ nid "DeferStmt" (by rfl) (by decide)]
        apply visitStep_total
        intro w
        dsimp only [walkChildrenE]
        simp only [Node.knownB, Bool.and_eq_true] at hk
        obtain ⟨o1, h1⟩ := IH call (by simp <;> omega) hk V w _
        exact ⟨_, by rw [h1]⟩
    | returnStmt results =>
        intro S V s nid
        rw [walkE_step V s _ nid "ReturnStmt" (by rfl) (by decide)]
        apply visitStep_total
        intro w
        dsimp only [walkChildrenE]
        simp only [Node.knownB, Bool.and_eq_true] at hk
        obtain ⟨o1, h1⟩ := wt_list (fun m hm => IH m (by have h0 := List.sizeOf_lt_of_mem hm; simp <;> omega) (knownListB_mem hk hm)) V w _ _
        exact ⟨_, by rw [h1]⟩
    | branchStmt label =>
        intro S V s nid
        rw [walkE_step V s _ nid "BranchStmt" (by rfl) (by decide)]
        apply visitStep_total
        intro w
        dsimp only [walkChildrenE]
        simp only [Node.knownB, Bool.and_eq_true] at hk
        obtain ⟨o1, h1⟩ := wt_opt (fun m hm => IH m (by have h0 := sizeOf_opt_lt hm; simp <;> omega) (knownOptB_some hk hm)) V w _
        exact ⟨_, by rw [h1]⟩
    | blockStmt list =>
        intro S V s nid
        rw [walkE_step V s _ nid "BlockStmt" (by rfl) (by decide)]
        apply visitStep_total
        intro w
        dsimp only [walkChildrenE]
        simp only [Node.knownB, Bool.and_eq_true] at hk
        obtain ⟨o1, h1⟩ := wt_list (fun m hm => IH m (by have h0 := List.sizeOf_lt_of_mem hm; simp <;> omega) (knownListB_mem hk hm)) V w _ _
        exact ⟨_, by rw [h1]⟩
    | ifStmt ini cond body els =>
        intro S V s nid
        rw [walkE_step V s _ nid "IfStmt" (by rfl) (by decide)]
        apply visitStep_total
        intro w
        dsimp only [walkChildrenE]
        simp only [Node.knownB, Bool.and_eq_true] at hk
        obtain ⟨⟨⟨hk1, hk2⟩, hk3⟩, hk4⟩ := hk
        obtain ⟨o1, h1⟩ := wt_opt (fun m hm => IH m (by have h0 := sizeOf_opt_lt hm; simp <;> omega) (knownOptB_some hk1 hm)) V w _
        obtain ⟨o2, h2⟩ := IH cond (by simp <;> omega) hk2 V w _
        obtain ⟨o3, h3⟩ := IH body (by simp <;> omega) hk3 V w _
        obtain ⟨o4, h4⟩ := wt_opt (fun m hm => IH m (by have h0 := sizeOf_opt_lt hm; simp <;> omega) (knownOptB_some hk4 hm)) V w _
        exact ⟨_, by rw [h1, h2, h3, h4]; rfl⟩
    | caseClause list body =>
        intro S V s nid
        rw [walkE_step V s _ nid "CaseClause" (by rfl) (by decide)]
        apply visitStep_total
        intro w
        dsimp only [walkChildrenE]
        simp only [Node.knownB, Bool.and_eq_true] at hk
        obtain ⟨hk1, hk2⟩ := hk
        obtain ⟨o1, h1⟩ := wt_list (fun m hm => IH m (by have h0 := List.sizeOf_lt_of_mem hm; simp <;> omega) (knownListB_mem hk1 hm)) V w _ _
        obtain ⟨o2, h2⟩ := wt_list (fun m hm => IH m (by have h0 := List.sizeOf_lt_of_mem hm; simp <;> omega) (knownListB_mem hk2 hm)) V w _ _
        exact ⟨_, by rw [h1, h2]; rfl⟩
    | switchStmt ini tag body =>
        intro S V s nid
        rw [walkE_step V s _ nid "SwitchStmt" (by rfl) (by decide)]
        apply visitStep_total
        intro w
        dsimp only [walkChildrenE]
        simp only [Node.knownB, Bool.and_eq_true] at hk
        obtain ⟨⟨hk1, hk2⟩, hk3⟩ := hk
        obtain ⟨o1, h1⟩ := wt_opt (fun m hm => IH m (by have h0 := sizeOf_opt_lt hm; simp <;> omega) (knownOptB_some hk1 hm)) V w _
        obtain ⟨o2, h2⟩ := wt_opt (fun m hm => IH m (by have h0 := sizeOf_opt_lt hm; simp <;> omega) (knownOptB_some hk2 hm)) V w _
        obtain ⟨o3, h3⟩ := IH body (by simp <;> omega) hk3 V w _
        exact ⟨_, by rw [h1, h2, h3]; rfl⟩
    | typeSwitchStmt ini assign body =>
        intro S V s nid
        rw [walkE_step V s _ nid "TypeSwitchStmt" (by rfl) (by decide)]
        apply visitStep_total
        intro w
        dsimp only [walkChildrenE]
        simp only [Node.knownB, Bool.and_eq_true] at hk
        obtain ⟨⟨hk1, hk2⟩, hk3⟩ := hk
        obtain ⟨o1, h1⟩ := wt_opt (fun m hm => IH m (by have h0 := sizeOf_opt_lt hm; simp <;> omega) (knownOptB_some hk1 hm)) V w _
        obtain ⟨o2, h2⟩ := IH assign (by simp <;> omega) hk2 V w _
        obtain ⟨o3, h3⟩ := IH body (by simp <;> omega) hk3 V w _
        exact ⟨_, by rw [h1, h2, h3]; rfl⟩
    | commClause comm body =>
        intro S V s nid
        rw [walkE_step V s _ nid "CommClause" (by rfl) (by decide)]
        apply visitStep_total
        intro w
        dsimp only [walkChildrenE]
        simp only [Node.knownB, Bool.and_eq_true] at hk
        obtain ⟨hk1, hk2⟩ := hk
        obtain ⟨o1, h1⟩ := wt_opt (fun m hm => IH m (by have h0 := sizeOf_opt_lt hm; simp <;> omega) (knownOptB_some hk1 hm)) V w _
        obtain ⟨o2, h2⟩ := wt_list (fun m hm => IH m (by have h0 := List.sizeOf_lt_of_mem hm; simp <;> omega) (knownListB_mem hk2 hm)) V w _ _
        exact ⟨_, by rw [h1, h2]; rfl⟩
    | selectStmt body =>
        intro S V s nid
        rw [walkE_step V s _ nid "SelectStmt" (by rfl) (by decide)]
        apply visitStep_total
        intro w
        dsimp only [walkChildrenE]
        simp only [Node.knownB, Bool.and_eq_true] at hk
        obtain ⟨o1, h1⟩ := IH body (by simp <;> omega) hk V w _
        exact ⟨_, by rw [h1]⟩
    | forStmt ini cond post body =>
        intro S V s nid
        rw [walkE_step V s _ nid "ForStmt" (by rfl) (by decide)]
        apply visitStep_total
        intro w
        dsimp only [walkChildrenE]
        simp only [Node.knownB, Bool.and_eq_true] at hk
        obtain ⟨⟨⟨hk1, hk2⟩, hk3⟩, hk4⟩ := hk
        obtain ⟨o1, h1⟩ := wt_opt (fun m hm => IH m (by have h0 := sizeOf_opt_lt hm; simp <;> omega) (knownOptB_some hk1 hm)) V w _
        obtain ⟨o2, h2⟩ := wt_opt (fun m hm => IH m (by have h0 := sizeOf_opt_lt hm; simp <;> omega) (knownOptB_some hk2 hm)) V w _
        obtain ⟨o3, h3⟩ := wt_opt (fun m hm => IH m (by have h0 := sizeOf_opt_lt hm; simp <;> omega) (knownOptB_some hk3 hm)) V w _
        obtain ⟨o4, h4⟩ := IH body (by simp <;> omega) hk4 V w _
        exact ⟨_, by rw [h1, h2, h3, h4]; rfl⟩
    | rangeStmt key value x body =>
        intro S V s nid
        rw [walkE_step V s _ nid "RangeStmt" (by rfl) (by decide)]
        apply visitStep_total
        intro w
        dsimp only [walkChildrenE]
        simp only [Node.knownB, Bool.and_eq_true] at hk
        obtain ⟨⟨⟨hk1, hk2⟩, hk3⟩, hk4⟩ := hk
        obtain ⟨o1, h1⟩ := IH key (by simp <;> omega) hk1 V w _
        obtain ⟨o2, h2⟩ := wt_opt (fun m hm => IH m (by have h0 := sizeOf_opt_lt hm; simp <;> omega) (knownOptB_some hk2 hm)) V w _
        obtain ⟨o3, h3⟩ := IH x (by simp <;> omega) hk3 V w _
        obtain ⟨o4, h4⟩ := IH body (by simp <;> omega) hk4 V w _
        exact ⟨_, by rw [h1, h2, h3, h4]; rfl⟩
    | importSpec doc name path comm =>
        intro S V s nid
        rw [walkE_step V s _ nid "ImportSpec" (by rfl) (by decide)]
        apply visitStep_total
        intro w
        dsimp only [walkChildrenE]
        simp only [Node.knownB, Bool.and_eq_true] at hk
        obtain ⟨⟨⟨hk1, hk2⟩, hk3⟩, hk4⟩ := hk
        obtain ⟨o1, h1⟩ := wt_opt (fun m hm => IH m (by have h0 := sizeOf_opt_lt hm; simp <;> omega) (knownOptB_some hk1 hm)) V w _
        obtain ⟨o2, h2⟩ := wt_opt (fun m hm => IH m (by have h0 := sizeOf_opt_lt hm; simp <;> omega) (knownOptB_some hk2 hm)) V w _
        obtain ⟨o3, h3⟩ := IH path (by simp <;> omega) hk3 V w _
        obtain ⟨o4, h4⟩ := wt_opt (fun m hm => IH m (by have h0 := sizeOf_opt_lt hm; simp <;> omega) (knownOptB_some hk4 hm)) V w _
        exact ⟨_, by rw [h1, h2, h3, h4]; rfl⟩
    | valueSpec doc names ty values comm =>
        intro S V s nid
        rw [walkE_step V s _ nid "ValueSpec" (by rfl) (by decide)]
        apply visitStep_total
        intro w
        dsimp only [walkChildrenE]
        simp only [Node.knownB, Bool.and_eq_true] at hk
        obtain ⟨⟨⟨⟨hk1, hk2⟩, hk3⟩, hk4⟩, hk5⟩ := hk
        obtain ⟨o1, h1⟩ := wt_opt (fun m hm => IH m (by have h0 := sizeOf_opt_lt hm; simp <;> omega) (knownOptB_some hk1 hm)) V w _
        obtain ⟨o2, h2⟩ := wt_idents (fun m hm => IH m (by have h0 := List.sizeOf_lt_of_mem hm; simp <;> omega) (knownListB_mem hk2 hm)) V w _
        obtain ⟨o3, h3⟩ := wt_opt (fun m hm => IH m (by have h0 := sizeOf_opt_lt hm; simp <;> omega) (knownOptB_some hk3 hm)) V w _
        obtain ⟨o4, h4⟩ := wt_list (fun m hm => IH m (by have h0 := List.sizeOf_lt_of_mem hm; simp <;> omega) (knownListB_mem hk4 hm)) V w _ _
        obtain ⟨o5, h5⟩ := wt_opt (fun m hm => IH m (by have h0 := sizeOf_opt_lt hm; simp <;> omega) (knownOptB_some hk5 hm)) V w _
        exact ⟨_, by rw [h1, h2, h3, h4, h5]; rfl⟩
    | typeSpec doc name ty comm =>
        intro S V s nid
        rw [walkE_step V s _ nid "TypeSpec" (by rfl) (by decide)]
        apply visitStep_total
        intro w
        dsimp only [walkChildrenE]
        simp only [Node.knownB, Bool.and_eq_true] at hk
        obtain ⟨⟨⟨hk1, hk2⟩, hk3⟩, hk4⟩ := hk
        obtain ⟨o1, h1⟩ := wt_opt (fun m hm => IH m (by have h0 := sizeOf_opt_lt hm; simp <;> omega) (knownOptB_some hk1 hm)) V w _
        obtain ⟨o2, h2⟩ := IH name (by simp <;> omega) hk2 V w _
        obtain ⟨o3, h3⟩ := IH ty (by simp <;> omega) hk3 V w _
        obtain ⟨o4, h4⟩ := wt_opt (fun m hm => IH m (by have h0 := sizeOf_opt_lt hm; simp <;> omega) (knownOptB_some hk4 hm)) V w _
        exact ⟨_, by rw [h1, h2, h3, h4]; rfl⟩
    | badDecl =>
        intro S V s nid
        rw [walkE_step V s _ nid "BadDecl" (by rfl) (by decide)]
        apply visitStep_total
        intro w
        dsimp only [walkChildrenE]
        exact ⟨[], rfl⟩
    | genDecl doc specs =>
        intro S V s nid
        rw [walkE_step V s _ nid "GenDecl" (by rfl) (by decide)]
        apply visitStep_total
        intro w
        dsimp only [walkChildrenE]
        simp only [Node.knownB, Bool.and_eq_true] at hk
        obtain ⟨hk1, hk2⟩ := hk
        obtain ⟨o1, h1⟩ := wt_opt (fun m hm => IH m (by have h0 := sizeOf_opt_lt hm; simp <;> omega) (knownOptB_some hk1 hm)) V w _
        obtain ⟨o2, h2⟩ := wt_list (fun m hm => IH m (by have h0 := List.sizeOf_lt_of_mem hm; simp <;> omega) (knownListB_mem hk2 hm)) V w _ _
        exact ⟨_, by rw [h1, h2]; rfl⟩
    | funcDecl doc recv name ty body =>
        intro S V s nid
        rw [walkE_step V s _ nid "FuncDecl" (by rfl) (by decide)]
        apply visitStep_total
        intro w
        dsimp only [walkChildrenE]
        simp only [Node.knownB, Bool.and_eq_true] at hk
        obtain ⟨⟨⟨⟨hk1, hk2⟩, hk3⟩, hk4⟩, hk5⟩ := hk
        obtain ⟨o1, h1⟩ := wt_opt (fun m hm => IH m (by have h0 := sizeOf_opt_lt hm; simp <;> omega) (knownOptB_some hk1 hm)) V w _
        obtain ⟨o2, h2⟩ := wt_opt (fun m hm => IH m (by have h0 := sizeOf_opt_lt hm; simp <;> omega) (knownOptB_some hk2 hm)) V w _
        obtain ⟨o3, h3⟩ := IH name (by simp <;> omega) hk3 V w _
        obtain ⟨o4, h4⟩ := IH ty (by simp <;> omega) hk4 V w _
        obtain ⟨o5, h5⟩ := wt_opt (fun m hm => IH m (by have h0 := sizeOf_opt_lt hm; simp <;> omega) (knownOptB_some hk5 hm)) V w _
        exact ⟨_, by rw [h1, h2, h3, h4, h5]; rfl⟩
    | file doc name decls =>
        intro S V s nid
        rw [walkE_step V s _ nid (name.identName ++ ".go") (by rfl) (by
          intro he
          have hlen := congrArg String.length he
          rw [String.length_append] at hlen
          have h3 : (".go").length = 3 := rfl
          have h0 : ("" : String).length = 0 := rfl
          omega)]
        apply visitStep_total
        intro w
        dsimp only [walkChildrenE]
        simp only [Node.knownB, Bool.and_eq_true] at hk
        obtain ⟨⟨hk1, hk2⟩, hk3⟩ := hk
        obtain ⟨o1, h1⟩ := wt_opt (fun m hm => IH m (by have h0 := sizeOf_opt_lt hm; simp <;> omega) (knownOptB_some hk1 hm)) V w _
        obtain ⟨o2, h2⟩ := IH name (by simp <;> omega) hk2 V w _
        obtain ⟨o3, h3⟩ := wt_list (fun m hm => IH m (by have h0 := List.sizeOf_lt_of_mem hm; simp <;> omega) (knownListB_mem hk3 hm)) V w _ _
        exact ⟨_, by rw [h1, h2, h3]; rfl⟩
    | package files =>
        intro S V s nid
        rw [walkE_step V s _ nid "Package" (by rfl) (by decide)]
        apply visitStep_total
        intro w
        dsimp only [walkChildrenE]
        simp only [Node.knownB, Bool.and_eq_true] at hk
        obtain ⟨o1, h1⟩ := wt_files (fun m hm => IH m (by have h0 := List.sizeOf_lt_of_mem hm; simp <;> omega) (knownListB_mem hk hm)) V w _
        exact ⟨_, by rw [h1]⟩
    | unknownNode tag =>
        simp only [Node.knownB, Bool.false_eq_true] at hk

/-- C7: a node whose dynamic type is outside the walker's closed known set
makes the traversal abort at once with the fatal `panic("ast.walk")`
(modelled as `Except.error`), returning no partial result; and for every
tree all of whose variants are known, the walker never fails — for every
visitor, state and starting path it returns a result, regardless of the
nodes' field contents. -/
theorem C7_unknown_fatal_known_total :
    (∀ {S : Type} (V : S → Option Node → NodeId → Option S) (s : S)
        (tag : String) (nid : NodeId),
        walkE V s (.unknownNode tag) nid = .error "ast.walk") ∧
    (∀ n : Node, n.knownB = true →
      ∀ {S : Type} (V : S → Option Node → NodeId → Option S) (s : S) (nid : NodeId),
        ∃ l, walkE V s n nid = .ok l) := by
  constructor
  · intro S V s tag nid
    rw [walkE_unfold]
    rfl
  · exact fun n hk => walkE_total_of_known n hk

/-- C7 witness: the totality half instantiated at the known node
`BasicLit "1"` under the always-pruning visitor. -/
theorem C7_witness :
    ∃ l, walkE (fun (_ : Unit) _ _ => none) () (.basicLit "1") [] = .ok l :=
  C7_unknown_fatal_known_total.2 (.basicLit "1") (by rfl) (fun _ _ _ => none) () []

/-- C10: `walkIdentList` walks the i-th element of an identifier-list slot
at the slot path extended with that element's `Name` string — never with
its zero-based index. The first conjunct computes the full observation
list of `walkIdentList` under the collecting visitor: each name `nm`
contributes its visit and sentinel at the path `nid` extended with `nm`
(followed by the ident's own variant label). The remaining conjuncts show
the resulting identifiers on a `Field` and a `ValueSpec`: name children
are labelled `"a"`, `"b"`, `"x"`, `"y"` while the expression list of the
`ValueSpec` keeps numeric labels `"0"`, `"1"`. -/
theorem C10_identList_labels :
    (∀ (nms : List String) (nid : NodeId),
        walkIdentListE inspTrue () (nms.map Node.ident) nid =
          .ok (nms.flatMap (fun nm =>
            [(some (.ident nm), (nid.push nm).push "Ident"),
             (none, (nid.push nm).push "Ident")]))) ∧
    collectE (.field none [.ident "a", .ident "b"] (.ident "int") none none) =
      .ok [(.field none [.ident "a", .ident "b"] (.ident "int") none none, ["Field"]),
           (.ident "a", ["Field", "Names", "a", "Ident"]),
           (.ident "b", ["Field", "Names", "b", "Ident"]),
           (.ident "int", ["Field", "Type", "Ident"])] ∧
    collectE (.valueSpec none [.ident "x", .ident "y"] none
        [.basicLit "1", .basicLit "2"] none) =
      .ok [(.valueSpec none [.ident "x", .ident "y"] none
              [.basicLit "1", .basicLit "2"] none, ["ValueSpec"]),
           (.ident "x", ["ValueSpec", "Names", "x", "Ident"]),
           (.ident "y", ["ValueSpec", "Names", "y", "Ident"]),
           (.basicLit "1", ["ValueSpec", "Values", "0", "BasicLit"]),
           (.basicLit "2", ["ValueSpec", "Values", "1", "BasicLit"])] := by
  refine ⟨?_, by rfl, by rfl⟩
  intro nms
  induction nms with
  | nil => intro nid; rfl
  | cons nm rest ihr =>
      intro nid
      show (walkE inspTrue () (.ident nm) (nid.push nm) >>= fun o1 =>
        walkIdentListE inspTrue () (rest.map Node.ident) nid >>= fun o2 =>
          .ok (o1 ++ o2)) = _
      rw [show walkE inspTrue () (.ident nm) (nid.push nm) =
          .ok [(some (.ident nm), (nid.push nm).push "Ident"),
               (none, (nid.push nm).push "Ident")] from rfl]
      rw [ihr nid]
      rfl

/-- A successful package-files walk is the concatenation of the per-file
observation blocks, each a function of the file alone (the `Package`
branch pushes no per-file label, so every file is walked at the same
path). -/
theorem walkFilesE_flatMap :
    ∀ (fs : List Node) (nid : NodeId) (l : List Obs),
      walkFilesE inspTrue () fs nid = .ok l →
      l = fs.flatMap (fun f => (walkE inspTrue () f nid).toOption.getD []) := by
  intro fs
  induction fs with
  | nil =>
      intro nid l h
      cases h
      rfl
  | cons f rest ihr =>
      intro nid l h
      rw [show walkFilesE inspTrue () (f :: rest) nid =
          (walkE inspTrue () f nid >>= fun o1 =>
            walkFilesE inspTrue () rest nid >>= fun o2 => .ok (o1 ++ o2)) from rfl] at h
      cases hf : walkE inspTrue () f nid with
      | error e => rw [hf] at h; exact Except.noConfusion h
      | ok a =>
          rw [hf] at h
          cases hrest : walkFilesE inspTrue () rest nid with
          | error e => rw [hrest] at h; exact Except.noConfusion h
          | ok b =>
              rw [hrest] at h
              simp only [bind, Except.bind] at h
              cases h
              rw [List.flatMap_cons, ihr nid b hrest, hf]
              rfl

/-- C6: the identifier assigned to each node by the map-building traversal
does not depend on the iteration order of the `range` over a `Package`'s
`Files` map. Walking the same package with its files listed in any two
orders (`fs1` a permutation of `fs2`) yields: the same root identifier
`["Package"]`, observation lists that are permutations of each other
below the root, and the same multiset of observed paths — so every node
receives the identical identifier string in both runs, as `Map` called
twice must. -/
theorem C6_map_stability :
    ∀ (fs1 fs2 : List Node) (l1 l2 : List Obs),
      fs1.Perm fs2 →
      walkE inspTrue () (.package fs1) [] = .ok l1 →
      walkE inspTrue () (.package fs2) [] = .ok l2 →
      l1.head?.map Prod.snd = some ["Package"] ∧
      l2.head?.map Prod.snd = some ["Package"] ∧
      l1.tail.Perm l2.tail ∧
      (l1.map Prod.snd).Perm (l2.map Prod.snd) := by
  intro fs1 fs2 l1 l2 hperm h1 h2
  rw [walkE_step inspTrue () _ [] "Package" (by rfl) (by decide)] at h1 h2
  rw [show (inspTrue () (some (Node.package fs1)) (NodeId.push [] "Package")) = some ()
      from rfl] at h1
  rw [show (inspTrue () (some (Node.package fs2)) (NodeId.push [] "Package")) = some ()
      from rfl] at h2
  simp only [visitStep] at h1 h2
  obtain ⟨kids1, hk1, rfl⟩ := bind_ok_shape _ _ _ _ h1
  obtain ⟨kids2, hk2, rfl⟩ := bind_ok_shape _ _ _ _ h2
  dsimp only [walkChildrenE] at hk1 hk2
  rw [walkFilesE_flatMap fs1 _ kids1 hk1, walkFilesE_flatMap fs2 _ kids2 hk2]
  have hkperm := hperm.flatMap_right
    (fun f => (walkE inspTrue () f (NodeId.push (NodeId.push [] "Package") "Files")).toOption.getD [])
  refine ⟨rfl, rfl, ?_, ?_⟩
  · exact hkperm.append_right _
  · exact List.Perm.cons _ ((hkperm.append_right _).map Prod.snd)

/-- C6 witness: the stability statement instantiated on a two-file package
walked in both file orders. -/
theorem C6_map_stability_witness :
    ([(some (Node.package [.file none (.ident "a") [], .file none (.ident "b") []]),
        (["Package"] : NodeId)),
      (some (.file none (.ident "a") []), ["Package", "Files", "a.go"]),
      (some (.ident "a"), ["Package", "Files", "a.go", "Name", "Ident"]),
      (none, ["Package", "Files", "a.go", "Name", "Ident"]),
      (none, ["Package", "Files", "a.go"]),
      (some (.file none (.ident "b") []), ["Package", "Files", "b.go"]),
      (some (.ident "b"), ["Package", "Files", "b.go", "Name", "Ident"]),
      (none, ["Package", "Files", "b.go", "Name", "Ident"]),
      (none, ["Package", "Files", "b.go"]),
      (none, ["Package"])] : List Obs).head?.map Prod.snd = some ["Package"] ∧
    ([(some (Node.package [.file none (.ident "b") [], .file none (.ident "a") []]),
        (["Package"] : NodeId)),
      (some (.file none (.ident "b") []), ["Package", "Files", "b.go"]),
      (some (.ident "b"), ["Package", "Files", "b.go", "Name", "Ident"]),
      (none, ["Package", "Files", "b.go", "Name", "Ident"]),
      (none, ["Package", "Files", "b.go"]),
      (some (.file none (.ident "a") []), ["Package", "Files", "a.go"]),
      (some (.ident "a"), ["Package", "Files", "a.go", "Name", "Ident"]),
      (none, ["Package", "Files", "a.go", "Name", "Ident"]),
      (none, ["Package", "Files", "a.go"]),
      (none, ["Package"])] : List Obs).head?.map Prod.snd = some ["Package"] ∧
    ([(some (Node.package [.file none (.ident "a") [], .file none (.ident "b") []]),
        (["Package"] : NodeId)),
      (some (.file none (.ident "a") []), ["Package", "Files", "a.go"]),
      (some (.ident "a"), ["Package", "Files", "a.go", "Name", "Ident"]),
      (none, ["Package", "Files", "a.go", "Name", "Ident"]),
      (none, ["Package", "Files", "a.go"]),
      (some (.file none (.ident "b") []), ["Package", "Files", "b.go"]),
      (some (.ident "b"), ["Package", "Files", "b.go", "Name", "Ident"]),
      (none, ["Package", "Files", "b.go", "Name", "Ident"]),
      (none, ["Package", "Files", "b.go"]),
      (none, ["Package"])] : List Obs).tail.Perm
    ([(some (Node.package [.file none (.ident "b") [], .file none (.ident "a") []]),
        (["Package"] : NodeId)),
      (some (.file none (.ident "b") []), ["Package", "Files", "b.go"]),
      (some (.ident "b"), ["Package", "Files", "b.go", "Name", "Ident"]),
      (none, ["Package", "Files", "b.go", "Name", "Ident"]),
      (none, ["Package", "Files", "b.go"]),
      (some (.file none (.ident "a") []), ["Package", "Files", "a.go"]),
      (some (.ident "a"), ["Package", "Files", "a.go", "Name", "Ident"]),
      (none, ["Package", "Files", "a.go", "Name", "Ident"]),
      (none, ["Package", "Files", "a.go"]),
      (none, ["Package"])] : List Obs).tail ∧
    (([(some (Node.package [.file none (.ident "a") [], .file none (.ident "b") []]),
        (["Package"] : NodeId)),
      (some (.file none (.ident "a") []), ["Package", "Files", "a.go"]),
      (some (.ident "a"), ["Package", "Files", "a.go", "Name", "Ident"]),
      (none, ["Package", "Files", "a.go", "Name", "Ident"]),
      (none, ["Package", "Files", "a.go"]),
      (some (.file none (.ident "b") []), ["Package", "Files", "b.go"]),
      (some (.ident "b"), ["Package", "Files", "b.go", "Name", "Ident"]),
      (none, ["Package", "Files", "b.go", "Name", "Ident"]),
      (none, ["Package", "Files", "b.go"]),
      (none, ["Package"])] : List Obs).map Prod.snd).Perm
    (([(some (Node.package [.file none (.ident "b") [], .file none (.ident "a") []]),
        (["Package"] : NodeId)),
      (some (.file none (.ident "b") []), ["Package", "Files", "b.go"]),
      (some (.ident "b"), ["Package", "Files", "b.go", "Name", "Ident"]),
      (none, ["Package", "Files", "b.go", "Name", "Ident"]),
      (none, ["Package", "Files", "b.go"]),
      (some (.file none (.ident "a") []), ["Package", "Files", "a.go"]),
      (some (.ident "a"), ["Package", "Files", "a.go", "Name", "Ident"]),
      (none, ["Package", "Files", "a.go", "Name", "Ident"]),
      (none, ["Package", "Files", "a.go"]),
      (none, ["Package"])] : List Obs).map Prod.snd) :=
  C6_map_stability
    [.file none (.ident "a") [], .file none (.ident "b") []]
    [.file none (.ident "b") [], .file none (.ident "a") []]
    _ _
    (List.Perm.swap (Node.file none (Node.ident "b") []) (Node.file none (Node.ident "a") []) [])
    (by rfl) (by rfl)

/-- A label that does not contain the path separator. -/
def slashFree (s : String) : Bool := !(s.data.contains '/')

/-- Pairwise distinctness of a string list, computably. -/
def strNodupB : List String → Bool
  | [] => true
  | s :: rest => (!(rest.contains s)) && strNodupB rest

/-- The own label every known node contributes: the declared name plus
`".go"` for a file, the reflected type name otherwise (the value
`idComponent` returns when it does not panic). -/
def component (n : Node) : String :=
  match n with
  | .file _ name _ => name.identName ++ ".go"
  | _ => n.typeName

/-- On every node except `unknownNode`, `idComponent` returns `component`. -/
theorem idComponentE_eq_component {n : Node} (h : ∀ t, n ≠ .unknownNode t) :
    idComponentE n = .ok (component n) := by
  cases n <;> first | rfl | (exact absurd rfl (h _))

set_option maxHeartbeats 1600000 in
/-- `digitChar` never yields the path separator. -/
theorem digitChar_ne_slash (m : Nat) : Nat.digitChar m ≠ '/' := by
  by_cases h : m < 16
  · interval_cases m <;> decide
  · unfold Nat.digitChar
    have hne : ∀ k : Nat, k < 16 → ¬ m = k := by omega
    rw [if_neg (hne 0 (by norm_num)), if_neg (hne 1 (by norm_num)),
      if_neg (hne 2 (by norm_num)), if_neg (hne 3 (by norm_num)),
      if_neg (hne 4 (by norm_num)), if_neg (hne 5 (by norm_num)),
      if_neg (hne 6 (by norm_num)), if_neg (hne 7 (by norm_num)),
      if_neg (hne 8 (by norm_num)), if_neg (hne 9 (by norm_num)),
      if_neg (hne 10 (by norm_num)), if_neg (hne 11 (by norm_num)),
      if_neg (hne 12 (by norm_num)), if_neg (hne 13 (by norm_num)),
      if_neg (hne 14 (by norm_num)), if_neg (hne 15 (by norm_num))]
    decide

/-- `digitChar` is inverted by char-code arithmetic on decimal digits. -/
theorem digitVal_digitChar {d : Nat} (h : d < 10) :
    (Nat.digitChar d).toNat - 48 = d := by
  interval_cases d <;> rfl

/-- `toDigitsCore` prepends its digits to the accumulator. -/
theorem toDigitsCore_acc (fuel : Nat) : ∀ (n : Nat) (ds : List Char),
    Nat.toDigitsCore 10 fuel n ds = Nat.toDigitsCore 10 fuel n [] ++ ds := by
  induction fuel with
  | zero => intro n ds; rfl
  | succ fuel ih =>
      intro n ds
      simp only [Nat.toDigitsCore]
      by_cases h : n / 10 = 0
      · simp [h]
      · simp only [h, if_false]
        rw [ih (n / 10) (Nat.digitChar (n % 10) :: ds),
          ih (n / 10) [Nat.digitChar (n % 10)]]
        simp

/-- Any fuel of at least `n + 1` computes the same digits. -/
theorem toDigitsCore_fuel : ∀ n : Nat, ∀ fuel : Nat, n < fuel → ∀ ds : List Char,
    Nat.toDigitsCore 10 fuel n ds = Nat.toDigitsCore 10 (n + 1) n ds := by
  intro n
  induction n using Nat.strong_induction_on with
  | _ n ih =>
      intro fuel hf ds
      match fuel, hf with
      | fuel + 1, hf =>
        simp only [Nat.toDigitsCore]
        by_cases h : n / 10 = 0
        · simp [h]
        · simp only [h, if_false]
          have hpos : 0 < n := by
            rcases Nat.eq_zero_or_pos n with h0 | h0
            · subst h0; simp at h
            · exact h0
          have hlt : n / 10 < n := Nat.div_lt_self hpos (by norm_num)
          have hfuel : n / 10 < fuel := by omega
          rw [ih (n / 10) hlt fuel hfuel, ← ih (n / 10) hlt n (by omega)]

/-- The decimal value read back from a digit list. -/
def digitsVal (l : List Char) : Nat :=
  l.foldl (fun a c => 10 * a + (c.toNat - 48)) 0

/-- Reading the digits of `n` yields `n`. -/
theorem digitsVal_toDigits : ∀ n : Nat, digitsVal (Nat.toDigits 10 n) = n := by
  intro n
  induction n using Nat.strong_induction_on with
  | _ n ih =>
      unfold Nat.toDigits
      simp only [Nat.toDigitsCore]
      by_cases h : n / 10 = 0
      · have hn : n < 10 := by omega
        have hmod : n % 10 = n := Nat.mod_eq_of_lt hn
        simp only [h, if_pos]
        show 10 * 0 + ((Nat.digitChar (n % 10)).toNat - 48) = n
        rw [hmod, digitVal_digitChar hn]
        omega
      · simp only [h, if_false]
        have hpos : 0 < n := by
          rcases Nat.eq_zero_or_pos n with h0 | h0
          · subst h0; simp at h
          · exact h0
        have hlt : n / 10 < n := Nat.div_lt_self hpos (by norm_num)
        rw [toDigitsCore_fuel (n / 10) n hlt, toDigitsCore_acc]
        show digitsVal (Nat.toDigits 10 (n / 10) ++ [Nat.digitChar (n % 10)]) = n
        have hstep : digitsVal (Nat.toDigits 10 (n / 10) ++ [Nat.digitChar (n % 10)]) =
            10 * digitsVal (Nat.toDigits 10 (n / 10)) +
              ((Nat.digitChar (n % 10)).toNat - 48) := by
          unfold digitsVal
          rw [List.foldl_append]
          rfl
        rw [hstep, ih (n / 10) hlt, digitVal_digitChar (Nat.mod_lt _ (by norm_num))]
        omega

/-- `strconv.Itoa` (decimal rendering) is injective. -/
theorem natRepr_inj {m n : Nat} (h : Nat.repr m = Nat.repr n) : m = n := by
  have hd : Nat.toDigits 10 m = Nat.toDigits 10 n := by
    have h2 := congrArg String.data h
    simpa [Nat.repr, List.asString] using h2
  have h3 := congrArg digitsVal hd
  rwa [digitsVal_toDigits, digitsVal_toDigits] at h3

/-- The digits of `n` contain no separator character. -/
theorem toDigitsCore_no_slash : ∀ (fuel n : Nat) (ds : List Char),
    (∀ c ∈ ds, c ≠ '/') → ∀ c ∈ Nat.toDigitsCore 10 fuel n ds, c ≠ '/' := by
  intro fuel
  induction fuel with
  | zero => intro n ds hds; exact hds
  | succ fuel ih =>
      intro n ds hds c hc
      simp only [Nat.toDigitsCore] at hc
      by_cases h : n / 10 = 0
      · rw [if_pos h] at hc
        cases hc with
        | head => exact digitChar_ne_slash _
        | tail _ hmem => exact hds c hmem
      · rw [if_neg h] at hc
        refine ih (n / 10) (Nat.digitChar (n % 10) :: ds) ?_ c hc
        intro c2 hc2
        cases hc2 with
        | head => exact digitChar_ne_slash _
        | tail _ hmem => exact hds c2 hmem

/-- Decimal renderings are slash-free labels. -/
theorem natRepr_slashFree (n : Nat) : slashFree (Nat.repr n) = true := by
  have hchars : ∀ c ∈ Nat.toDigits 10 n, c ≠ '/' :=
    toDigitsCore_no_slash (n + 1) n [] (by intro c hc; cases hc)
  simp only [slashFree, Nat.repr, Bool.not_eq_true']
  have hdata : (Nat.toDigits 10 n).asString.data = Nat.toDigits 10 n := rfl
  rw [hdata]
  show List.elem '/' (Nat.toDigits 10 n) = false
  rw [List.elem_eq_mem]
  simp only [decide_eq_false_iff_not]
  intro hmem
  exact hchars '/' hmem rfl

/-- The character stream of a slash-joined non-empty label list. -/
def joinChars (p : List String) : List Char :=
  match p with
  | [] => []
  | x :: xs => x.data ++ xs.flatMap (fun y => '/' :: y.data)

/-- The loop of `strings.Join` (`String.intercalate.go`) at the character
level. -/
theorem intercalate_go_data : ∀ (xs : List String) (acc : String),
    (String.intercalate.go acc "/" xs).data =
      acc.data ++ xs.flatMap (fun y => '/' :: y.data) := by
  intro xs
  induction xs with
  | nil => intro acc; simp [String.intercalate.go]
  | cons a as iha =>
      intro acc
      show (String.intercalate.go (acc ++ "/" ++ a) "/" as).data = _
      rw [iha (acc ++ "/" ++ a)]
      simp [String.data_append]

/-- `render` at the character level. -/
theorem render_data : ∀ p : NodeId, (NodeId.render p).data = joinChars p := by
  intro p
  cases p with
  | nil => rfl
  | cons x xs =>
      show (String.intercalate.go x "/" xs).data = _
      rw [intercalate_go_data xs x]
      rfl

/-- A slash-free label has no separator among its characters. -/
theorem slashFree_chars {s : String} (h : slashFree s = true) :
    ∀ c ∈ s.data, c ≠ '/' := by
  intro c hc heq
  subst heq
  simp only [slashFree, Bool.not_eq_true'] at h
  have h2 : List.elem '/' s.data = false := h
  rw [List.elem_eq_mem, decide_eq_false_iff_not] at h2
  exact h2 hc

/-- Two slash-free prefixes of the same character stream followed by
separator-headed (or empty) remainders coincide. -/
theorem chars_prefix_eq : ∀ (u : List Char) (v r s : List Char),
    (∀ c ∈ u, c ≠ '/') → (∀ c ∈ v, c ≠ '/') →
    (r = [] ∨ ∃ t, r = '/' :: t) → (s = [] ∨ ∃ t, s = '/' :: t) →
    u ++ r = v ++ s → u = v ∧ r = s := by
  intro u
  induction u with
  | nil =>
      intro v r s _ hv hr _ heq
      cases v with
      | nil => exact ⟨rfl, heq⟩
      | cons b v2 =>
          simp only [List.nil_append, List.cons_append] at heq
          rcases hr with hre | ⟨t, hrt⟩
          · rw [hre] at heq; exact absurd heq (by simp)
          · rw [hrt] at heq
            have hb : b = '/' := (List.cons.injEq _ _ _ _ ▸ heq).1.symm
            exact absurd hb.symm (Ne.symm (hv b (List.mem_cons_self b v2)))
  | cons a u2 ihu =>
      intro v r s hu hv hr hs heq
      cases v with
      | nil =>
          simp only [List.cons_append, List.nil_append] at heq
          rcases hs with hse | ⟨t, hst⟩
          · rw [hse] at heq; exact absurd heq.symm (by simp)
          · rw [hst] at heq
            have ha : a = '/' := (List.cons.injEq _ _ _ _ ▸ heq).1
            exact absurd ha (hu a (List.mem_cons_self a u2))
      | cons b v2 =>
          simp only [List.cons_append, List.cons.injEq] at heq
          obtain ⟨hab, heq2⟩ := heq
          obtain ⟨h1, h2⟩ := ihu v2 r s
            (fun c hc => hu c (List.mem_cons_of_mem a hc))
            (fun c hc => hv c (List.mem_cons_of_mem b hc)) hr hs heq2
          exact ⟨by rw [hab, h1], h2⟩

/-- `joinChars` is injective on non-empty lists of slash-free labels. -/
theorem joinChars_inj : ∀ (p q : List String), p ≠ [] → q ≠ [] →
    (∀ lab ∈ p, slashFree lab = true) → (∀ lab ∈ q, slashFree lab = true) →
    joinChars p = joinChars q → p = q := by
  intro p
  induction p with
  | nil => intro q hp; exact absurd rfl hp
  | cons x xs ihx =>
      intro q _ hq hplabs hqlabs heq
      cases q with
      | nil => exact absurd rfl hq
      | cons y ys =>
          have hflat : ∀ l : List String,
              (l.flatMap (fun z => '/' :: z.data) = [] ∨
               ∃ t, l.flatMap (fun z => '/' :: z.data) = '/' :: t) := by
            intro l
            cases l with
            | nil => exact Or.inl rfl
            | cons z zs => exact Or.inr ⟨z.data ++ zs.flatMap (fun w => '/' :: w.data), rfl⟩
          have hxy := chars_prefix_eq x.data y.data
            (xs.flatMap (fun z => '/' :: z.data)) (ys.flatMap (fun z => '/' :: z.data))
            (slashFree_chars (hplabs x (List.mem_cons_self x xs)))
            (slashFree_chars (hqlabs y (List.mem_cons_self y ys)))
            (hflat xs) (hflat ys) heq
          obtain ⟨hxdata, hrest⟩ := hxy
          have hxeq : x = y := by
            cases x; cases y
            simp only at hxdata
            rw [hxdata]
          cases xs with
          | nil =>
              cases ys with
              | nil => rw [hxeq]
              | cons z zs => exact absurd hrest.symm (by simp)
          | cons x2 xs2 =>
              cases ys with
              | nil => exact absurd hrest (by simp)
              | cons y2 ys2 =>
                  simp only [List.flatMap_cons, List.cons_append, List.cons.injEq,
                    true_and] at hrest
                  have hjoin : joinChars (x2 :: xs2) = joinChars (y2 :: ys2) := by
                    simpa [joinChars] using hrest
                  have := ihx (y2 :: ys2) (by simp) (by simp)
                    (fun lab hl => hplabs lab (List.mem_cons_of_mem x hl))
                    (fun lab hl => hqlabs lab (List.mem_cons_of_mem y hl)) hjoin
                  rw [hxeq, this]

/-- `render` (the slash-joined identifier) is injective on non-empty paths
of slash-free labels. -/
theorem render_inj {p q : NodeId} (hp : p ≠ []) (hq : q ≠ [])
    (hpl : ∀ lab ∈ p, slashFree lab = true) (hql : ∀ lab ∈ q, slashFree lab = true)
    (h : NodeId.render p = NodeId.render q) : p = q := by
  have hd := congrArg String.data h
  rw [render_data, render_data] at hd
  exact joinChars_inj p q hp hq hpl hql hd

/-- The paths at which nodes (not sentinels) are observed. -/
def pathsOf (l : List Obs) : List NodeId :=
  l.filterMap (fun p => p.1.map (fun _ => p.2))

theorem pathsOf_append (a b : List Obs) :
    pathsOf (a ++ b) = pathsOf a ++ pathsOf b :=
  List.filterMap_append a b _

theorem pathsOf_cons_some (n : Node) (nid : NodeId) (rest : List Obs) :
    pathsOf ((some n, nid) :: rest) = nid :: pathsOf rest := rfl

theorem pathsOf_cons_none (nid : NodeId) (rest : List Obs) :
    pathsOf ((none, nid) :: rest) = pathsOf rest := rfl

/-- A path that strictly extends `base` with slash-free labels. -/
def GoodExt (base : NodeId) (p : NodeId) : Prop :=
  ∃ ext, p = base ++ ext ∧ ext ≠ [] ∧ ∀ lab ∈ ext, slashFree lab = true

/-- A strict extension differs from its base. -/
theorem GoodExt.ne_base {base p : NodeId} (h : GoodExt base p) : p ≠ base := by
  obtain ⟨ext, rfl, hne, _⟩ := h
  intro heq
  have := congrArg List.length heq
  simp only [List.length_append] at this
  exact hne (List.length_eq_zero.mp (by omega))

/-- The paths of one child slot: all extend `base` through the slot label
`lab`, with slash-free labels throughout, and are pairwise distinct. -/
def SlotGood (base : NodeId) (lab : String) (ps : List NodeId) : Prop :=
  ps.Nodup ∧ slashFree lab = true ∧
    ∀ p ∈ ps, ∃ ext, p = base ++ (lab :: ext) ∧ ∀ l2 ∈ ext, slashFree l2 = true

/-- The paths of several slots whose first labels come from `labs`. -/
def JoinGood (base : NodeId) (labs : List String) (ps : List NodeId) : Prop :=
  ps.Nodup ∧
    ∀ p ∈ ps, ∃ lab ∈ labs, ∃ ext, p = base ++ (lab :: ext) ∧
      slashFree lab = true ∧ ∀ l2 ∈ ext, slashFree l2 = true

theorem joinGood_nil (base : NodeId) (labs : List String) : JoinGood base labs [] :=
  ⟨List.nodup_nil, by intro p hp; cases hp⟩

theorem joinGood_mono {base : NodeId} {labs labs2 : List String} {ps : List NodeId}
    (h : JoinGood base labs ps) (hsub : ∀ lab ∈ labs, lab ∈ labs2) :
    JoinGood base labs2 ps := by
  obtain ⟨hnd, hmem⟩ := h
  refine ⟨hnd, ?_⟩
  intro p hp
  obtain ⟨lab, hlab, ext, hext, hsf, hsfs⟩ := hmem p hp
  exact ⟨lab, hsub lab hlab, ext, hext, hsf, hsfs⟩

/-- Two paths through different slot labels differ. -/
theorem ne_of_label_ne {base : NodeId} {la lb : String} {e1 e2 : List String}
    (hne : la ≠ lb) : base ++ (la :: e1) ≠ base ++ (lb :: e2) := by
  intro heq
  have h2 := List.append_cancel_left heq
  exact hne (List.cons.injEq _ _ _ _ ▸ h2).1

/-- Prepending one slot's paths to disjoint slots' paths. -/
theorem joinGood_append {base : NodeId} {lab : String} {labs : List String}
    {psa psb : List NodeId} (ha : SlotGood base lab psa) (hb : JoinGood base labs psb)
    (hnm : lab ∉ labs) : JoinGood base (lab :: labs) (psa ++ psb) := by
  obtain ⟨hnda, hsfa, hmema⟩ := ha
  obtain ⟨hndb, hmemb⟩ := hb
  constructor
  · rw [List.nodup_append]
    refine ⟨hnda, hndb, ?_⟩
    intro p hpa hqb
    obtain ⟨e1, he1, _⟩ := hmema p hpa
    obtain ⟨lb, hlb, e2, he2, _, _⟩ := hmemb p hqb
    rw [he1] at he2
    refine ne_of_label_ne ?_ he2
    intro hl
    rw [hl] at hnm
    exact hnm hlb
  · intro p hp
    rcases List.mem_append.mp hp with hpa | hpb
    · obtain ⟨ext, hext, hsfs⟩ := hmema p hpa
      exact ⟨lab, List.mem_cons_self _ _, ext, hext, hsfa, hsfs⟩
    · obtain ⟨lb, hlb, ext, hext, hsf, hsfs⟩ := hmemb p hpb
      exact ⟨lb, List.mem_cons_of_mem _ hlb, ext, hext, hsf, hsfs⟩

theorem pathsOf_nil : pathsOf [] = [] := rfl

/-- The always-true inspector continues at every call. -/
theorem inspTrue_eq (o : Option Node) (p : NodeId) : inspTrue () o p = some () := rfl

/-- Appending slash-free labels is slash-free. -/
theorem slashFree_append {a b : String} (ha : slashFree a = true)
    (hb : slashFree b = true) : slashFree (a ++ b) = true := by
  simp only [slashFree, Bool.not_eq_true']
  show List.elem '/' (a ++ b).data = false
  rw [String.data_append, List.elem_eq_mem, decide_eq_false_iff_not]
  intro hmem
  rcases List.mem_append.mp hmem with h | h
  · exact slashFree_chars ha '/' h rfl
  · exact slashFree_chars hb '/' h rfl

/-- The well-formedness condition of an identifier-list slot: the element
names are pairwise distinct and contain no separator. -/
def namesOkB (names : List Node) : Bool :=
  strNodupB (names.map Node.identName) && (names.map Node.identName).all slashFree

theorem strNodupB_cons {s : String} {rest : List String}
    (h : strNodupB (s :: rest) = true) : s ∉ rest ∧ strNodupB rest = true := by
  simp only [strNodupB, Bool.and_eq_true, Bool.not_eq_true'] at h
  refine ⟨?_, h.2⟩
  intro hmem
  have h2 : List.elem s rest = false := h.1
  rw [List.elem_eq_mem, decide_eq_false_iff_not] at h2
  exact h2 hmem

theorem namesOkB_spec {names : List Node} (h : namesOkB names = true) :
    strNodupB (names.map Node.identName) = true ∧
    ∀ x ∈ names, slashFree x.identName = true := by
  simp only [namesOkB, Bool.and_eq_true, List.all_eq_true] at h
  refine ⟨h.1, ?_⟩
  intro x hx
  exact h.2 x.identName (List.mem_map_of_mem Node.identName hx)

mutual

/-- Well-formedness of a tree: every variant is known, the names of each
identifier-list slot are pairwise distinct and slash-free, a file's
declared name is slash-free, and a package's files have pairwise distinct
own labels. Under these conditions the walk assigns distinct identifiers. -/
def Node.wfB : Node → Bool
  | .comment _ => true
  | .commentGroup list => wfListB list
  | .field doc names ty tag comm =>
      namesOkB names && wfOptB doc && wfListB names && ty.wfB && wfOptB tag && wfOptB comm
  | .fieldList list => wfListB list
  | .badExpr => true
  | .ident _ => true
  | .basicLit _ => true
  | .ellipsis elt => wfOptB elt
  | .funcLit ty body => ty.wfB && body.wfB
  | .compositeLit ty elts => wfOptB ty && wfListB elts
  | .parenExpr x => x.wfB
  | .selectorExpr x sel => x.wfB && sel.wfB
  | .indexExpr x index => x.wfB && index.wfB
  | .sliceExpr x low high => x.wfB && wfOptB low && wfOptB high
  | .typeAssertExpr x ty => x.wfB && wfOptB ty
  | .callExpr fn args => fn.wfB && wfListB args
  | .starExpr x => x.wfB
  | .unaryExpr _ x => x.wfB
  | .binaryExpr x _ y => x.wfB && y.wfB
  | .keyValueExpr key value => key.wfB && value.wfB
  | .arrayType len elt => wfOptB len && elt.wfB
  | .structType fields => fields.wfB
  | .funcType params results => wfOptB params && wfOptB results
  | .interfaceType methods => methods.wfB
  | .mapType key value => key.wfB && value.wfB
  | .chanType value => value.wfB
  | .badStmt => true
  | .declStmt decl => decl.wfB
  | .emptyStmt => true
  | .labeledStmt label stmt => label.wfB && stmt.wfB
  | .exprStmt x => x.wfB
  | .sendStmt ch value => ch.wfB && value.wfB
  | .incDecStmt x => x.wfB
  | .assignStmt lhs rhs => wfListB lhs && wfListB rhs
  | .goStmt call => call.wfB
  | .deferStmt call => call.wfB
  | .returnStmt results => wfListB results
  | .branchStmt label => wfOptB label
  | .blockStmt list => wfListB list
  | .ifStmt ini cond body els => wfOptB ini && cond.wfB && body.wfB && wfOptB els
  | .caseClause list body => wfListB list && wfListB body
  | .switchStmt ini tag body => wfOptB ini && wfOptB tag && body.wfB
  | .typeSwitchStmt ini assign body => wfOptB ini && assign.wfB && body.wfB
  | .commClause comm body => wfOptB comm && wfListB body
  | .selectStmt body => body.wfB
  | .forStmt ini cond post body => wfOptB ini && wfOptB cond && wfOptB post && body.wfB
  | .rangeStmt key value x body => key.wfB && wfOptB value && x.wfB && body.wfB
  | .importSpec doc name path comm => wfOptB doc && wfOptB name && path.wfB && wfOptB comm
  | .valueSpec doc names ty values comm =>
      namesOkB names && wfOptB doc && wfListB names && wfOptB ty && wfListB values && wfOptB comm
  | .typeSpec doc name ty comm => wfOptB doc && name.wfB && ty.wfB && wfOptB comm
  | .badDecl => true
  | .genDecl doc specs => wfOptB doc && wfListB specs
  | .funcDecl doc recv name ty body =>
      wfOptB doc && wfOptB recv && name.wfB && ty.wfB && wfOptB body
  | .file doc name decls => slashFree name.identName && wfOptB doc && name.wfB && wfListB decls
  | .package files => strNodupB (files.map component) && wfListB files
  | .unknownNode _ => false

/-- `wfB` over a child list. -/
def wfListB : List Node → Bool
  | [] => true
  | x :: xs => x.wfB && wfListB xs

/-- `wfB` over an optional child. -/
def wfOptB : Option Node → Bool
  | none => true
  | some x => x.wfB

end

/-- Membership form of `wfListB`. -/
theorem wfListB_mem {ls : List Node} (h : wfListB ls = true) {x : Node}
    (hx : x ∈ ls) : x.wfB = true := by
  induction ls with
  | nil => cases hx
  | cons y ys ihy =>
      simp only [wfListB, Bool.and_eq_true] at h
      rcases List.mem_cons.mp hx with rfl | hmem
      · exact h.1
      · exact ihy h.2 hmem

/-- Some-case form of `wfOptB`. -/
theorem wfOptB_some {o : Option Node} (h : wfOptB o = true) {x : Node}
    (hx : o = some x) : x.wfB = true := by
  subst hx; exact h


/-- The uniqueness invariant of the walk: under the always-true inspector,
walking the node at any path succeeds, the first observed path is the node's
own (the given path extended by its `component`), every further observed path
strictly extends the node's own path with slash-free labels, and all observed
paths are pairwise distinct. -/
def WalkUniq (n : Node) : Prop :=
  ∀ nid : NodeId, ∃ l ts,
    walkE inspTrue () n nid = .ok l ∧
    pathsOf l = (nid ++ [component n]) :: ts ∧
    slashFree (component n) = true ∧
    (∀ p ∈ ts, GoodExt (nid ++ [component n]) p) ∧
    ts.Nodup

/-- One slot holds paths under disjoint labels. -/
theorem joinGood_single {base : NodeId} {lab : String} {ps : List NodeId}
    (h : SlotGood base lab ps) : JoinGood base [lab] ps := by
  obtain ⟨hnd, hsf, hmem⟩ := h
  refine ⟨hnd, ?_⟩
  intro p hp
  obtain ⟨ext, hext, hsfs⟩ := hmem p hp
  exact ⟨lab, List.mem_singleton.mpr rfl, ext, hext, hsf, hsfs⟩

/-- Every joined path strictly extends the base. -/
theorem joinGood_goodext {base : NodeId} {labs : List String} {ps : List NodeId}
    (h : JoinGood base labs ps) : ∀ p ∈ ps, GoodExt base p := by
  intro p hp
  obtain ⟨lab, _, ext, hext, hsf, hsfs⟩ := h.2 p hp
  refine ⟨lab :: ext, hext, by simp, ?_⟩
  intro l2 hl2
  rcases List.mem_cons.mp hl2 with rfl | h2
  · exact hsf
  · exact hsfs l2 h2

/-- Walking a node that satisfies the invariant yields distinct paths, each
the given path extended by the node's label and further slash-free labels. -/
theorem block_of_walkUniq {x : Node} (h : WalkUniq x) (nid : NodeId) :
    ∃ l, walkE inspTrue () x nid = .ok l ∧ (pathsOf l).Nodup ∧
      ∀ p ∈ pathsOf l, ∃ ext, p = nid ++ (component x :: ext) ∧
        ∀ l2 ∈ component x :: ext, slashFree l2 = true := by
  obtain ⟨l, ts, hw, hp, hcsf, hgood, hnd⟩ := h nid
  refine ⟨l, hw, ?_, ?_⟩
  · rw [hp]
    exact List.nodup_cons.mpr ⟨fun hmem => (hgood _ hmem).ne_base rfl, hnd⟩
  · rw [hp]
    intro p hp2
    rcases List.mem_cons.mp hp2 with rfl | hmem
    · refine ⟨[], by simp, ?_⟩
      intro l2 hl2
      rcases List.mem_singleton.mp hl2 with rfl
      exact hcsf
    · obtain ⟨ext, hext, hne, hsfs⟩ := hgood p hmem
      refine ⟨ext, by rw [hext]; simp, ?_⟩
      intro l2 hl2
      rcases List.mem_cons.mp hl2 with rfl | h2
      · exact hcsf
      · exact hsfs l2 h2

/-- A child walked at the base extended by a slot label fills that slot. -/
theorem slot_of_walkUniq {x : Node} (h : WalkUniq x) (base : NodeId)
    (lab : String) (hsf : slashFree lab = true) :
    ∃ l, walkE inspTrue () x (base ++ [lab]) = .ok l ∧
      SlotGood base lab (pathsOf l) := by
  obtain ⟨l, hw, hnd, hmem⟩ := block_of_walkUniq h (base ++ [lab])
  refine ⟨l, hw, hnd, hsf, ?_⟩
  intro p hp
  obtain ⟨ext, hext, hsfs⟩ := hmem p hp
  refine ⟨component x :: ext, by rw [hext]; simp, ?_⟩
  intro l2 hl2
  exact hsfs l2 hl2

/-- An optional child walked at the base extended by a slot label fills
that slot. -/
theorem slotOpt_of_walkUniq {o : Option Node}
    (h : ∀ x, o = some x → WalkUniq x) (base : NodeId) (lab : String)
    (hsf : slashFree lab = true) :
    ∃ l, walkOptE inspTrue () o (base ++ [lab]) = .ok l ∧
      SlotGood base lab (pathsOf l) := by
  cases o with
  | none => exact ⟨[], rfl, List.nodup_nil, hsf, by intro p hp; cases hp⟩
  | some x => exact slot_of_walkUniq (h x rfl) base lab hsf

/-- The indexed-list walk starting at index `i`: paths are distinct and each
extends the slot path through the decimal label of an index `≥ i`. -/
theorem walkNodeList_uniq {ls : List Node} (h : ∀ x ∈ ls, WalkUniq x) :
    ∀ (i : Nat) (nid : NodeId),
      ∃ l, walkNodeListE inspTrue () ls i nid = .ok l ∧
        (pathsOf l).Nodup ∧
        ∀ p ∈ pathsOf l, ∃ j, i ≤ j ∧ ∃ ext, p = nid ++ (Nat.repr j :: ext) ∧
          ∀ l2 ∈ Nat.repr j :: ext, slashFree l2 = true := by
  induction ls with
  | nil =>
      intro i nid
      exact ⟨[], rfl, List.nodup_nil, by intro p hp; cases hp⟩
  | cons x xs ihx =>
      intro i nid
      obtain ⟨a, ha, hand, hsfa, hmema⟩ :=
        slot_of_walkUniq (h x (List.mem_cons_self x xs)) nid (Nat.repr i)
          (natRepr_slashFree i)
      obtain ⟨b, hb, hbnd, hmemb⟩ :=
        ihx (fun y hy => h y (List.mem_cons_of_mem x hy)) (i + 1) nid
      refine ⟨a ++ b, ?_, ?_, ?_⟩
      · show (walkE inspTrue () x (nid ++ [Nat.repr i]) >>= fun o1 =>
          walkNodeListE inspTrue () xs (i + 1) nid >>= fun o2 =>
            .ok (o1 ++ o2)) = _
        rw [ha, hb]
        rfl
      · rw [pathsOf_append, List.nodup_append]
        refine ⟨hand, hbnd, ?_⟩
        intro p hpa hpb
        obtain ⟨e1, he1, _⟩ := hmema p hpa
        obtain ⟨j, hij, e2, he2, _⟩ := hmemb p hpb
        rw [he1] at he2
        refine ne_of_label_ne ?_ he2
        intro hl
        have := natRepr_inj hl
        omega
      · rw [pathsOf_append]
        intro p hp
        rcases List.mem_append.mp hp with hpa | hpb
        · obtain ⟨e1, he1, hsfs⟩ := hmema p hpa
          refine ⟨i, le_refl i, e1, he1, ?_⟩
          intro l2 hl2
          rcases List.mem_cons.mp hl2 with rfl | h2
          · exact natRepr_slashFree i
          · exact hsfs l2 h2
        · obtain ⟨j, hij, e2, he2, hsfs⟩ := hmemb p hpb
          exact ⟨j, by omega, e2, he2, hsfs⟩

/-- An indexed-list slot: the list walked at the base extended by the slot
label, starting at index 0, fills that slot. -/
theorem slotList_of_walkUniq {ls : List Node} (h : ∀ x ∈ ls, WalkUniq x)
    (base : NodeId) (lab : String) (hsf : slashFree lab = true) :
    ∃ l, walkNodeListE inspTrue () ls 0 (base ++ [lab]) = .ok l ∧
      SlotGood base lab (pathsOf l) := by
  obtain ⟨l, hw, hnd, hmem⟩ := walkNodeList_uniq h 0 (base ++ [lab])
  refine ⟨l, hw, hnd, hsf, ?_⟩
  intro p hp
  obtain ⟨j, _, ext, hext, hsfs⟩ := hmem p hp
  exact ⟨Nat.repr j :: ext, by rw [hext]; simp, hsfs⟩

/-- The identifier-list walk under distinct, slash-free names: paths are
distinct and each extends the slot path through an element's name. -/
theorem walkIdentList_uniq {ls : List Node} (h : ∀ x ∈ ls, WalkUniq x)
    (hnd : strNodupB (ls.map Node.identName) = true)
    (hsf : ∀ x ∈ ls, slashFree x.identName = true) :
    ∀ nid : NodeId,
      ∃ l, walkIdentListE inspTrue () ls nid = .ok l ∧
        (pathsOf l).Nodup ∧
        ∀ p ∈ pathsOf l, ∃ x ∈ ls, ∃ ext, p = nid ++ (x.identName :: ext) ∧
          ∀ l2 ∈ x.identName :: ext, slashFree l2 = true := by
  induction ls with
  | nil =>
      intro nid
      exact ⟨[], rfl, List.nodup_nil, by intro p hp; cases hp⟩
  | cons x xs ihx =>
      intro nid
      obtain ⟨hx0, hnd2⟩ := strNodupB_cons (by
        rw [List.map_cons] at hnd; exact hnd)
      obtain ⟨a, ha, hand, hsfa, hmema⟩ :=
        slot_of_walkUniq (h x (List.mem_cons_self x xs)) nid x.identName
          (hsf x (List.mem_cons_self x xs))
      obtain ⟨b, hb, hbnd, hmemb⟩ :=
        ihx (fun y hy => h y (List.mem_cons_of_mem x hy)) hnd2
          (fun y hy => hsf y (List.mem_cons_of_mem x hy)) nid
      refine ⟨a ++ b, ?_, ?_, ?_⟩
      · show (walkE inspTrue () x (nid ++ [x.identName]) >>= fun o1 =>
          walkIdentListE inspTrue () xs nid >>= fun o2 =>
            .ok (o1 ++ o2)) = _
        rw [ha, hb]
        rfl
      · rw [pathsOf_append, List.nodup_append]
        refine ⟨hand, hbnd, ?_⟩
        intro p hpa hpb
        obtain ⟨e1, he1, _⟩ := hmema p hpa
        obtain ⟨y, hy, e2, he2, _⟩ := hmemb p hpb
        rw [he1] at he2
        refine ne_of_label_ne ?_ he2
        intro hl
        rw [hl] at hx0
        exact hx0 (List.mem_map_of_mem Node.identName hy)
      · rw [pathsOf_append]
        intro p hp
        rcases List.mem_append.mp hp with hpa | hpb
        · obtain ⟨e1, he1, hsfs⟩ := hmema p hpa
          refine ⟨x, List.mem_cons_self x xs, e1, he1, ?_⟩
          intro l2 hl2
          rcases List.mem_cons.mp hl2 with rfl | h2
          · exact hsf x (List.mem_cons_self x xs)
          · exact hsfs l2 h2
        · obtain ⟨y, hy, e2, he2, hsfs⟩ := hmemb p hpb
          exact ⟨y, List.mem_cons_of_mem x hy, e2, he2, hsfs⟩

/-- An identifier-list slot: the element names are distinct and slash-free,
so the list walked at the base extended by the slot label fills that slot. -/
theorem slotIdents_of_walkUniq {ls : List Node} (h : ∀ x ∈ ls, WalkUniq x)
    (hok : namesOkB ls = true) (base : NodeId) (lab : String)
    (hsf : slashFree lab = true) :
    ∃ l, walkIdentListE inspTrue () ls (base ++ [lab]) = .ok l ∧
      SlotGood base lab (pathsOf l) := by
  obtain ⟨hnd, hnames⟩ := namesOkB_spec hok
  obtain ⟨l, hw, hlnd, hmem⟩ := walkIdentList_uniq h hnd hnames (base ++ [lab])
  refine ⟨l, hw, hlnd, hsf, ?_⟩
  intro p hp
  obtain ⟨x, _, ext, hext, hsfs⟩ := hmem p hp
  exact ⟨x.identName :: ext, by rw [hext]; simp, hsfs⟩

/-- The package-files walk under distinct file labels: paths are distinct
and each extends the path through a file's own label. -/
theorem walkFiles_uniq {ls : List Node} (h : ∀ x ∈ ls, WalkUniq x)
    (hnd : strNodupB (ls.map component) = true) :
    ∀ nid : NodeId,
      ∃ l, walkFilesE inspTrue () ls nid = .ok l ∧
        (pathsOf l).Nodup ∧
        ∀ p ∈ pathsOf l, ∃ x ∈ ls, ∃ ext, p = nid ++ (component x :: ext) ∧
          ∀ l2 ∈ component x :: ext, slashFree l2 = true := by
  induction ls with
  | nil =>
      intro nid
      exact ⟨[], rfl, List.nodup_nil, by intro p hp; cases hp⟩
  | cons x xs ihx =>
      intro nid
      obtain ⟨hx0, hnd2⟩ := strNodupB_cons (by
        rw [List.map_cons] at hnd; exact hnd)
      obtain ⟨a, ha, hand, hmema⟩ :=
        block_of_walkUniq (h x (List.mem_cons_self x xs)) nid
      obtain ⟨b, hb, hbnd, hmemb⟩ :=
        ihx (fun y hy => h y (List.mem_cons_of_mem x hy)) hnd2 nid
      refine ⟨a ++ b, ?_, ?_, ?_⟩
      · show (walkE inspTrue () x nid >>= fun o1 =>
          walkFilesE inspTrue () xs nid >>= fun o2 =>
            .ok (o1 ++ o2)) = _
        rw [ha, hb]
        rfl
      · rw [pathsOf_append, List.nodup_append]
        refine ⟨hand, hbnd, ?_⟩
        intro p hpa hpb
        obtain ⟨e1, he1, _⟩ := hmema p hpa
        obtain ⟨y, hy, e2, he2, _⟩ := hmemb p hpb
        rw [he1] at he2
        refine ne_of_label_ne ?_ he2
        intro hl
        rw [hl] at hx0
        exact hx0 (List.mem_map_of_mem component hy)
      · rw [pathsOf_append]
        intro p hp
        rcases List.mem_append.mp hp with hpa | hpb
        · obtain ⟨e1, he1, hsfs⟩ := hmema p hpa
          exact ⟨x, List.mem_cons_self x xs, e1, he1, hsfs⟩
        · obtain ⟨y, hy, e2, he2, hsfs⟩ := hmemb p hpb
          exact ⟨y, List.mem_cons_of_mem x hy, e2, he2, hsfs⟩

/-- The package-files slot: the files walked at the base extended by the
slot label fill that slot when their own labels are pairwise distinct. -/
theorem slotFiles_of_walkUniq {ls : List Node} (h : ∀ x ∈ ls, WalkUniq x)
    (hnd : strNodupB (ls.map component) = true) (base : NodeId) (lab : String)
    (hsf : slashFree lab = true) :
    ∃ l, walkFilesE inspTrue () ls (base ++ [lab]) = .ok l ∧
      SlotGood base lab (pathsOf l) := by
  obtain ⟨l, hw, hlnd, hmem⟩ := walkFiles_uniq h hnd (base ++ [lab])
  refine ⟨l, hw, hlnd, hsf, ?_⟩
  intro p hp
  obtain ⟨x, _, ext, hext, hsfs⟩ := hmem p hp
  exact ⟨component x :: ext, by rw [hext]; simp, hsfs⟩

set_option maxHeartbeats 4000000 in
/-- Every well-formed tree's walk under the always-true inspector succeeds,
observes the node's own path first, and observes pairwise distinct paths,
all of which extend the start path with slash-free labels. -/
theorem walk_uniq_of_wf : ∀ n : Node, n.wfB = true → WalkUniq n := by
  intro n0
  induction n0 using node_strong_ind with
  | ih n IH =>
    intro hk
    cases n with
    | comment text =>
        intro nid
        rw [walkE_step inspTrue () _ nid "Comment" (by rfl) (by decide)]
        rw [inspTrue_eq]
        simp only [visitStep]
        dsimp only [walkChildrenE]
        simp only [NodeId.push, NodeId.pushed, NodeId.dup]
        refine ⟨_, [], rfl, ?_, ?_, ?_, ?_⟩
        · simp only [pathsOf_cons_some, pathsOf_append, pathsOf_cons_none, pathsOf_nil,
            List.append_nil, List.nil_append, List.append_assoc]
          rfl
        · exact (by decide : slashFree "Comment" = true)
        · exact fun p hp => absurd hp (List.not_mem_nil p)
        · exact List.nodup_nil
    | commentGroup list =>
        intro nid
        rw [walkE_step inspTrue () _ nid "CommentGroup" (by rfl) (by decide)]
        rw [inspTrue_eq]
        simp only [visitStep]
        dsimp only [walkChildrenE]
        simp only [NodeId.push, NodeId.pushed, NodeId.dup]
        simp only [Node.wfB, Bool.and_eq_true] at hk
        obtain ⟨o1, h1, g1⟩ := slotList_of_walkUniq (fun m hm => IH m (by have h0 := List.sizeOf_lt_of_mem hm; simp <;> omega) (wfListB_mem hk hm)) (nid ++ ["CommentGroup"]) "List" (by decide)
        rw [h1]
        have hj := joinGood_single g1
        refine ⟨_, pathsOf o1, rfl, ?_, ?_, ?_, ?_⟩
        · simp only [pathsOf_cons_some, pathsOf_append, pathsOf_cons_none, pathsOf_nil,
            List.append_nil, List.nil_append, List.append_assoc]
          rfl
        · exact (by decide : slashFree "CommentGroup" = true)
        · exact joinGood_goodext hj
        · exact hj.1
    | field doc names ty tag comm =>
        intro nid
        rw [walkE_step inspTrue () _ nid "Field" (by rfl) (by decide)]
        rw [inspTrue_eq]
        simp only [visitStep]
        dsimp only [walkChildrenE]
        simp only [NodeId.push, NodeId.pushed, NodeId.dup]
        simp only [Node.wfB, Bool.and_eq_true] at hk
        obtain ⟨⟨⟨⟨⟨hkN, hk1⟩, hk2⟩, hk3⟩, hk4⟩, hk5⟩ := hk
        obtain ⟨o1, h1, g1⟩ := slotOpt_of_walkUniq (fun m hm => IH m (by have h0 := sizeOf_opt_lt hm; simp <;> omega) (wfOptB_some hk1 hm)) (nid ++ ["Field"]) "Doc" (by decide)
        obtain ⟨o2, h2, g2⟩ := slotIdents_of_walkUniq (fun m hm => IH m (by have h0 := List.sizeOf_lt_of_mem hm; simp <;> omega) (wfListB_mem hk2 hm)) hkN (nid ++ ["Field"]) "Names" (by decide)
        obtain ⟨o3, h3, g3⟩ := slot_of_walkUniq (IH ty (by simp <;> omega) hk3) (nid ++ ["Field"]) "Type" (by decide)
        obtain ⟨o4, h4, g4⟩ := slotOpt_of_walkUniq (fun m hm => IH m (by have h0 := sizeOf_opt_lt hm; simp <;> omega) (wfOptB_some hk4 hm)) (nid ++ ["Field"]) "Tag" (by decide)
        obtain ⟨o5, h5, g5⟩ := slotOpt_of_walkUniq (fun m hm => IH m (by have h0 := sizeOf_opt_lt hm; simp <;> omega) (wfOptB_some hk5 hm)) (nid ++ ["Field"]) "Comment" (by decide)
        rw [h1, h2, h3, h4, h5]
        have hj := joinGood_append g1 (joinGood_append g2 (joinGood_append g3 (joinGood_append g4 (joinGood_single g5) (by decide)) (by decide)) (by decide)) (by decide)
        refine ⟨_, pathsOf o1 ++ (pathsOf o2 ++ (pathsOf o3 ++ (pathsOf o4 ++ (pathsOf o5)))), rfl, ?_, ?_, ?_, ?_⟩
        · simp only [pathsOf_cons_some, pathsOf_append, pathsOf_cons_none, pathsOf_nil,
            List.append_nil, List.nil_append, List.append_assoc]
          rfl
        · exact (by decide : slashFree "Field" = true)
        · exact joinGood_goodext hj
        · exact hj.1
    | fieldList list =>
        intro nid
        rw [walkE_step inspTrue () _ nid "FieldList" (by rfl) (by decide)]
        rw [inspTrue_eq]
        simp only [visitStep]
        dsimp only [walkChildrenE]
        simp only [NodeId.push, NodeId.pushed, NodeId.dup]
        simp only [Node.wfB, Bool.and_eq_true] at hk
        obtain ⟨o1, h1, g1⟩ := slotList_of_walkUniq (fun m hm => IH m (by have h0 := List.sizeOf_lt_of_mem hm; simp <;> omega) (wfListB_mem hk hm)) (nid ++ ["FieldList"]) "List" (by decide)
        rw [h1]
        have hj := joinGood_single g1
        refine ⟨_, pathsOf o1, rfl, ?_, ?_, ?_, ?_⟩
        · simp only [pathsOf_cons_some, pathsOf_append, pathsOf_cons_none, pathsOf_nil,
            List.append_nil, List.nil_append, List.append_assoc]
          rfl
        · exact (by decide : slashFree "FieldList" = true)
        · exact joinGood_goodext hj
        · exact hj.1
    | badExpr =>
        intro nid
        rw [walkE_step inspTrue () _ nid "BadExpr" (by rfl) (by decide)]
        rw [inspTrue_eq]
        simp only [visitStep]
        dsimp only [walkChildrenE]
        simp only [NodeId.push, NodeId.pushed, NodeId.dup]
        refine ⟨_, [], rfl, ?_, ?_, ?_, ?_⟩
        · simp only [pathsOf_cons_some, pathsOf_append, pathsOf_cons_none, pathsOf_nil,
            List.append_nil, List.nil_append, List.append_assoc]
          rfl
        · exact (by decide : slashFree "BadExpr" = true)
        · exact fun p hp => absurd hp (List.not_mem_nil p)
        · exact List.nodup_nil
    | ident name =>
        intro nid
        rw [walkE_step inspTrue () _ nid "Ident" (by rfl) (by decide)]
        rw [inspTrue_eq]
        simp only [visitStep]
        dsimp only [walkChildrenE]
        simp only [NodeId.push, NodeId.pushed, NodeId.dup]
        refine ⟨_, [], rfl, ?_, ?_, ?_, ?_⟩
        · simp only [pathsOf_cons_some, pathsOf_append, pathsOf_cons_none, pathsOf_nil,
            List.append_nil, List.nil_append, List.append_assoc]
          rfl
        · exact (by decide : slashFree "Ident" = true)
        · exact fun p hp => absurd hp (List.not_mem_nil p)
        · exact List.nodup_nil
    | basicLit value =>
        intro nid
        rw [walkE_step inspTrue () _ nid "BasicLit" (by rfl) (by decide)]
        rw [inspTrue_eq]
        simp only [visitStep]
        dsimp only [walkChildrenE]
        simp only [NodeId.push, NodeId.pushed, NodeId.dup]
        refine ⟨_, [], rfl, ?_, ?_, ?_, ?_⟩
        · simp only [pathsOf_cons_some, pathsOf_append, pathsOf_cons_none, pathsOf_nil,
            List.append_nil, List.nil_append, List.append_assoc]
          rfl
        · exact (by decide : slashFree "BasicLit" = true)
        · exact fun p hp => absurd hp (List.not_mem_nil p)
        · exact List.nodup_nil
    | ellipsis elt =>
        intro nid
        rw [walkE_step inspTrue () _ nid "Ellipsis" (by rfl) (by decide)]
        rw [inspTrue_eq]
        simp only [visitStep]
        dsimp only [walkChildrenE]
        simp only [NodeId.push, NodeId.pushed, NodeId.dup]
        simp only [Node.wfB, Bool.and_eq_true] at hk
        obtain ⟨o1, h1, g1⟩ := slotOpt_of_walkUniq (fun m hm => IH m (by have h0 := sizeOf_opt_lt hm; simp <;> omega) (wfOptB_some hk hm)) (nid ++ ["Ellipsis"]) "Elt" (by decide)
        rw [h1]
        have hj := joinGood_single g1
        refine ⟨_, pathsOf o1, rfl, ?_, ?_, ?_, ?_⟩
        · simp only [pathsOf_cons_some, pathsOf_append, pathsOf_cons_none, pathsOf_nil,
            List.append_nil, List.nil_append, List.append_assoc]
          rfl
        · exact (by decide : slashFree "Ellipsis" = true)
        · exact joinGood_goodext hj
        · exact hj.1
    | funcLit ty body =>
        intro nid
        rw [walkE_step inspTrue () _ nid "FuncLit" (by rfl) (by decide)]
        rw [inspTrue_eq]
        simp only [visitStep]
        dsimp only [walkChildrenE]
        simp only [NodeId.push, NodeId.pushed, NodeId.dup]
        simp only [Node.wfB, Bool.and_eq_true] at hk
        obtain ⟨hk1, hk2⟩ := hk
        obtain ⟨o1, h1, g1⟩ := slot_of_walkUniq (IH ty (by simp <;> omega) hk1) (nid ++ ["FuncLit"]) "Type" (by decide)
        obtain ⟨o2, h2, g2⟩ := slot_of_walkUniq (IH body (by simp <;> omega) hk2) (nid ++ ["FuncLit"]) "Body" (by decide)
        rw [h1, h2]
        have hj := joinGood_append g1 (joinGood_single g2) (by decide)
        refine ⟨_, pathsOf o1 ++ (pathsOf o2), rfl, ?_, ?_, ?_, ?_⟩
        · simp only [pathsOf_cons_some, pathsOf_append, pathsOf_cons_none, pathsOf_nil,
            List.append_nil, List.nil_append, List.append_assoc]
          rfl
        · exact (by decide : slashFree "FuncLit" = true)
        · exact joinGood_goodext hj
        · exact hj.1
    | compositeLit ty elts =>
        intro nid
        rw [walkE_step inspTrue () _ nid "CompositeLit" (by rfl) (by decide)]
        rw [inspTrue_eq]
        simp only [visitStep]
        dsimp only [walkChildrenE]
        simp only [NodeId.push, NodeId.pushed, NodeId.dup]
        simp only [Node.wfB, Bool.and_eq_true] at hk
        obtain ⟨hk1, hk2⟩ := hk
        obtain ⟨o1, h1, g1⟩ := slotOpt_of_walkUniq (fun m hm => IH m (by have h0 := sizeOf_opt_lt hm; simp <;> omega) (wfOptB_some hk1 hm)) (nid ++ ["CompositeLit"]) "Type" (by decide)
        obtain ⟨o2, h2, g2⟩ := slotList_of_walkUniq (fun m hm => IH m (by have h0 := List.sizeOf_lt_of_mem hm; simp <;> omega) (wfListB_mem hk2 hm)) (nid ++ ["CompositeLit"]) "Elts" (by decide)
        rw [h1, h2]
        have hj := joinGood_append g1 (joinGood_single g2) (by decide)
        refine ⟨_, pathsOf o1 ++ (pathsOf o2), rfl, ?_, ?_, ?_, ?_⟩
        · simp only [pathsOf_cons_some, pathsOf_append, pathsOf_cons_none, pathsOf_nil,
            List.append_nil, List.nil_append, List.append_assoc]
          rfl
        · exact (by decide : slashFree "CompositeLit" = true)
        · exact joinGood_goodext hj
        · exact hj.1
    | parenExpr x =>
        intro nid
        rw [walkE_step inspTrue () _ nid "ParenExpr" (by rfl) (by decide)]
        rw [inspTrue_eq]
        simp only [visitStep]
        dsimp only [walkChildrenE]
        simp only [NodeId.push, NodeId.pushed, NodeId.dup]
        simp only [Node.wfB, Bool.and_eq_true] at hk
        obtain ⟨o1, h1, g1⟩ := slot_of_walkUniq (IH x (by simp <;> omega) hk) (nid ++ ["ParenExpr"]) "X" (by decide)
        rw [h1]
        have hj := joinGood_single g1
        refine ⟨_, pathsOf o1, rfl, ?_, ?_, ?_, ?_⟩
        · simp only [pathsOf_cons_some, pathsOf_append, pathsOf_cons_none, pathsOf_nil,
            List.append_nil, List.nil_append, List.append_assoc]
          rfl
        · exact (by decide : slashFree "ParenExpr" = true)
        · exact joinGood_goodext hj
        · exact hj.1
    | selectorExpr x sel =>
        intro nid
        rw [walkE_step inspTrue () _ nid "SelectorExpr" (by rfl) (by decide)]
        rw [inspTrue_eq]
        simp only [visitStep]
        dsimp only [walkChildrenE]
        simp only [NodeId.push, NodeId.pushed, NodeId.dup]
        simp only [Node.wfB, Bool.and_eq_true] at hk
        obtain ⟨hk1, hk2⟩ := hk
        obtain ⟨o1, h1, g1⟩ := slot_of_walkUniq (IH x (by simp <;> omega) hk1) (nid ++ ["SelectorExpr"]) "X" (by decide)
        obtain ⟨o2, h2, g2⟩ := slot_of_walkUniq (IH sel (by simp <;> omega) hk2) (nid ++ ["SelectorExpr"]) "Sel" (by decide)
        rw [h1, h2]
        have hj := joinGood_append g1 (joinGood_single g2) (by decide)
        refine ⟨_, pathsOf o1 ++ (pathsOf o2), rfl, ?_, ?_, ?_, ?_⟩
        · simp only [pathsOf_cons_some, pathsOf_append, pathsOf_cons_none, pathsOf_nil,
            List.append_nil, List.nil_append, List.append_assoc]
          rfl
        · exact (by decide : slashFree "SelectorExpr" = true)
        · exact joinGood_goodext hj
        · exact hj.1
    | indexExpr x index =>
        intro nid
        rw [walkE_step inspTrue () _ nid "IndexExpr" (by rfl) (by decide)]
        rw [inspTrue_eq]
        simp only [visitStep]
        dsimp only [walkChildrenE]
        simp only [NodeId.push, NodeId.pushed, NodeId.dup]
        simp only [Node.wfB, Bool.and_eq_true] at hk
        obtain ⟨hk1, hk2⟩ := hk
        obtain ⟨o1, h1, g1⟩ := slot_of_walkUniq (IH x (by simp <;> omega) hk1) (nid ++ ["IndexExpr"]) "X" (by decide)
        obtain ⟨o2, h2, g2⟩ := slot_of_walkUniq (IH index (by simp <;> omega) hk2) (nid ++ ["IndexExpr"]) "Index" (by decide)
        rw [h1, h2]
        have hj := joinGood_append g1 (joinGood_single g2) (by decide)
        refine ⟨_, pathsOf o1 ++ (pathsOf o2), rfl, ?_, ?_, ?_, ?_⟩
        · simp only [pathsOf_cons_some, pathsOf_append, pathsOf_cons_none, pathsOf_nil,
            List.append_nil, List.nil_append, List.append_assoc]
          rfl
        · exact (by decide : slashFree "IndexExpr" = true)
        · exact joinGood_goodext hj
        · exact hj.1
    | sliceExpr x low high =>
        intro nid
        rw [walkE_step inspTrue () _ nid "SliceExpr" (by rfl) (by decide)]
        rw [inspTrue_eq]
        simp only [visitStep]
        dsimp only [walkChildrenE]
        simp only [NodeId.push, NodeId.pushed, NodeId.dup]
        simp only [Node.wfB, Bool.and_eq_true] at hk
        obtain ⟨⟨hk1, hk2⟩, hk3⟩ := hk
        obtain ⟨o1, h1, g1⟩ := slot_of_walkUniq (IH x (by simp <;> omega) hk1) (nid ++ ["SliceExpr"]) "X" (by decide)
        obtain ⟨o2, h2, g2⟩ := slotOpt_of_walkUniq (fun m hm => IH m (by have h0 := sizeOf_opt_lt hm; simp <;> omega) (wfOptB_some hk2 hm)) (nid ++ ["SliceExpr"]) "Low" (by decide)
        obtain ⟨o3, h3, g3⟩ := slotOpt_of_walkUniq (fun m hm => IH m (by have h0 := sizeOf_opt_lt hm; simp <;> omega) (wfOptB_some hk3 hm)) (nid ++ ["SliceExpr"]) "High" (by decide)
        rw [h1, h2, h3]
        have hj := joinGood_append g1 (joinGood_append g2 (joinGood_single g3) (by decide)) (by decide)
        refine ⟨_, pathsOf o1 ++ (pathsOf o2 ++ (pathsOf o3)), rfl, ?_, ?_, ?_, ?_⟩
        · simp only [pathsOf_cons_some, pathsOf_append, pathsOf_cons_none, pathsOf_nil,
            List.append_nil, List.nil_append, List.append_assoc]
          rfl
        · exact (by decide : slashFree "SliceExpr" = true)
        · exact joinGood_goodext hj
        · exact hj.1
    | typeAssertExpr x ty =>
        intro nid
        rw [walkE_step inspTrue () _ nid "TypeAssertExpr" (by rfl) (by decide)]
        rw [inspTrue_eq]
        simp only [visitStep]
        dsimp only [walkChildrenE]
        simp only [NodeId.push, NodeId.pushed, NodeId.dup]
        simp only [Node.wfB, Bool.and_eq_true] at hk
        obtain ⟨hk1, hk2⟩ := hk
        obtain ⟨o1, h1, g1⟩ := slot_of_walkUniq (IH x (by simp <;> omega) hk1) (nid ++ ["TypeAssertExpr"]) "X" (by decide)
        obtain ⟨o2, h2, g2⟩ := slotOpt_of_walkUniq (fun m hm => IH m (by have h0 := sizeOf_opt_lt hm; simp <;> omega) (wfOptB_some hk2 hm)) (nid ++ ["TypeAssertExpr"]) "Type" (by decide)
        rw [h1, h2]
        have hj := joinGood_append g1 (joinGood_single g2) (by decide)
        refine ⟨_, pathsOf o1 ++ (pathsOf o2), rfl, ?_, ?_, ?_, ?_⟩
        · simp only [pathsOf_cons_some, pathsOf_append, pathsOf_cons_none, pathsOf_nil,
            List.append_nil, List.nil_append, List.append_assoc]
          rfl
        · exact (by decide : slashFree "TypeAssertExpr" = true)
        · exact joinGood_goodext hj
        · exact hj.1
    | callExpr fn args =>
        intro nid
        rw [walkE_step inspTrue () _ nid "CallExpr" (by rfl) (by decide)]
        rw [inspTrue_eq]
        simp only [visitStep]
        dsimp only [walkChildrenE]
        simp only [NodeId.push, NodeId.pushed, NodeId.dup]
        simp only [Node.wfB, Bool.and_eq_true] at hk
        obtain ⟨hk1, hk2⟩ := hk
        obtain ⟨o1, h1, g1⟩ := slot_of_walkUniq (IH fn (by simp <;> omega) hk1) (nid ++ ["CallExpr"]) "Fun" (by decide)
        obtain ⟨o2, h2, g2⟩ := slotList_of_walkUniq (fun m hm => IH m (by have h0 := List.sizeOf_lt_of_mem hm; simp <;> omega) (wfListB_mem hk2 hm)) (nid ++ ["CallExpr"]) "Args" (by decide)
        rw [h1, h2]
        have hj := joinGood_append g1 (joinGood_single g2) (by decide)
        refine ⟨_, pathsOf o1 ++ (pathsOf o2), rfl, ?_, ?_, ?_, ?_⟩
        · simp only [pathsOf_cons_some, pathsOf_append, pathsOf_cons_none, pathsOf_nil,
            List.append_nil, List.nil_append, List.append_assoc]
          rfl
        · exact (by decide : slashFree "CallExpr" = true)
        · exact joinGood_goodext hj
        · exact hj.1
    | starExpr x =>
        intro nid
        rw [walkE_step inspTrue () _ nid "StarExpr" (by rfl) (by decide)]
        rw [inspTrue_eq]
        simp only [visitStep]
        dsimp only [walkChildrenE]
        simp only [NodeId.push, NodeId.pushed, NodeId.dup]
        simp only [Node.wfB, Bool.and_eq_true] at hk
        obtain ⟨o1, h1, g1⟩ := slot_of_walkUniq (IH x (by simp <;> omega) hk) (nid ++ ["StarExpr"]) "X" (by decide)
        rw [h1]
        have hj := joinGood_single g1
        refine ⟨_, pathsOf o1, rfl, ?_, ?_, ?_, ?_⟩
        · simp only [pathsOf_cons_some, pathsOf_append, pathsOf_cons_none, pathsOf_nil,
            List.append_nil, List.nil_append, List.append_assoc]
          rfl
        · exact (by decide : slashFree "StarExpr" = true)
        · exact joinGood_goodext hj
        · exact hj.1
    | unaryExpr op x =>
        intro nid
        rw [walkE_step inspTrue () _ nid "UnaryExpr" (by rfl) (by decide)]
        rw [inspTrue_eq]
        simp only [visitStep]
        dsimp only [walkChildrenE]
        simp only [NodeId.push, NodeId.pushed, NodeId.dup]
        simp only [Node.wfB, Bool.and_eq_true] at hk
        obtain ⟨o1, h1, g1⟩ := slot_of_walkUniq (IH x (by simp <;> omega) hk) (nid ++ ["UnaryExpr"]) "X" (by decide)
        rw [h1]
        have hj := joinGood_single g1
        refine ⟨_, pathsOf o1, rfl, ?_, ?_, ?_, ?_⟩
        · simp only [pathsOf_cons_some, pathsOf_append, pathsOf_cons_none, pathsOf_nil,
            List.append_nil, List.nil_append, List.append_assoc]
          rfl
        · exact (by decide : slashFree "UnaryExpr" = true)
        · exact joinGood_goodext hj
        · exact hj.1
    | binaryExpr x op y =>
        intro nid
        rw [walkE_step inspTrue () _ nid "BinaryExpr" (by rfl) (by decide)]
        rw [inspTrue_eq]
        simp only [visitStep]
        dsimp only [walkChildrenE]
        simp only [NodeId.push, NodeId.pushed, NodeId.dup]
        simp only [Node.wfB, Bool.and_eq_true] at hk
        obtain ⟨hk1, hk2⟩ := hk
        obtain ⟨o1, h1, g1⟩ := slot_of_walkUniq (IH x (by simp <;> omega) hk1) (nid ++ ["BinaryExpr"]) "X" (by decide)
        obtain ⟨o2, h2, g2⟩ := slot_of_walkUniq (IH y (by simp <;> omega) hk2) (nid ++ ["BinaryExpr"]) "Y" (by decide)
        rw [h1, h2]
        have hj := joinGood_append g1 (joinGood_single g2) (by decide)
        refine ⟨_, pathsOf o1 ++ (pathsOf o2), rfl, ?_, ?_, ?_, ?_⟩
        · simp only [pathsOf_cons_some, pathsOf_append, pathsOf_cons_none, pathsOf_nil,
            List.append_nil, List.nil_append, List.append_assoc]
          rfl
        · exact (by decide : slashFree "BinaryExpr" = true)
        · exact joinGood_goodext hj
        · exact hj.1
    | keyValueExpr key value =>
        intro nid
        rw [walkE_step inspTrue () _ nid "KeyValueExpr" (by rfl) (by decide)]
        rw [inspTrue_eq]
        simp only [visitStep]
        dsimp only [walkChildrenE]
        simp only [NodeId.push, NodeId.pushed, NodeId.dup]
        simp only [Node.wfB, Bool.and_eq_true] at hk
        obtain ⟨hk1, hk2⟩ := hk
        obtain ⟨o1, h1, g1⟩ := slot_of_walkUniq (IH key (by simp <;> omega) hk1) (nid ++ ["KeyValueExpr"]) "Key" (by decide)
        obtain ⟨o2, h2, g2⟩ := slot_of_walkUniq (IH value (by simp <;> omega) hk2) (nid ++ ["KeyValueExpr"]) "Value" (by decide)
        rw [h1, h2]
        have hj := joinGood_append g1 (joinGood_single g2) (by decide)
        refine ⟨_, pathsOf o1 ++ (pathsOf o2), rfl, ?_, ?_, ?_, ?_⟩
        · simp only [pathsOf_cons_some, pathsOf_append, pathsOf_cons_none, pathsOf_nil,
            List.append_nil, List.nil_append, List.append_assoc]
          rfl
        · exact (by decide : slashFree "KeyValueExpr" = true)
        · exact joinGood_goodext hj
        · exact hj.1
    | arrayType len elt =>
        intro nid
        rw [walkE_step inspTrue () _ nid "ArrayType" (by rfl) (by decide)]
        rw [inspTrue_eq]
        simp only [visitStep]
        dsimp only [walkChildrenE]
        simp only [NodeId.push, NodeId.pushed, NodeId.dup]
        simp only [Node.wfB, Bool.and_eq_true] at hk
        obtain ⟨hk1, hk2⟩ := hk
        obtain ⟨o1, h1, g1⟩ := slotOpt_of_walkUniq (fun m hm => IH m (by have h0 := sizeOf_opt_lt hm; simp <;> omega) (wfOptB_some hk1 hm)) (nid ++ ["ArrayType"]) "Len" (by decide)
        obtain ⟨o2, h2, g2⟩ := slot_of_walkUniq (IH elt (by simp <;> omega) hk2) (nid ++ ["ArrayType"]) "Elt" (by decide)
        rw [h1, h2]
        have hj := joinGood_append g1 (joinGood_single g2) (by decide)
        refine ⟨_, pathsOf o1 ++ (pathsOf o2), rfl, ?_, ?_, ?_, ?_⟩
        · simp only [pathsOf_cons_some, pathsOf_append, pathsOf_cons_none, pathsOf_nil,
            List.append_nil, List.nil_append, List.append_assoc]
          rfl
        · exact (by decide : slashFree "ArrayType" = true)
        · exact joinGood_goodext hj
        · exact hj.1
    | structType fields =>
        intro nid
        rw [walkE_step inspTrue () _ nid "StructType" (by rfl) (by decide)]
        rw [inspTrue_eq]
        simp only [visitStep]
        dsimp only [walkChildrenE]
        simp only [NodeId.push, NodeId.pushed, NodeId.dup]
        simp only [Node.wfB, Bool.and_eq_true] at hk
        obtain ⟨o1, h1, g1⟩ := slot_of_walkUniq (IH fields (by simp <;> omega) hk) (nid ++ ["StructType"]) "Fields" (by decide)
        rw [h1]
        have hj := joinGood_single g1
        refine ⟨_, pathsOf o1, rfl, ?_, ?_, ?_, ?_⟩
        · simp only [pathsOf_cons_some, pathsOf_append, pathsOf_cons_none, pathsOf_nil,
            List.append_nil, List.nil_append, List.append_assoc]
          rfl
        · exact (by decide : slashFree "StructType" = true)
        · exact joinGood_goodext hj
        · exact hj.1
    | funcType params results =>
        intro nid
        rw [walkE_step inspTrue () _ nid "FuncType" (by rfl) (by decide)]
        rw [inspTrue_eq]
        simp only [visitStep]
        dsimp only [walkChildrenE]
        simp only [NodeId.push, NodeId.pushed, NodeId.dup]
        simp only [Node.wfB, Bool.and_eq_true] at hk
        obtain ⟨hk1, hk2⟩ := hk
        obtain ⟨o1, h1, g1⟩ := slotOpt_of_walkUniq (fun m hm => IH m (by have h0 := sizeOf_opt_lt hm; simp <;> omega) (wfOptB_some hk1 hm)) (nid ++ ["FuncType"]) "Params" (by decide)
        obtain ⟨o2, h2, g2⟩ := slotOpt_of_walkUniq (fun m hm => IH m (by have h0 := sizeOf_opt_lt hm; simp <;> omega) (wfOptB_some hk2 hm)) (nid ++ ["FuncType"]) "Results" (by decide)
        rw [h1, h2]
        have hj := joinGood_append g1 (joinGood_single g2) (by decide)
        refine ⟨_, pathsOf o1 ++ (pathsOf o2), rfl, ?_, ?_, ?_, ?_⟩
        · simp only [pathsOf_cons_some, pathsOf_append, pathsOf_cons_none, pathsOf_nil,
            List.append_nil, List.nil_append, List.append_assoc]
          rfl
        · exact (by decide : slashFree "FuncType" = true)
        · exact joinGood_goodext hj
        · exact hj.1
    | interfaceType methods =>
        intro nid
        rw [walkE_step inspTrue () _ nid "InterfaceType" (by rfl) (by decide)]
        rw [inspTrue_eq]
        simp only [visitStep]
        dsimp only [walkChildrenE]
        simp only [NodeId.push, NodeId.pushed, NodeId.dup]
        simp only [Node.wfB, Bool.and_eq_true] at hk
        obtain ⟨o1, h1, g1⟩ := slot_of_walkUniq (IH methods (by simp <;> omega) hk) (nid ++ ["InterfaceType"]) "Methods" (by decide)
        rw [h1]
        have hj := joinGood_single g1
        refine ⟨_, pathsOf o1, rfl, ?_, ?_, ?_, ?_⟩
        · simp only [pathsOf_cons_some, pathsOf_append, pathsOf_cons_none, pathsOf_nil,
            List.append_nil, List.nil_append, List.append_assoc]
          rfl
        · exact (by decide : slashFree "InterfaceType" = true)
        · exact joinGood_goodext hj
        · exact hj.1
    | mapType key value =>
        intro nid
        rw [walkE_step inspTrue () _ nid "MapType" (by rfl) (by decide)]
        rw [inspTrue_eq]
        simp only [visitStep]
        dsimp only [walkChildrenE]
        simp only [NodeId.push, NodeId.pushed, NodeId.dup]
        simp only [Node.wfB, Bool.and_eq_true] at hk
        obtain ⟨hk1, hk2⟩ := hk
        obtain ⟨o1, h1, g1⟩ := slot_of_walkUniq (IH key (by simp <;> omega) hk1) (nid ++ ["MapType"]) "Key" (by decide)
        obtain ⟨o2, h2, g2⟩ := slot_of_walkUniq (IH value (by simp <;> omega) hk2) (nid ++ ["MapType"]) "Value" (by decide)
        rw [h1, h2]
        have hj := joinGood_append g1 (joinGood_single g2) (by decide)
        refine ⟨_, pathsOf o1 ++ (pathsOf o2), rfl, ?_, ?_, ?_, ?_⟩
        · simp only [pathsOf_cons_some, pathsOf_append, pathsOf_cons_none, pathsOf_nil,
            List.append_nil, List.nil_append, List.append_assoc]
          rfl
        · exact (by decide : slashFree "MapType" = true)
        · exact joinGood_goodext hj
        · exact hj.1
    | chanType value =>
        intro nid
        rw [walkE_step inspTrue () _ nid "ChanType" (by rfl) (by decide)]
        rw [inspTrue_eq]
        simp only [visitStep]
        dsimp only [walkChildrenE]
        simp only [NodeId.push, NodeId.pushed, NodeId.dup]
        simp only [Node.wfB, Bool.and_eq_true] at hk
        obtain ⟨o1, h1, g1⟩ := slot_of_walkUniq (IH value (by simp <;> omega) hk) (nid ++ ["ChanType"]) "Value" (by decide)
        rw [h1]
        have hj := joinGood_single g1
        refine ⟨_, pathsOf o1, rfl, ?_, ?_, ?_, ?_⟩
        · simp only [pathsOf_cons_some, pathsOf_append, pathsOf_cons_none, pathsOf_nil,
            List.append_nil, List.nil_append, List.append_assoc]
          rfl
        · exact (by decide : slashFree "ChanType" = true)
        · exact joinGood_goodext hj
        · exact hj.1
    | badStmt =>
        intro nid
        rw [walkE_step inspTrue () _ nid "BadStmt" (by rfl) (by decide)]
        rw [inspTrue_eq]
        simp only [visitStep]
        dsimp only [walkChildrenE]
        simp only [NodeId.push, NodeId.pushed, NodeId.dup]
        refine ⟨_, [], rfl, ?_, ?_, ?_, ?_⟩
        · simp only [pathsOf_cons_some, pathsOf_append, pathsOf_cons_none, pathsOf_nil,
            List.append_nil, List.nil_append, List.append_assoc]
          rfl
        · exact (by decide : slashFree "BadStmt" = true)
        · exact fun p hp => absurd hp (List.not_mem_nil p)
        · exact List.nodup_nil
    | declStmt decl =>
        intro nid
        rw [walkE_step inspTrue () _ nid "DeclStmt" (by rfl) (by decide)]
        rw [inspTrue_eq]
        simp only [visitStep]
        dsimp only [walkChildrenE]
        simp only [NodeId.push, NodeId.pushed, NodeId.dup]
        simp only [Node.wfB, Bool.and_eq_true] at hk
        obtain ⟨o1, h1, g1⟩ := slot_of_walkUniq (IH decl (by simp <;> omega) hk) (nid ++ ["DeclStmt"]) "Decl" (by decide)
        rw [h1]
        have hj := joinGood_single g1
        refine ⟨_, pathsOf o1, rfl, ?_, ?_, ?_, ?_⟩
        · simp only [pathsOf_cons_some, pathsOf_append, pathsOf_cons_none, pathsOf_nil,
            List.append_nil, List.nil_append, List.append_assoc]
          rfl
        · exact (by decide : slashFree "DeclStmt" = true)
        · exact joinGood_goodext hj
        · exact hj.1
    | emptyStmt =>
        intro nid
        rw [walkE_step inspTrue () _ nid "EmptyStmt" (by rfl) (by decide)]
        rw [inspTrue_eq]
        simp only [visitStep]
        dsimp only [walkChildrenE]
        simp only [NodeId.push, NodeId.pushed, NodeId.dup]
        refine ⟨_, [], rfl, ?_, ?_, ?_, ?_⟩
        · simp only [pathsOf_cons_some, pathsOf_append, pathsOf_cons_none, pathsOf_nil,
            List.append_nil, List.nil_append, List.append_assoc]
          rfl
        · exact (by decide : slashFree "EmptyStmt" = true)
        · exact fun p hp => absurd hp (List.not_mem_nil p)
        · exact List.nodup_nil
    | labeledStmt label stmt =>
        intro nid
        rw [walkE_step inspTrue () _ nid "LabeledStmt" (by rfl) (by decide)]
        rw [inspTrue_eq]
        simp only [visitStep]
        dsimp only [walkChildrenE]
        simp only [NodeId.push, NodeId.pushed, NodeId.dup]
        simp only [Node.wfB, Bool.and_eq_true] at hk
        obtain ⟨hk1, hk2⟩ := hk
        obtain ⟨o1, h1, g1⟩ := slot_of_walkUniq (IH label (by simp <;> omega) hk1) (nid ++ ["LabeledStmt"]) "Label" (by decide)
        obtain ⟨o2, h2, g2⟩ := slot_of_walkUniq (IH stmt (by simp <;> omega) hk2) (nid ++ ["LabeledStmt"]) "Stmt" (by decide)
        rw [h1, h2]
        have hj := joinGood_append g1 (joinGood_single g2) (by decide)
        refine ⟨_, pathsOf o1 ++ (pathsOf o2), rfl, ?_, ?_, ?_, ?_⟩
        · simp only [pathsOf_cons_some, pathsOf_append, pathsOf_cons_none, pathsOf_nil,
            List.append_nil, List.nil_append, List.append_assoc]
          rfl
        · exact (by decide : slashFree "LabeledStmt" = true)
        · exact joinGood_goodext hj
        · exact hj.1
    | exprStmt x =>
        intro nid
        rw [walkE_step inspTrue () _ nid "ExprStmt" (by rfl) (by decide)]
        rw [inspTrue_eq]
        simp only [visitStep]
        dsimp only [walkChildrenE]
        simp only [NodeId.push, NodeId.pushed, NodeId.dup]
        simp only [Node.wfB, Bool.and_eq_true] at hk
        obtain ⟨o1, h1, g1⟩ := slot_of_walkUniq (IH x (by simp <;> omega) hk) (nid ++ ["ExprStmt"]) "X" (by decide)
        rw [h1]
        have hj := joinGood_single g1
        refine ⟨_, pathsOf o1, rfl, ?_, ?_, ?_, ?_⟩
        · simp only [pathsOf_cons_some, pathsOf_append, pathsOf_cons_none, pathsOf_nil,
            List.append_nil, List.nil_append, List.append_assoc]
          rfl
        · exact (by decide : slashFree "ExprStmt" = true)
        · exact joinGood_goodext hj
        · exact hj.1
    | sendStmt ch value =>
        intro nid
        rw [walkE_step inspTrue () _ nid "SendStmt" (by rfl) (by decide)]
        rw [inspTrue_eq]
        simp only [visitStep]
        dsimp only [walkChildrenE]
        simp only [NodeId.push, NodeId.pushed, NodeId.dup]
        simp only [Node.wfB, Bool.and_eq_true] at hk
        obtain ⟨hk1, hk2⟩ := hk
        obtain ⟨o1, h1, g1⟩ := slot_of_walkUniq (IH ch (by simp <;> omega) hk1) (nid ++ ["SendStmt"]) "Chan" (by decide)
        obtain ⟨o2, h2, g2⟩ := slot_of_walkUniq (IH value (by simp <;> omega) hk2) (nid ++ ["SendStmt"]) "Value" (by decide)
        rw [h1, h2]
        have hj := joinGood_append g1 (joinGood_single g2) (by decide)
        refine ⟨_, pathsOf o1 ++ (pathsOf o2), rfl, ?_, ?_, ?_, ?_⟩
        · simp only [pathsOf_cons_some, pathsOf_append, pathsOf_cons_none, pathsOf_nil,
            List.append_nil, List.nil_append, List.append_assoc]
          rfl
        · exact (by decide : slashFree "SendStmt" = true)
        · exact joinGood_goodext hj
        · exact hj.1
    | incDecStmt x =>
        intro nid
        rw [walkE_step inspTrue () _ nid "IncDecStmt" (by rfl) (by decide)]
        rw [inspTrue_eq]
        simp only [visitStep]
        dsimp only [walkChildrenE]
        simp only [NodeId.push, NodeId.pushed, NodeId.dup]
        simp only [Node.wfB, Bool.and_eq_true] at hk
        obtain ⟨o1, h1, g1⟩ := slot_of_walkUniq (IH x (by simp <;> omega) hk) (nid ++ ["IncDecStmt"]) "X" (by decide)
        rw [h1]
        have hj := joinGood_single g1
        refine ⟨_, pathsOf o1, rfl, ?_, ?_, ?_, ?_⟩
        · simp only [pathsOf_cons_some, pathsOf_append, pathsOf_cons_none, pathsOf_nil,
            List.append_nil, List.nil_append, List.append_assoc]
          rfl
        · exact (by decide : slashFree "IncDecStmt" = true)
        · exact joinGood_goodext hj
        · exact hj.1
    | assignStmt lhs rhs =>
        intro nid
        rw [walkE_step inspTrue () _ nid "AssignStmt" (by rfl) (by decide)]
        rw [inspTrue_eq]
        simp only [visitStep]
        dsimp only [walkChildrenE]
        simp only [NodeId.push, NodeId.pushed, NodeId.dup]
        simp only [Node.wfB, Bool.and_eq_true] at hk
        obtain ⟨hk1, hk2⟩ := hk
        obtain ⟨o1, h1, g1⟩ := slotList_of_walkUniq (fun m hm => IH m (by have h0 := List.sizeOf_lt_of_mem hm; simp <;> omega) (wfListB_mem hk1 hm)) (nid ++ ["AssignStmt"]) "Lhs" (by decide)
        obtain ⟨o2, h2, g2⟩ := slotList_of_walkUniq (fun m hm => IH m (by have h0 := List.sizeOf_lt_of_mem hm; simp <;> omega) (wfListB_mem hk2 hm)) (nid ++ ["AssignStmt"]) "Rhs" (by decide)
        rw [h1, h2]
        have hj := joinGood_append g1 (joinGood_single g2) (by decide)
        refine ⟨_, pathsOf o1 ++ (pathsOf o2), rfl, ?_, ?_, ?_, ?_⟩
        · simp only [pathsOf_cons_some, pathsOf_append, pathsOf_cons_none, pathsOf_nil,
            List.append_nil, List.nil_append, List.append_assoc]
          rfl
        · exact (by decide : slashFree "AssignStmt" = true)
        · exact joinGood_goodext hj
        · exact hj.1
    | goStmt call =>
        intro nid
        rw [walkE_step inspTrue () _ nid "GoStmt" (by rfl) (by decide)]
        rw [inspTrue_eq]
        simp only [visitStep]
        dsimp only [walkChildrenE]
        simp only [NodeId.push, NodeId.pushed, NodeId.dup]
        simp only [Node.wfB, Bool.and_eq_true] at hk
        obtain ⟨o1, h1, g1⟩ := slot_of_walkUniq (IH call (by simp <;> omega) hk) (nid ++ ["GoStmt"]) "Call" (by decide)
        rw [h1]
        have hj := joinGood_single g1
        refine ⟨_, pathsOf o1, rfl, ?_, ?_, ?_, ?_⟩
        · simp only [pathsOf_cons_some, pathsOf_append, pathsOf_cons_none, pathsOf_nil,
            List.append_nil, List.nil_append, List.append_assoc]
          rfl
        · exact (by decide : slashFree "GoStmt" = true)
        · exact joinGood_goodext hj
        · exact hj.1
    | deferStmt call =>
        intro nid
        rw [walkE_step inspTrue () _ nid "DeferStmt" (by rfl) (by decide)]
        rw [inspTrue_eq]
        simp only [visitStep]
        dsimp only [walkChildrenE]
        simp only [NodeId.push, NodeId.pushed, NodeId.dup]
        simp only [Node.wfB, Bool.and_eq_true] at hk
        obtain ⟨o1, h1, g1⟩ := slot_of_walkUniq (IH call (by simp <;> omega) hk) (nid ++ ["DeferStmt"]) "Call" (by decide)
        rw [h1]
        have hj := joinGood_single g1
        refine ⟨_, pathsOf o1, rfl, ?_, ?_, ?_, ?_⟩
        · simp only [pathsOf_cons_some, pathsOf_append, pathsOf_cons_none, pathsOf_nil,
            List.append_nil, List.nil_append, List.append_assoc]
          rfl
        · exact (by decide : slashFree "DeferStmt" = true)
        · exact joinGood_goodext hj
        · exact hj.1
    | returnStmt results =>
        intro nid
        rw [walkE_step inspTrue () _ nid "ReturnStmt" (by rfl) (by decide)]
        rw [inspTrue_eq]
        simp only [visitStep]
        dsimp only [walkChildrenE]
        simp only [NodeId.push, NodeId.pushed, NodeId.dup]
        simp only [Node.wfB, Bool.and_eq_true] at hk
        obtain ⟨o1, h1, g1⟩ := slotList_of_walkUniq (fun m hm => IH m (by have h0 := List.sizeOf_lt_of_mem hm; simp <;> omega) (wfListB_mem hk hm)) (nid ++ ["ReturnStmt"]) "Results" (by decide)
        rw [h1]
        have hj := joinGood_single g1
        refine ⟨_, pathsOf o1, rfl, ?_, ?_, ?_, ?_⟩
        · simp only [pathsOf_cons_some, pathsOf_append, pathsOf_cons_none, pathsOf_nil,
            List.append_nil, List.nil_append, List.append_assoc]
          rfl
        · exact (by decide : slashFree "ReturnStmt" = true)
        · exact joinGood_goodext hj
        · exact hj.1
    | branchStmt label =>
        intro nid
        rw [walkE_step inspTrue () _ nid "BranchStmt" (by rfl) (by decide)]
        rw [inspTrue_eq]
        simp only [visitStep]
        dsimp only [walkChildrenE]
        simp only [NodeId.push, NodeId.pushed, NodeId.dup]
        simp only [Node.wfB, Bool.and_eq_true] at hk
        obtain ⟨o1, h1, g1⟩ := slotOpt_of_walkUniq (fun m hm => IH m (by have h0 := sizeOf_opt_lt hm; simp <;> omega) (wfOptB_some hk hm)) (nid ++ ["BranchStmt"]) "Label" (by decide)
        rw [h1]
        have hj := joinGood_single g1
        refine ⟨_, pathsOf o1, rfl, ?_, ?_, ?_, ?_⟩
        · simp only [pathsOf_cons_some, pathsOf_append, pathsOf_cons_none, pathsOf_nil,
            List.append_nil, List.nil_append, List.append_assoc]
          rfl
        · exact (by decide : slashFree "BranchStmt" = true)
        · exact joinGood_goodext hj
        · exact hj.1
    | blockStmt list =>
        intro nid
        rw [walkE_step inspTrue () _ nid "BlockStmt" (by rfl) (by decide)]
        rw [inspTrue_eq]
        simp only [visitStep]
        dsimp only [walkChildrenE]
        simp only [NodeId.push, NodeId.pushed, NodeId.dup]
        simp only [Node.wfB, Bool.and_eq_true] at hk
        obtain ⟨o1, h1, g1⟩ := slotList_of_walkUniq (fun m hm => IH m (by have h0 := List.sizeOf_lt_of_mem hm; simp <;> omega) (wfListB_mem hk hm)) (nid ++ ["BlockStmt"]) "List" (by decide)
        rw [h1]
        have hj := joinGood_single g1
        refine ⟨_, pathsOf o1, rfl, ?_, ?_, ?_, ?_⟩
        · simp only [pathsOf_cons_some, pathsOf_append, pathsOf_cons_none, pathsOf_nil,
            List.append_nil, List.nil_append, List.append_assoc]
          rfl
        · exact (by decide : slashFree "BlockStmt" = true)
        · exact joinGood_goodext hj
        · exact hj.1
    | ifStmt ini cond body els =>
        intro nid
        rw [walkE_step inspTrue () _ nid "IfStmt" (by rfl) (by decide)]
        rw [inspTrue_eq]
        simp only [visitStep]
        dsimp only [walkChildrenE]
        simp only [NodeId.push, NodeId.pushed, NodeId.dup]
        simp only [Node.wfB, Bool.and_eq_true] at hk
        obtain ⟨⟨⟨hk1, hk2⟩, hk3⟩, hk4⟩ := hk
        obtain ⟨o1, h1, g1⟩ := slotOpt_of_walkUniq (fun m hm => IH m (by have h0 := sizeOf_opt_lt hm; simp <;> omega) (wfOptB_some hk1 hm)) (nid ++ ["IfStmt"]) "Init" (by decide)
        obtain ⟨o2, h2, g2⟩ := slot_of_walkUniq (IH cond (by simp <;> omega) hk2) (nid ++ ["IfStmt"]) "Cond" (by decide)
        obtain ⟨o3, h3, g3⟩ := slot_of_walkUniq (IH body (by simp <;> omega) hk3) (nid ++ ["IfStmt"]) "Body" (by decide)
        obtain ⟨o4, h4, g4⟩ := slotOpt_of_walkUniq (fun m hm => IH m (by have h0 := sizeOf_opt_lt hm; simp <;> omega) (wfOptB_some hk4 hm)) (nid ++ ["IfStmt"]) "Else" (by decide)
        rw [h1, h2, h3, h4]
        have hj := joinGood_append g1 (joinGood_append g2 (joinGood_append g3 (joinGood_single g4) (by decide)) (by decide)) (by decide)
        refine ⟨_, pathsOf o1 ++ (pathsOf o2 ++ (pathsOf o3 ++ (pathsOf o4))), rfl, ?_, ?_, ?_, ?_⟩
        · simp only [pathsOf_cons_some, pathsOf_append, pathsOf_cons_none, pathsOf_nil,
            List.append_nil, List.nil_append, List.append_assoc]
          rfl
        · exact (by decide : slashFree "IfStmt" = true)
        · exact joinGood_goodext hj
        · exact hj.1
    | caseClause list body =>
        intro nid
        rw [walkE_step inspTrue () _ nid "CaseClause" (by rfl) (by decide)]
        rw [inspTrue_eq]
        simp only [visitStep]
        dsimp only [walkChildrenE]
        simp only [NodeId.push, NodeId.pushed, NodeId.dup]
        simp only [Node.wfB, Bool.and_eq_true] at hk
        obtain ⟨hk1, hk2⟩ := hk
        obtain ⟨o1, h1, g1⟩ := slotList_of_walkUniq (fun m hm => IH m (by have h0 := List.sizeOf_lt_of_mem hm; simp <;> omega) (wfListB_mem hk1 hm)) (nid ++ ["CaseClause"]) "List" (by decide)
        obtain ⟨o2, h2, g2⟩ := slotList_of_walkUniq (fun m hm => IH m (by have h0 := List.sizeOf_lt_of_mem hm; simp <;> omega) (wfListB_mem hk2 hm)) (nid ++ ["CaseClause"]) "Body" (by decide)
        rw [h1, h2]
        have hj := joinGood_append g1 (joinGood_single g2) (by decide)
        refine ⟨_, pathsOf o1 ++ (pathsOf o2), rfl, ?_, ?_, ?_, ?_⟩
        · simp only [pathsOf_cons_some, pathsOf_append, pathsOf_cons_none, pathsOf_nil,
            List.append_nil, List.nil_append, List.append_assoc]
          rfl
        · exact (by decide : slashFree "CaseClause" = true)
        · exact joinGood_goodext hj
        · exact hj.1
    | switchStmt ini tag body =>
        intro nid
        rw [walkE_step inspTrue () _ nid "SwitchStmt" (by rfl) (by decide)]
        rw [inspTrue_eq]
        simp only [visitStep]
        dsimp only [walkChildrenE]
        simp only [NodeId.push, NodeId.pushed, NodeId.dup]
        simp only [Node.wfB, Bool.and_eq_true] at hk
        obtain ⟨⟨hk1, hk2⟩, hk3⟩ := hk
        obtain ⟨o1, h1, g1⟩ := slotOpt_of_walkUniq (fun m hm => IH m (by have h0 := sizeOf_opt_lt hm; simp <;> omega) (wfOptB_some hk1 hm)) (nid ++ ["SwitchStmt"]) "Init" (by decide)
        obtain ⟨o2, h2, g2⟩ := slotOpt_of_walkUniq (fun m hm => IH m (by have h0 := sizeOf_opt_lt hm; simp <;> omega) (wfOptB_some hk2 hm)) (nid ++ ["SwitchStmt"]) "Tag" (by decide)
        obtain ⟨o3, h3, g3⟩ := slot_of_walkUniq (IH body (by simp <;> omega) hk3) (nid ++ ["SwitchStmt"]) "Body" (by decide)
        rw [h1, h2, h3]
        have hj := joinGood_append g1 (joinGood_append g2 (joinGood_single g3) (by decide)) (by decide)
        refine ⟨_, pathsOf o1 ++ (pathsOf o2 ++ (pathsOf o3)), rfl, ?_, ?_, ?_, ?_⟩
        · simp only [pathsOf_cons_some, pathsOf_append, pathsOf_cons_none, pathsOf_nil,
            List.append_nil, List.nil_append, List.append_assoc]
          rfl
        · exact (by decide : slashFree "SwitchStmt" = true)
        · exact joinGood_goodext hj
        · exact hj.1
    | typeSwitchStmt ini assign body =>
        intro nid
        rw [walkE_step inspTrue () _ nid "TypeSwitchStmt" (by rfl) (by decide)]
        rw [inspTrue_eq]
        simp only [visitStep]
        dsimp only [walkChildrenE]
        simp only [NodeId.push, NodeId.pushed, NodeId.dup]
        simp only [Node.wfB, Bool.and_eq_true] at hk
        obtain ⟨⟨hk1, hk2⟩, hk3⟩ := hk
        obtain ⟨o1, h1, g1⟩ := slotOpt_of_walkUniq (fun m hm => IH m (by have h0 := sizeOf_opt_lt hm; simp <;> omega) (wfOptB_some hk1 hm)) (nid ++ ["TypeSwitchStmt"]) "Init" (by decide)
        obtain ⟨o2, h2, g2⟩ := slot_of_walkUniq (IH assign (by simp <;> omega) hk2) (nid ++ ["TypeSwitchStmt"]) "Assign" (by decide)
        obtain ⟨o3, h3, g3⟩ := slot_of_walkUniq (IH body (by simp <;> omega) hk3) (nid ++ ["TypeSwitchStmt"]) "Body" (by decide)
        rw [h1, h2, h3]
        have hj := joinGood_append g1 (joinGood_append g2 (joinGood_single g3) (by decide)) (by decide)
        refine ⟨_, pathsOf o1 ++ (pathsOf o2 ++ (pathsOf o3)), rfl, ?_, ?_, ?_, ?_⟩
        · simp only [pathsOf_cons_some, pathsOf_append, pathsOf_cons_none, pathsOf_nil,
            List.append_nil, List.nil_append, List.append_assoc]
          rfl
        · exact (by decide : slashFree "TypeSwitchStmt" = true)
        · exact joinGood_goodext hj
        · exact hj.1
    | commClause comm body =>
        intro nid
        rw [walkE_step inspTrue () _ nid "CommClause" (by rfl) (by decide)]
        rw [inspTrue_eq]
        simp only [visitStep]
        dsimp only [walkChildrenE]
        simp only [NodeId.push, NodeId.pushed, NodeId.dup]
        simp only [Node.wfB, Bool.and_eq_true] at hk
        obtain ⟨hk1, hk2⟩ := hk
        obtain ⟨o1, h1, g1⟩ := slotOpt_of_walkUniq (fun m hm => IH m (by have h0 := sizeOf_opt_lt hm; simp <;> omega) (wfOptB_some hk1 hm)) (nid ++ ["CommClause"]) "Comm" (by decide)
        obtain ⟨o2, h2, g2⟩ := slotList_of_walkUniq (fun m hm => IH m (by have h0 := List.sizeOf_lt_of_mem hm; simp <;> omega) (wfListB_mem hk2 hm)) (nid ++ ["CommClause"]) "Body" (by decide)
        rw [h1, h2]
        have hj := joinGood_append g1 (joinGood_single g2) (by decide)
        refine ⟨_, pathsOf o1 ++ (pathsOf o2), rfl, ?_, ?_, ?_, ?_⟩
        · simp only [pathsOf_cons_some, pathsOf_append, pathsOf_cons_none, pathsOf_nil,
            List.append_nil, List.nil_append, List.append_assoc]
          rfl
        · exact (by decide : slashFree "CommClause" = true)
        · exact joinGood_goodext hj
        · exact hj.1
    | selectStmt body =>
        intro nid
        rw [walkE_step inspTrue () _ nid "SelectStmt" (by rfl) (by decide)]
        rw [inspTrue_eq]
        simp only [visitStep]
        dsimp only [walkChildrenE]
        simp only [NodeId.push, NodeId.pushed, NodeId.dup]
        simp only [Node.wfB, Bool.and_eq_true] at hk
        obtain ⟨o1, h1, g1⟩ := slot_of_walkUniq (IH body (by simp <;> omega) hk) (nid ++ ["SelectStmt"]) "Body" (by decide)
        rw [h1]
        have hj := joinGood_single g1
        refine ⟨_, pathsOf o1, rfl, ?_, ?_, ?_, ?_⟩
        · simp only [pathsOf_cons_some, pathsOf_append, pathsOf_cons_none, pathsOf_nil,
            List.append_nil, List.nil_append, List.append_assoc]
          rfl
        · exact (by decide : slashFree "SelectStmt" = true)
        · exact joinGood_goodext hj
        · exact hj.1
    | forStmt ini cond post body =>
        intro nid
        rw [walkE_step inspTrue () _ nid "ForStmt" (by rfl) (by decide)]
        rw [inspTrue_eq]
        simp only [visitStep]
        dsimp only [walkChildrenE]
        simp only [NodeId.push, NodeId.pushed, NodeId.dup]
        simp only [Node.wfB, Bool.and_eq_true] at hk
        obtain ⟨⟨⟨hk1, hk2⟩, hk3⟩, hk4⟩ := hk
        obtain ⟨o1, h1, g1⟩ := slotOpt_of_walkUniq (fun m hm => IH m (by have h0 := sizeOf_opt_lt hm; simp <;> omega) (wfOptB_some hk1 hm)) (nid ++ ["ForStmt"]) "Init" (by decide)
        obtain ⟨o2, h2, g2⟩ := slotOpt_of_walkUniq (fun m hm => IH m (by have h0 := sizeOf_opt_lt hm; simp <;> omega) (wfOptB_some hk2 hm)) (nid ++ ["ForStmt"]) "Cond" (by decide)
        obtain ⟨o3, h3, g3⟩ := slotOpt_of_walkUniq (fun m hm => IH m (by have h0 := sizeOf_opt_lt hm; simp <;> omega) (wfOptB_some hk3 hm)) (nid ++ ["ForStmt"]) "Post" (by decide)
        obtain ⟨o4, h4, g4⟩ := slot_of_walkUniq (IH body (by simp <;> omega) hk4) (nid ++ ["ForStmt"]) "Body" (by decide)
        rw [h1, h2, h3, h4]
        have hj := joinGood_append g1 (joinGood_append g2 (joinGood_append g3 (joinGood_single g4) (by decide)) (by decide)) (by decide)
        refine ⟨_, pathsOf o1 ++ (pathsOf o2 ++ (pathsOf o3 ++ (pathsOf o4))), rfl, ?_, ?_, ?_, ?_⟩
        · simp only [pathsOf_cons_some, pathsOf_append, pathsOf_cons_none, pathsOf_nil,
            List.append_nil, List.nil_append, List.append_assoc]
          rfl
        · exact (by decide : slashFree "ForStmt" = true)
        · exact joinGood_goodext hj
        · exact hj.1
    | rangeStmt key value x body =>
        intro nid
        rw [walkE_step inspTrue () _ nid "RangeStmt" (by rfl) (by decide)]
        rw [inspTrue_eq]
        simp only [visitStep]
        dsimp only [walkChildrenE]
        simp only [NodeId.push, NodeId.pushed, NodeId.dup]
        simp only [Node.wfB, Bool.and_eq_true] at hk
        obtain ⟨⟨⟨hk1, hk2⟩, hk3⟩, hk4⟩ := hk
        obtain ⟨o1, h1, g1⟩ := slot_of_walkUniq (IH key (by simp <;> omega) hk1) (nid ++ ["RangeStmt"]) "Key" (by decide)
        obtain ⟨o2, h2, g2⟩ := slotOpt_of_walkUniq (fun m hm => IH m (by have h0 := sizeOf_opt_lt hm; simp <;> omega) (wfOptB_some hk2 hm)) (nid ++ ["RangeStmt"]) "Value" (by decide)
        obtain ⟨o3, h3, g3⟩ := slot_of_walkUniq (IH x (by simp <;> omega) hk3) (nid ++ ["RangeStmt"]) "X" (by decide)
        obtain ⟨o4, h4, g4⟩ := slot_of_walkUniq (IH body (by simp <;> omega) hk4) (nid ++ ["RangeStmt"]) "Body" (by decide)
        rw [h1, h2, h3, h4]
        have hj := joinGood_append g1 (joinGood_append g2 (joinGood_append g3 (joinGood_single g4) (by decide)) (by decide)) (by decide)
        refine ⟨_, pathsOf o1 ++ (pathsOf o2 ++ (pathsOf o3 ++ (pathsOf o4))), rfl, ?_, ?_, ?_, ?_⟩
        · simp only [pathsOf_cons_some, pathsOf_append, pathsOf_cons_none, pathsOf_nil,
            List.append_nil, List.nil_append, List.append_assoc]
          rfl
        · exact (by decide : slashFree "RangeStmt" = true)
        · exact joinGood_goodext hj
        · exact hj.1
    | importSpec doc name path comm =>
        intro nid
        rw [walkE_step inspTrue () _ nid "ImportSpec" (by rfl) (by decide)]
        rw [inspTrue_eq]
        simp only [visitStep]
        dsimp only [walkChildrenE]
        simp only [NodeId.push, NodeId.pushed, NodeId.dup]
        simp only [Node.wfB, Bool.and_eq_true] at hk
        obtain ⟨⟨⟨hk1, hk2⟩, hk3⟩, hk4⟩ := hk
        obtain ⟨o1, h1, g1⟩ := slotOpt_of_walkUniq (fun m hm => IH m (by have h0 := sizeOf_opt_lt hm; simp <;> omega) (wfOptB_some hk1 hm)) (nid ++ ["ImportSpec"]) "Doc" (by decide)
        obtain ⟨o2, h2, g2⟩ := slotOpt_of_walkUniq (fun m hm => IH m (by have h0 := sizeOf_opt_lt hm; simp <;> omega) (wfOptB_some hk2 hm)) (nid ++ ["ImportSpec"]) "Name" (by decide)
        obtain ⟨o3, h3, g3⟩ := slot_of_walkUniq (IH path (by simp <;> omega) hk3) (nid ++ ["ImportSpec"]) "Path" (by decide)
        obtain ⟨o4, h4, g4⟩ := slotOpt_of_walkUniq (fun m hm => IH m (by have h0 := sizeOf_opt_lt hm; simp <;> omega) (wfOptB_some hk4 hm)) (nid ++ ["ImportSpec"]) "Comment" (by decide)
        rw [h1, h2, h3, h4]
        have hj := joinGood_append g1 (joinGood_append g2 (joinGood_append g3 (joinGood_single g4) (by decide)) (by decide)) (by decide)
        refine ⟨_, pathsOf o1 ++ (pathsOf o2 ++ (pathsOf o3 ++ (pathsOf o4))), rfl, ?_, ?_, ?_, ?_⟩
        · simp only [pathsOf_cons_some, pathsOf_append, pathsOf_cons_none, pathsOf_nil,
            List.append_nil, List.nil_append, List.append_assoc]
          rfl
        · exact (by decide : slashFree "ImportSpec" = true)
        · exact joinGood_goodext hj
        · exact hj.1
    | valueSpec doc names ty values comm =>
        intro nid
        rw [walkE_step inspTrue () _ nid "ValueSpec" (by rfl) (by decide)]
        rw [inspTrue_eq]
        simp only [visitStep]
        dsimp only [walkChildrenE]
        simp only [NodeId.push, NodeId.pushed, NodeId.dup]
        simp only [Node.wfB, Bool.and_eq_true] at hk
        obtain ⟨⟨⟨⟨⟨hkN, hk1⟩, hk2⟩, hk3⟩, hk4⟩, hk5⟩ := hk
        obtain ⟨o1, h1, g1⟩ := slotOpt_of_walkUniq (fun m hm => IH m (by have h0 := sizeOf_opt_lt hm; simp <;> omega) (wfOptB_some hk1 hm)) (nid ++ ["ValueSpec"]) "Doc" (by decide)
        obtain ⟨o2, h2, g2⟩ := slotIdents_of_walkUniq (fun m hm => IH m (by have h0 := List.sizeOf_lt_of_mem hm; simp <;> omega) (wfListB_mem hk2 hm)) hkN (nid ++ ["ValueSpec"]) "Names" (by decide)
        obtain ⟨o3, h3, g3⟩ := slotOpt_of_walkUniq (fun m hm => IH m (by have h0 := sizeOf_opt_lt hm; simp <;> omega) (wfOptB_some hk3 hm)) (nid ++ ["ValueSpec"]) "Type" (by decide)
        obtain ⟨o4, h4, g4⟩ := slotList_of_walkUniq (fun m hm => IH m (by have h0 := List.sizeOf_lt_of_mem hm; simp <;> omega) (wfListB_mem hk4 hm)) (nid ++ ["ValueSpec"]) "Values" (by decide)
        obtain ⟨o5, h5, g5⟩ := slotOpt_of_walkUniq (fun m hm => IH m (by have h0 := sizeOf_opt_lt hm; simp <;> omega) (wfOptB_some hk5 hm)) (nid ++ ["ValueSpec"]) "Comment" (by decide)
        rw [h1, h2, h3, h4, h5]
        have hj := joinGood_append g1 (joinGood_append g2 (joinGood_append g3 (joinGood_append g4 (joinGood_single g5) (by decide)) (by decide)) (by decide)) (by decide)
        refine ⟨_, pathsOf o1 ++ (pathsOf o2 ++ (pathsOf o3 ++ (pathsOf o4 ++ (pathsOf o5)))), rfl, ?_, ?_, ?_, ?_⟩
        · simp only [pathsOf_cons_some, pathsOf_append, pathsOf_cons_none, pathsOf_nil,
            List.append_nil, List.nil_append, List.append_assoc]
          rfl
        · exact (by decide : slashFree "ValueSpec" = true)
        · exact joinGood_goodext hj
        · exact hj.1
    | typeSpec doc name ty comm =>
        intro nid
        rw [walkE_step inspTrue () _ nid "TypeSpec" (by rfl) (by decide)]
        rw [inspTrue_eq]
        simp only [visitStep]
        dsimp only [walkChildrenE]
        simp only [NodeId.push, NodeId.pushed, NodeId.dup]
        simp only [Node.wfB, Bool.and_eq_true] at hk
        obtain ⟨⟨⟨hk1, hk2⟩, hk3⟩, hk4⟩ := hk
        obtain ⟨o1, h1, g1⟩ := slotOpt_of_walkUniq (fun m hm => IH m (by have h0 := sizeOf_opt_lt hm; simp <;> omega) (wfOptB_some hk1 hm)) (nid ++ ["TypeSpec"]) "Doc" (by decide)
        obtain ⟨o2, h2, g2⟩ := slot_of_walkUniq (IH name (by simp <;> omega) hk2) (nid ++ ["TypeSpec"]) "Name" (by decide)
        obtain ⟨o3, h3, g3⟩ := slot_of_walkUniq (IH ty (by simp <;> omega) hk3) (nid ++ ["TypeSpec"]) "Type" (by decide)
        obtain ⟨o4, h4, g4⟩ := slotOpt_of_walkUniq (fun m hm => IH m (by have h0 := sizeOf_opt_lt hm; simp <;> omega) (wfOptB_some hk4 hm)) (nid ++ ["TypeSpec"]) "Comment" (by decide)
        rw [h1, h2, h3, h4]
        have hj := joinGood_append g1 (joinGood_append g2 (joinGood_append g3 (joinGood_single g4) (by decide)) (by decide)) (by decide)
        refine ⟨_, pathsOf o1 ++ (pathsOf o2 ++ (pathsOf o3 ++ (pathsOf o4))), rfl, ?_, ?_, ?_, ?_⟩
        · simp only [pathsOf_cons_some, pathsOf_append, pathsOf_cons_none, pathsOf_nil,
            List.append_nil, List.nil_append, List.append_assoc]
          rfl
        · exact (by decide : slashFree "TypeSpec" = true)
        · exact joinGood_goodext hj
        · exact hj.1
    | badDecl =>
        intro nid
        rw [walkE_step inspTrue () _ nid "BadDecl" (by rfl) (by decide)]
        rw [inspTrue_eq]
        simp only [visitStep]
        dsimp only [walkChildrenE]
        simp only [NodeId.push, NodeId.pushed, NodeId.dup]
        refine ⟨_, [], rfl, ?_, ?_, ?_, ?_⟩
        · simp only [pathsOf_cons_some, pathsOf_append, pathsOf_cons_none, pathsOf_nil,
            List.append_nil, List.nil_append, List.append_assoc]
          rfl
        · exact (by decide : slashFree "BadDecl" = true)
        · exact fun p hp => absurd hp (List.not_mem_nil p)
        · exact List.nodup_nil
    | genDecl doc specs =>
        intro nid
        rw [walkE_step inspTrue () _ nid "GenDecl" (by rfl) (by decide)]
        rw [inspTrue_eq]
        simp only [visitStep]
        dsimp only [walkChildrenE]
        simp only [NodeId.push, NodeId.pushed, NodeId.dup]
        simp only [Node.wfB, Bool.and_eq_true] at hk
        obtain ⟨hk1, hk2⟩ := hk
        obtain ⟨o1, h1, g1⟩ := slotOpt_of_walkUniq (fun m hm => IH m (by have h0 := sizeOf_opt_lt hm; simp <;> omega) (wfOptB_some hk1 hm)) (nid ++ ["GenDecl"]) "Doc" (by decide)
        obtain ⟨o2, h2, g2⟩ := slotList_of_walkUniq (fun m hm => IH m (by have h0 := List.sizeOf_lt_of_mem hm; simp <;> omega) (wfListB_mem hk2 hm)) (nid ++ ["GenDecl"]) "Specs" (by decide)
        rw [h1, h2]
        have hj := joinGood_append g1 (joinGood_single g2) (by decide)
        refine ⟨_, pathsOf o1 ++ (pathsOf o2), rfl, ?_, ?_, ?_, ?_⟩
        · simp only [pathsOf_cons_some, pathsOf_append, pathsOf_cons_none, pathsOf_nil,
            List.append_nil, List.nil_append, List.append_assoc]
          rfl
        · exact (by decide : slashFree "GenDecl" = true)
        · exact joinGood_goodext hj
        · exact hj.1
    | funcDecl doc recv name ty body =>
        intro nid
        rw [walkE_step inspTrue () _ nid "FuncDecl" (by rfl) (by decide)]
        rw [inspTrue_eq]
        simp only [visitStep]
        dsimp only [walkChildrenE]
        simp only [NodeId.push, NodeId.pushed, NodeId.dup]
        simp only [Node.wfB, Bool.and_eq_true] at hk
        obtain ⟨⟨⟨⟨hk1, hk2⟩, hk3⟩, hk4⟩, hk5⟩ := hk
        obtain ⟨o1, h1, g1⟩ := slotOpt_of_walkUniq (fun m hm => IH m (by have h0 := sizeOf_opt_lt hm; simp <;> omega) (wfOptB_some hk1 hm)) (nid ++ ["FuncDecl"]) "Doc" (by decide)
        obtain ⟨o2, h2, g2⟩ := slotOpt_of_walkUniq (fun m hm => IH m (by have h0 := sizeOf_opt_lt hm; simp <;> omega) (wfOptB_some hk2 hm)) (nid ++ ["FuncDecl"]) "Recv" (by decide)
        obtain ⟨o3, h3, g3⟩ := slot_of_walkUniq (IH name (by simp <;> omega) hk3) (nid ++ ["FuncDecl"]) "Name" (by decide)
        obtain ⟨o4, h4, g4⟩ := slot_of_walkUniq (IH ty (by simp <;> omega) hk4) (nid ++ ["FuncDecl"]) "Type" (by decide)
        obtain ⟨o5, h5, g5⟩ := slotOpt_of_walkUniq (fun m hm => IH m (by have h0 := sizeOf_opt_lt hm; simp <;> omega) (wfOptB_some hk5 hm)) (nid ++ ["FuncDecl"]) "Body" (by decide)
        rw [h1, h2, h3, h4, h5]
        have hj := joinGood_append g1 (joinGood_append g2 (joinGood_append g3 (joinGood_append g4 (joinGood_single g5) (by decide)) (by decide)) (by decide)) (by decide)
        refine ⟨_, pathsOf o1 ++ (pathsOf o2 ++ (pathsOf o3 ++ (pathsOf o4 ++ (pathsOf o5)))), rfl, ?_, ?_, ?_, ?_⟩
        · simp only [pathsOf_cons_some, pathsOf_append, pathsOf_cons_none, pathsOf_nil,
            List.append_nil, List.nil_append, List.append_assoc]
          rfl
        · exact (by decide : slashFree "FuncDecl" = true)
        · exact joinGood_goodext hj
        · exact hj.1
    | file doc name decls =>
        intro nid
        rw [walkE_step inspTrue () _ nid (name.identName ++ ".go") (by rfl) (by
          intro he
          have hlen := congrArg String.length he
          rw [String.length_append] at hlen
          have h3 : (".go").length = 3 := rfl
          have h0 : ("" : String).length = 0 := rfl
          omega)]
        rw [inspTrue_eq]
        simp only [visitStep]
        dsimp only [walkChildrenE]
        simp only [NodeId.push, NodeId.pushed, NodeId.dup]
        simp only [Node.wfB, Bool.and_eq_true] at hk
        obtain ⟨⟨⟨hkF, hk1⟩, hk2⟩, hk3⟩ := hk
        obtain ⟨o1, h1, g1⟩ := slotOpt_of_walkUniq (fun m hm => IH m (by have h0 := sizeOf_opt_lt hm; simp <;> omega) (wfOptB_some hk1 hm)) (nid ++ [name.identName ++ ".go"]) "Doc" (by decide)
        obtain ⟨o2, h2, g2⟩ := slot_of_walkUniq (IH name (by simp <;> omega) hk2) (nid ++ [name.identName ++ ".go"]) "Name" (by decide)
        obtain ⟨o3, h3, g3⟩ := slotList_of_walkUniq (fun m hm => IH m (by have h0 := List.sizeOf_lt_of_mem hm; simp <;> omega) (wfListB_mem hk3 hm)) (nid ++ [name.identName ++ ".go"]) "Decls" (by decide)
        rw [h1, h2, h3]
        have hj := joinGood_append g1 (joinGood_append g2 (joinGood_single g3) (by decide)) (by decide)
        refine ⟨_, pathsOf o1 ++ (pathsOf o2 ++ (pathsOf o3)), rfl, ?_, ?_, ?_, ?_⟩
        · simp only [pathsOf_cons_some, pathsOf_append, pathsOf_cons_none, pathsOf_nil,
            List.append_nil, List.nil_append, List.append_assoc]
          rfl
        · exact slashFree_append hkF (by decide)
        · exact joinGood_goodext hj
        · exact hj.1
    | package files =>
        intro nid
        rw [walkE_step inspTrue () _ nid "Package" (by rfl) (by decide)]
        rw [inspTrue_eq]
        simp only [visitStep]
        dsimp only [walkChildrenE]
        simp only [NodeId.push, NodeId.pushed, NodeId.dup]
        simp only [Node.wfB, Bool.and_eq_true] at hk
        obtain ⟨hkN, hk1⟩ := hk
        obtain ⟨o1, h1, g1⟩ := slotFiles_of_walkUniq (fun m hm => IH m (by have h0 := List.sizeOf_lt_of_mem hm; simp <;> omega) (wfListB_mem hk1 hm)) hkN (nid ++ ["Package"]) "Files" (by decide)
        rw [h1]
        have hj := joinGood_single g1
        refine ⟨_, pathsOf o1, rfl, ?_, ?_, ?_, ?_⟩
        · simp only [pathsOf_cons_some, pathsOf_append, pathsOf_cons_none, pathsOf_nil,
            List.append_nil, List.nil_append, List.append_assoc]
          rfl
        · exact (by decide : slashFree "Package" = true)
        · exact joinGood_goodext hj
        · exact hj.1
    | unknownNode tag =>
        exact Bool.noConfusion hk


/-- The rendered identifiers of `collect`'s records are the rendered
observation paths of the non-sentinel visits. -/
theorem map_render_filterMap (l : List Obs) :
    (l.filterMap (fun p => p.1.map (fun m => (m, p.2.dup)))).map
        (fun q => NodeId.render q.2) =
      (pathsOf l).map NodeId.render := by
  induction l with
  | nil => rfl
  | cons p rest ih =>
      obtain ⟨o, pid⟩ := p
      cases o with
      | none =>
          have he : ((none, pid) :: rest).filterMap
              (fun p => p.1.map (fun m => (m, p.2.dup))) =
            rest.filterMap (fun p => p.1.map (fun m => (m, p.2.dup))) := rfl
          rw [he, pathsOf_cons_none]
          exact ih
      | some n =>
          have he : (((some n : Option Node), pid) :: rest).filterMap
              (fun p => p.1.map (fun m => (m, p.2.dup))) =
            (n, pid.dup) :: rest.filterMap
              (fun p => p.1.map (fun m => (m, p.2.dup))) := rfl
          rw [he, pathsOf_cons_some]
          simp only [List.map_cons]
          rw [ih]
          rfl

/-- C1 counterexample: the claim quantifies over any input tree, but for a
`Field` whose `Names` list holds the same identifier `x` twice (Go source
such as `struct { x, x int }` is beyond the parser, yet the walker is
specified for any tree, and `walkIdentList` labels elements by name, not by
index), the collecting traversal succeeds and yields the rendered identifier
`"Field/Names/x/Ident"` twice: the identifiers are not pairwise distinct. -/
theorem C1_counterexample :
    ∃ l, collectE (Node.field none [Node.ident "x", Node.ident "x"]
        (Node.ident "int") none none) = .ok l ∧
      ¬ (l.map (fun q => NodeId.render q.2)).Nodup := by
  refine ⟨_, rfl, ?_⟩
  decide

/-- C1 (amended): uniqueness of identifiers holds for every well-formed
tree — one in which every variant is known, the names in each
identifier-labelled list (`Field.Names`, `ValueSpec.Names`) are pairwise
distinct and contain no `/`, every file's declared name contains no `/`,
and the own labels of a package's files are pairwise distinct. For such a
tree the collecting traversal (`collect`: `Inspect` with an always-true
predicate) succeeds and the rendered identifiers of all visited nodes are
pairwise distinct. -/
theorem C1_amended (t : Node) (h : t.wfB = true) :
    ∃ l, collectE t = .ok l ∧
      (l.map (fun q => NodeId.render q.2)).Nodup := by
  obtain ⟨l, ts, hw, hp, hcsf, hgood, hnd⟩ := walk_uniq_of_wf t h []
  refine ⟨l.filterMap (fun p => p.1.map (fun m => (m, p.2.dup))), ?_, ?_⟩
  · show (walkE inspTrue () t []).map
      (fun l => l.filterMap (fun p => p.1.map (fun m => (m, p.2.dup)))) = _
    rw [hw]
    rfl
  · rw [map_render_filterMap]
    have hne : ∀ p ∈ pathsOf l, p ≠ [] ∧ ∀ lab ∈ p, slashFree lab = true := by
      rw [hp]
      intro p hp2
      rcases List.mem_cons.mp hp2 with rfl | hmem
      · refine ⟨by simp, ?_⟩
        intro lab hl
        rw [List.nil_append] at hl
        rcases List.mem_singleton.mp hl with rfl
        exact hcsf
      · obtain ⟨ext, hext, hne2, hsfs⟩ := hgood p hmem
        subst hext
        constructor
        · simp
        · intro lab hl
          rcases List.mem_append.mp hl with h2 | h2
          · rw [List.nil_append] at h2
            rcases List.mem_singleton.mp h2 with rfl
            exact hcsf
          · exact hsfs lab h2
    have hndp : (pathsOf l).Nodup := by
      rw [hp]
      exact List.nodup_cons.mpr ⟨fun hmem => (hgood _ hmem).ne_base rfl, hnd⟩
    refine hndp.map_on ?_
    intro x hx y hy hxy
    exact render_inj (hne x hx).1 (hne y hy).1 (hne x hx).2 (hne y hy).2 hxy

/-- C1 amended witness: the amended theorem instantiated at a well-formed
two-name field, the very shape whose ill-formed variant refutes the
original claim. -/
theorem C1_amended_witness :
    (Node.field none [Node.ident "a", Node.ident "b"]
        (Node.ident "int") none none).wfB = true ∧
      ∃ l, collectE (Node.field none [Node.ident "a", Node.ident "b"]
          (Node.ident "int") none none) = .ok l ∧
        (l.map (fun q => NodeId.render q.2)).Nodup :=
  ⟨by decide, C1_amended (Node.field none [Node.ident "a", Node.ident "b"]
      (Node.ident "int") none none) (by decide)⟩
